import Mathlib

/-!
# eOS control surface library: a shallow embedding of `src/eOS.cpp`

Every control of the library is polled by `update()`.  An `update()` reads pins
(`digitalRead`, `analogRead`), the millisecond clock (`millis`) and hands finished
messages to `eos.sendOSC`.  Here

* the state of a control is a structure holding the private members of its class,
* each hardware read of one `update()` call is a field of an input record
  (one field per call site, so that two reads of one call may differ),
* `update` returns the new state together with the list of messages passed to
  `eos.sendOSC`, in the order of the calls.

Unsigned 8 bit members are natural numbers, signed members are integers that are
wrapped with `toInt8` / `toInt16` where the source narrows them, the 32 bit clock is
a natural number taken modulo `2 ^ 32`.  A `float` is the rational number that the
32 bit float stands for: the quotient of a fader message is rounded the way the
source rounds it, to a double (53 bit significand) and then to a float (24 bit
significand), round to nearest, ties to even.
-/

/-! ## Constants -/

/-- Value of the Arduino core constant `LOW`. -/
def LOW : Nat := 0
/-- Value of the Arduino core constant `HIGH`. -/
def HIGH : Nat := 1

/-- Constant `EDGE_DOWN` of eOS.h, line 47. -/
def EDGE_DOWN : Int := 1
/-- Constant `EDGE_UP` of eOS.h, line 48. -/
def EDGE_UP : Int := 0
/-- Constant `FORWARD` of eOS.h, line 50. -/
def FORWARD : Nat := 0
/-- Constant `REVERSE` of eOS.h, line 51. -/
def REVERSE : Nat := 1
/-- Constant `INT_ACC` of eOS.h, line 53. -/
def INT_ACC : Int := 4
/-- Constant `WHEEL_ACC` of eOS.h, line 54. -/
def WHEEL_ACC : Int := 1
/-- Constant `FADER_UPDATE_RATE_MS` of eOS.h, line 56. -/
def FADER_UPDATE_RATE_MS : Nat := 40
/-- Constant `THRESHOLD` of eOS.h, line 57. -/
def THRESHOLD : Int := 4

/-! ## Machine integers -/

/-- Conversion to `uint8_t`. -/
def toUInt8 (n : Nat) : Nat := n % 256

/-- Conversion to `int8_t` (two's complement wrap). -/
def toInt8 (x : Int) : Int := (x + 128) % 256 - 128

/-- Conversion to `int16_t` (two's complement wrap). -/
def toInt16 (x : Int) : Int := (x + 32768) % 65536 - 32768

/-- Conversion to `uint32_t`. -/
def toUInt32 (n : Nat) : Nat := n % 2 ^ 32

/-! ## Floating point -/

/-- Floor of the binary logarithm by repeated halving; `fuel` bounds the number of
halvings. -/
def log2Fuel : Nat → Nat → Nat
  | 0, _ => 0
  | fuel + 1, n => if 2 ≤ n then log2Fuel fuel (n / 2) + 1 else 0

/-- Floor of the binary logarithm of a positive number (0 for 0). -/
def floorLog2 (n : Nat) : Nat := log2Fuel n n

/-- The integer nearest to `n / d`, ties going to the even one. -/
def roundHalfEven (n d : Nat) : Nat :=
  if 2 * (n % d) < d then n / d
  else if d < 2 * (n % d) then n / d + 1
  else if (n / d) % 2 = 0 then n / d else n / d + 1

/-- The binary floating point number with a significand of `p` bits nearest to
`n / d` (round to nearest, ties to even), as numerator and denominator: with the
scale `s` for which `2 ^ (p - 1) <= (n / d) * 2 ^ s < 2 ^ p` it is
`roundHalfEven ((n / d) * 2 ^ s) / 2 ^ s`.  The exponent range is not bounded, which
no quotient of this program reaches; a zero divisor, which the program never has,
gives 0. -/
def roundBinary (p : Nat) (n d : Nat) : Nat × Nat :=
  if n = 0 ∨ d = 0 then (0, 1)
  else
    let s0 : Int := (p : Int) - 1 + (floorLog2 d : Int) - (floorLog2 n : Int)
    let s : Int :=
      if n * 2 ^ s0.toNat < 2 ^ (p - 1) * (d * 2 ^ (-s0).toNat) then s0 + 1 else s0
    let m := roundHalfEven (n * 2 ^ s.toNat) (d * 2 ^ (-s).toNat)
    (m * 2 ^ (-s).toNat, 2 ^ s.toNat)

/-- The quotient `a / b` of two natural numbers computed in `double` and stored in
a `float`, as numerator and denominator. -/
def float32Parts (a b : Nat) : Nat × Nat :=
  roundBinary 24 (roundBinary 53 a b).1 (roundBinary 53 a b).2

/-- The value of the C expression `(float)(a * 1.0 / b)` for integers `a` and `b`:
the operands are exact in `double`, the division rounds to a `double`, the store
rounds to a `float`. -/
def divFloat32 (a b : Int) : ℚ :=
  let q : ℚ := ((float32Parts a.natAbs b.natAbs).1 : ℚ) / ((float32Parts a.natAbs b.natAbs).2 : ℚ)
  if (a < 0 ∧ 0 < b) ∨ (0 < a ∧ b < 0) then -q else q

/-! ## Messages -/

/-- One typed argument of an OSC message. -/
inductive OSCData where
  | int (v : Int)
  | float (v : ℚ)
  | str (s : String)
  deriving DecidableEq

/-- An OSC message under construction: the address pattern and the arguments
added so far. -/
structure OSCMessage where
  address : String
  args : List OSCData
  deriving DecidableEq

/-- The constructor `OSCMessage(const char *address)`: no argument yet. -/
def OSCMessage.new (address : String) : OSCMessage :=
  { address := address, args := [] }

/-- The method `OSCMessage::add`: one more argument at the end. -/
def OSCMessage.add (m : OSCMessage) (d : OSCData) : OSCMessage :=
  { m with args := m.args ++ [d] }

/-- The conversion `String(n)` of an unsigned number: its decimal digits. -/
def decimal (n : Nat) : String := toString n

/-! ## Key (eOS.cpp, lines 100 to 120) -/

/-- Private members of class `Key`. -/
structure Key where
  keyPattern : String
  pin : Nat
  last : Nat
  deriving DecidableEq

/-- The constructor `Key::Key`; `level` is what `digitalRead(pin)` returns. -/
def Key.construct (pin : Nat) (keyName : String) (level : Nat) : Key :=
  { pin := pin, last := toUInt8 level, keyPattern := "/eos/key/" ++ keyName }

/-- The method `Key::update`; `sample` is what `digitalRead(pin)` returns. -/
def Key.update (k : Key) (sample : Nat) : Key × List OSCMessage :=
  if sample ≠ k.last then
    let keyUpdate := OSCMessage.new k.keyPattern
    if k.last = LOW then
      ({ k with last := HIGH }, [keyUpdate.add (OSCData.int EDGE_UP)])
    else
      ({ k with last := LOW }, [keyUpdate.add (OSCData.int EDGE_DOWN)])
  else
    (k, [])

/-- A poll loop over `Key::update`: one sample per call, messages in order. -/
def Key.run (k : Key) : List Nat → Key × List OSCMessage
  | [] => (k, [])
  | s :: rest =>
    let r := k.update s
    let q := Key.run r.1 rest
    (q.1, r.2 ++ q.2)

/-! ## Macro (eOS.cpp, lines 405 to 425) -/

/-- Private members of class `Macro`. -/
structure Macro where
  firePattern : String
  pin : Nat
  last : Nat
  deriving DecidableEq

/-- The constructor `Macro::Macro`; `level` is what `digitalRead(pin)` returns. -/
def Macro.construct (pin : Nat) (macroNo : Nat) (level : Nat) : Macro :=
  { pin := pin, last := toUInt8 level,
    firePattern := "/eos/macro/" ++ decimal macroNo ++ "/fire" }

/-- The method `Macro::update`; `sample` is what `digitalRead(pin)` returns. -/
def Macro.update (m : Macro) (sample : Nat) : Macro × List OSCMessage :=
  if sample ≠ m.last then
    let fireUpdate := OSCMessage.new m.firePattern
    if m.last = LOW then
      ({ m with last := HIGH }, [fireUpdate.add (OSCData.int EDGE_UP)])
    else
      ({ m with last := LOW }, [fireUpdate.add (OSCData.int EDGE_DOWN)])
  else
    (m, [])

/-- A poll loop over `Macro::update`: one sample per call, messages in order. -/
def Macro.run (m : Macro) : List Nat → Macro × List OSCMessage
  | [] => (m, [])
  | s :: rest =>
    let r := m.update s
    let q := Macro.run r.1 rest
    (q.1, r.2 ++ q.2)

/-! ## Shift button (eOS.cpp, lines 122 to 129) -/

/-- The function `shiftButton`: the new value of the global `shiftPin`, which is
zero until a non-zero pin is installed. -/
def shiftButton (shiftPin : Nat) (pin : Nat) : Nat :=
  if pin ≠ 0 then pin else shiftPin

/-! ## Encoder (eOS.cpp, lines 131 to 208) -/

/-- The enumeration `ButtonMode` of eOS.h. -/
inductive ButtonMode where
  | HOME
  | FINE
  deriving DecidableEq

/-- Numeric value of a `ButtonMode` enumerator. -/
def ButtonMode.toNat : ButtonMode → Nat
  | ButtonMode.HOME => 0
  | ButtonMode.FINE => 1

/-- Private members of class `Encoder`. -/
structure Encoder where
  param : String
  pinA : Nat
  pinB : Nat
  buttonPin : Nat
  buttonMode : ButtonMode
  pinALast : Nat
  pinACurrent : Nat
  buttonPinLast : Nat
  direction : Nat
  encoderMotion : Int
  deriving DecidableEq

/-- The levels `digitalRead` returns during one `update()` of an Encoder or a
Wheel, one field per pin that is read. -/
structure EncoderInput where
  pinA : Nat
  pinB : Nat
  shiftPin : Nat
  buttonPin : Nat
  deriving DecidableEq

/-- The constructor `Encoder::Encoder`.  It assigns three members only; `mem` is
the content of the object's storage before the constructor runs. -/
def Encoder.construct (mem : Encoder) (pinA pinB direction : Nat) : Encoder :=
  { mem with param := "", pinA := pinA, pinB := pinB, direction := direction }

/-- The method `Encoder::button`. -/
def Encoder.button (e : Encoder) (buttonPin : Nat) (buttonMode : ButtonMode) : Encoder :=
  if buttonPin ≠ 0 then { e with buttonPin := buttonPin, buttonMode := buttonMode } else e

/-- The setter `Encoder::parameter(String)`. -/
def Encoder.setParameter (e : Encoder) (param : String) : Encoder :=
  { e with param := param }

/-- The getter `Encoder::parameter()`. -/
def Encoder.parameter (e : Encoder) : String := e.param

/-- Lines 156 to 190 of `Encoder::update`: the quadrature step and the motion
message.  `shiftPin` is the global of that name. -/
def Encoder.updateMotion (shiftPin : Nat) (e : Encoder) (i : EncoderInput) :
    Encoder × List OSCMessage :=
  let pinACurrent := toUInt8 i.pinA
  let motion0 : Int :=
    if e.pinALast ≠ 0 ∧ pinACurrent = 0 then
      let m : Int := if i.pinB ≠ 0 then -1 else 1
      if e.direction = REVERSE then toInt8 (-m) else m
    else 0
  if motion0 ≠ 0 then
    let wheelMsg0 : String := "/eos/wheel"
    let s1 : Int × String :=
      if shiftPin ≠ 0 then
        if e.param = "Intens" ∨ e.param = "intens" then
          if i.shiftPin = LOW then (toInt8 (motion0 * INT_ACC), wheelMsg0)
          else (motion0, wheelMsg0)
        else if i.shiftPin = LOW then (motion0, wheelMsg0 ++ "/fine")
        else (motion0, wheelMsg0)
      else (motion0, wheelMsg0)
    let s2 : Int × String :=
      if e.buttonPin ≠ 0 ∧ e.buttonMode = ButtonMode.FINE then
        if e.param = "Intens" ∨ e.param = "intens" then
          if i.buttonPin = LOW then (toInt8 (s1.1 * INT_ACC), s1.2)
          else s1
        else if i.buttonPin = LOW then (s1.1, s1.2 ++ "/fine")
        else s1
      else s1
    let motion3 : Int := toInt8 (s2.1 * WHEEL_ACC)
    let wheelMsg3 : String := s2.2 ++ ("/" ++ e.param)
    let wheelUpdate := (OSCMessage.new wheelMsg3).add (OSCData.int motion3)
    ({ e with pinACurrent := pinACurrent, pinALast := pinACurrent, encoderMotion := motion3 },
      [wheelUpdate])
  else
    ({ e with pinACurrent := pinACurrent, pinALast := pinACurrent, encoderMotion := motion0 },
      [])

/-- Lines 192 to 207 of `Encoder::update`: the Home button. -/
def Encoder.updateButton (e : Encoder) (i : EncoderInput) : Encoder × List OSCMessage :=
  if e.buttonPin ≠ 0 then
    if e.buttonMode = ButtonMode.HOME then
      if i.buttonPin ≠ e.buttonPinLast then
        let buttonUpdate := OSCMessage.new ("/eos/param/" ++ e.param ++ "/home")
        if e.buttonPinLast = LOW then
          ({ e with buttonPinLast := HIGH }, [buttonUpdate.add (OSCData.int EDGE_UP)])
        else
          ({ e with buttonPinLast := LOW }, [buttonUpdate.add (OSCData.int EDGE_DOWN)])
      else (e, [])
    else (e, [])
  else (e, [])

/-- The method `Encoder::update`: the motion part, then the Home button. -/
def Encoder.update (shiftPin : Nat) (e : Encoder) (i : EncoderInput) :
    Encoder × List OSCMessage :=
  let r := Encoder.updateMotion shiftPin e i
  let q := Encoder.updateButton r.1 i
  (q.1, r.2 ++ q.2)

/-! ## Wheel (eOS.cpp, lines 210 to 271) -/

/-- Private members of class `Wheel`. -/
structure Wheel where
  idx : Nat
  pinA : Nat
  pinB : Nat
  buttonPin : Nat
  pinALast : Nat
  pinACurrent : Nat
  buttonPinLast : Nat
  buttonMode : Nat
  direction : Nat
  encoderMotion : Int
  deriving DecidableEq

/-- The constructor `Wheel::Wheel`.  It assigns three members only; `mem` is the
content of the object's storage before the constructor runs. -/
def Wheel.construct (mem : Wheel) (pinA pinB direction : Nat) : Wheel :=
  { mem with pinA := pinA, pinB := pinB, direction := direction }

/-- The method `Wheel::button`. -/
def Wheel.button (w : Wheel) (buttonPin : Nat) (buttonMode : ButtonMode) : Wheel :=
  if buttonPin ≠ 0 ∧ buttonMode = ButtonMode.FINE then
    { w with buttonPin := buttonPin, buttonMode := buttonMode.toNat }
  else w

/-- The setter `Wheel::index(uint8_t)`. -/
def Wheel.setIndex (w : Wheel) (idx : Nat) : Wheel :=
  { w with idx := idx }

/-- The getter `Wheel::index()`. -/
def Wheel.index (w : Wheel) : Nat := w.idx

/-- The method `Wheel::update`.  `shiftPin` is the global of that name. -/
def Wheel.update (shiftPin : Nat) (w : Wheel) (i : EncoderInput) :
    Wheel × List OSCMessage :=
  let pinACurrent := toUInt8 i.pinA
  let motion0 : Int :=
    if w.pinALast ≠ 0 ∧ pinACurrent = 0 then
      let m : Int := if i.pinB ≠ 0 then -1 else 1
      if w.direction = REVERSE then toInt8 (-m) else m
    else 0
  if motion0 ≠ 0 then
    let wheelMsg0 : String := "/eos/active/wheel"
    let s1 : Int × String :=
      if shiftPin ≠ 0 then
        if w.idx = 1 then
          if i.shiftPin = LOW then (toInt8 (motion0 * INT_ACC), wheelMsg0)
          else (motion0, wheelMsg0)
        else if i.shiftPin = LOW then (motion0, wheelMsg0 ++ "/fine")
        else (motion0, wheelMsg0)
      else (motion0, wheelMsg0)
    let s2 : Int × String :=
      if w.buttonPin ≠ 0 ∧ w.buttonMode = ButtonMode.FINE.toNat then
        if w.idx = 1 then
          if i.buttonPin = LOW then (toInt8 (s1.1 * INT_ACC), s1.2)
          else s1
        else if i.buttonPin = LOW then (s1.1, s1.2 ++ "/fine")
        else s1
      else s1
    let motion3 : Int := toInt8 (s2.1 * WHEEL_ACC)
    let wheelMsg3 : String := s2.2 ++ ("/" ++ decimal w.idx)
    let wheelUpdate := (OSCMessage.new wheelMsg3).add (OSCData.int motion3)
    ({ w with pinACurrent := pinACurrent, pinALast := pinACurrent, encoderMotion := motion3 },
      [wheelUpdate])
  else
    ({ w with pinACurrent := pinACurrent, pinALast := pinACurrent, encoderMotion := motion0 },
      [])

/-! ## Submaster (eOS.cpp, lines 273 to 313) -/

/-- Private members of class `Submaster`. -/
structure Submaster where
  subPattern : String
  analogPin : Nat
  firePin : Nat
  analogLast : Int
  fireLast : Nat
  updateTime : Nat
  deriving DecidableEq

/-- What the hardware returns during one `update()` of a Fader or a Submaster:
`millisTest` is `millis()` in the interval test, `analogRead` the raw reading,
`millisStore` is `millis()` when the timestamp is stored, `firePin` and `stopPin`
are the levels of the two buttons. -/
structure FaderInput where
  millisTest : Nat
  analogRead : Nat
  millisStore : Nat
  firePin : Nat
  stopPin : Nat
  deriving DecidableEq

/-- The constructor `Submaster::Submaster`; `fireLevel` is what
`digitalRead(firePin)` returns and `now` what `millis()` returns. -/
def Submaster.construct (analogPin firePin sub : Nat) (fireLevel now : Nat) : Submaster :=
  { analogPin := analogPin, firePin := firePin, analogLast := toInt16 0xFFFF,
    fireLast := toUInt8 fireLevel, subPattern := "/eos/sub/" ++ decimal sub,
    updateTime := toUInt32 now }

/-- Lines 284 to 298 of `Submaster::update`: the timed filter pass. -/
def Submaster.updateAnalog (s : Submaster) (i : FaderInput) : Submaster × List OSCMessage :=
  if toUInt32 (s.updateTime + FADER_UPDATE_RATE_MS) < toUInt32 i.millisTest then
    let raw : Int := toInt16 ((i.analogRead >>> 2 : Nat) : Int)
    let current0 : Int := toInt16 THRESHOLD
    let delta : Int := toInt16 (raw - current0)
    let current1 : Int := if delta ≤ -THRESHOLD then toInt16 (raw + THRESHOLD) else current0
    let current2 : Int := if delta ≥ THRESHOLD then toInt16 (raw - THRESHOLD) else current1
    if current2 ≠ s.analogLast then
      let value : ℚ := divFloat32 (current2 - THRESHOLD) (255 - 2 * THRESHOLD)
      let faderUpdate := (OSCMessage.new s.subPattern).add (OSCData.float value)
      ({ s with analogLast := current2, updateTime := toUInt32 i.millisStore }, [faderUpdate])
    else
      ({ s with updateTime := toUInt32 i.millisStore }, [])
  else (s, [])

/-- Lines 299 to 312 of `Submaster::update`: the fire button. -/
def Submaster.updateFire (s : Submaster) (i : FaderInput) : Submaster × List OSCMessage :=
  if s.firePin ≠ 0 then
    if i.firePin ≠ s.fireLast then
      let fireUpdate := OSCMessage.new (s.subPattern ++ "/fire")
      if s.fireLast = LOW then
        ({ s with fireLast := HIGH }, [fireUpdate.add (OSCData.int EDGE_UP)])
      else
        ({ s with fireLast := LOW }, [fireUpdate.add (OSCData.int EDGE_DOWN)])
    else (s, [])
  else (s, [])

/-- The method `Submaster::update`: the filter pass, then the fire button. -/
def Submaster.update (s : Submaster) (i : FaderInput) : Submaster × List OSCMessage :=
  let r := Submaster.updateAnalog s i
  let q := Submaster.updateFire r.1 i
  (q.1, r.2 ++ q.2)

/-- A poll loop over `Submaster::update`: one input record per call. -/
def Submaster.run (s : Submaster) : List FaderInput → Submaster × List OSCMessage
  | [] => (s, [])
  | i :: rest =>
    let r := s.update i
    let q := Submaster.run r.1 rest
    (q.1, r.2 ++ q.2)

/-! ## Fader (eOS.cpp, lines 326 to 403) -/

/-- Private members of class `Fader`. -/
structure Fader where
  faderPattern : String
  bank : Nat
  fader : Nat
  analogPin : Nat
  firePin : Nat
  stopPin : Nat
  analogLast : Int
  fireLast : Nat
  stopLast : Nat
  updateTime : Nat
  deriving DecidableEq

/-- The constructor `Fader::Fader`; `fireLevel` and `stopLevel` are what
`digitalRead(firePin)` and `digitalRead(stopPin)` return, `now` is `millis()`. -/
def Fader.construct (analogPin firePin stopPin fader bank : Nat)
    (fireLevel stopLevel now : Nat) : Fader :=
  { bank := bank, fader := fader, analogPin := analogPin, firePin := firePin,
    stopPin := stopPin, analogLast := toInt16 0xFFFF,
    fireLast := toUInt8 fireLevel, stopLast := toUInt8 stopLevel,
    faderPattern := "/eos/fader/" ++ decimal bank ++ "/" ++ decimal fader,
    updateTime := toUInt32 now }

/-- Lines 342 to 356 of `Fader::update`: the timed filter pass. -/
def Fader.updateAnalog (f : Fader) (i : FaderInput) : Fader × List OSCMessage :=
  if toUInt32 (f.updateTime + FADER_UPDATE_RATE_MS) < toUInt32 i.millisTest then
    let raw : Int := toInt16 ((i.analogRead >>> 2 : Nat) : Int)
    let current0 : Int := toInt16 THRESHOLD
    let delta : Int := toInt16 (raw - current0)
    let current1 : Int := if delta ≤ -THRESHOLD then toInt16 (raw + THRESHOLD) else current0
    let current2 : Int := if delta ≥ THRESHOLD then toInt16 (raw - THRESHOLD) else current1
    if current2 ≠ f.analogLast then
      let value : ℚ := divFloat32 (current2 - THRESHOLD) (255 - 2 * THRESHOLD)
      let faderUpdate := (OSCMessage.new f.faderPattern).add (OSCData.float value)
      ({ f with analogLast := current2, updateTime := toUInt32 i.millisStore }, [faderUpdate])
    else
      ({ f with updateTime := toUInt32 i.millisStore }, [])
  else (f, [])

/-- Lines 358 to 371 of `Fader::update`: the fire button. -/
def Fader.updateFire (f : Fader) (i : FaderInput) : Fader × List OSCMessage :=
  if f.firePin ≠ 0 then
    if i.firePin ≠ f.fireLast then
      let fireUpdate := OSCMessage.new (f.faderPattern ++ "/fire")
      if f.fireLast = LOW then
        ({ f with fireLast := HIGH }, [fireUpdate.add (OSCData.int EDGE_UP)])
      else
        ({ f with fireLast := LOW }, [fireUpdate.add (OSCData.int EDGE_DOWN)])
    else (f, [])
  else (f, [])

/-- Lines 373 to 386 of `Fader::update`: the stop button. -/
def Fader.updateStop (f : Fader) (i : FaderInput) : Fader × List OSCMessage :=
  if f.stopPin ≠ 0 then
    if i.stopPin ≠ f.stopLast then
      let stopUpdate := OSCMessage.new (f.faderPattern ++ "/stop")
      if f.stopLast = LOW then
        ({ f with stopLast := HIGH }, [stopUpdate.add (OSCData.int EDGE_UP)])
      else
        ({ f with stopLast := LOW }, [stopUpdate.add (OSCData.int EDGE_DOWN)])
    else (f, [])
  else (f, [])

/-- The method `Fader::update`: the filter pass, the fire button, the stop button. -/
def Fader.update (f : Fader) (i : FaderInput) : Fader × List OSCMessage :=
  let r := Fader.updateAnalog f i
  let q := Fader.updateFire r.1 i
  let p := Fader.updateStop q.1 i
  (p.1, r.2 ++ q.2 ++ p.2)

/-- A poll loop over `Fader::update`: one input record per call. -/
def Fader.run (f : Fader) : List FaderInput → Fader × List OSCMessage
  | [] => (f, [])
  | i :: rest =>
    let r := f.update i
    let q := Fader.run r.1 rest
    (q.1, r.2 ++ q.2)

/-- The setter `Fader::faderBank(uint8_t)`. -/
def Fader.setFaderBank (f : Fader) (bank : Nat) : Fader := { f with bank := bank }

/-- The getter `Fader::faderBank()`. -/
def Fader.faderBank (f : Fader) : Nat := f.bank

/-- The setter `Fader::faderNumber(uint8_t)`. -/
def Fader.setFaderNumber (f : Fader) (fader : Nat) : Fader := { f with fader := fader }

/-- The getter `Fader::faderNumber()`. -/
def Fader.faderNumber (f : Fader) : Nat := f.fader

/-! ## Poll loops of Encoder and Wheel -/

/-- A poll loop over `Encoder::update`: one record of pin readings per call. -/
def Encoder.run (shiftPin : Nat) (e : Encoder) : List EncoderInput → Encoder × List OSCMessage
  | [] => (e, [])
  | i :: rest =>
    let r := Encoder.update shiftPin e i
    let q := Encoder.run shiftPin r.1 rest
    (q.1, r.2 ++ q.2)

/-- A poll loop over `Wheel::update`: one record of pin readings per call. -/
def Wheel.run (shiftPin : Nat) (w : Wheel) : List EncoderInput → Wheel × List OSCMessage
  | [] => (w, [])
  | i :: rest =>
    let r := Wheel.update shiftPin w i
    let q := Wheel.run shiftPin r.1 rest
    (q.1, r.2 ++ q.2)

/-- Zero-initialised storage of an Encoder, as an object with static storage
duration has before its constructor runs. -/
def Encoder.zeroStorage : Encoder :=
  { param := "", pinA := 0, pinB := 0, buttonPin := 0, buttonMode := ButtonMode.HOME,
    pinALast := 0, pinACurrent := 0, buttonPinLast := 0, direction := 0, encoderMotion := 0 }

/-! ## EOS transport (eOS.cpp, lines 12 to 47) -/

/-- An `IPAddress` of the Arduino core: four octets. -/
structure IPAddress where
  a : Nat
  b : Nat
  c : Nat
  d : Nat
  deriving DecidableEq

/-- The default constructed `IPAddress()` of the Arduino core: 0.0.0.0. -/
def IPAddress.zero : IPAddress := { a := 0, b := 0, c := 0, d := 0 }

/-- The enumeration `interface_t` of eOS.h, line 59. -/
inductive interface_t where
  | EOSUSB
  | EOSUDP
  deriving DecidableEq

/-- Private members of class `EOS` that `sendOSC` reads (the `udp` pointer names
the one UDP socket and is left out). -/
structure EOS where
  ip : IPAddress
  port : Nat
  interface : interface_t
  deriving DecidableEq

/-- What one transport write consists of: a UDP packet to a destination
(`beginPacket(ip, port)`, the message, `endPacket()`), or a SLIP frame on the
serial link (`beginPacket()`, the message, `endPacket()`). -/
inductive Transmission where
  | udpPacket (ip : IPAddress) (port : Nat) (msg : OSCMessage)
  | slipFrame (msg : OSCMessage)
  deriving DecidableEq

/-- The constructor `EOS::EOS(UDP &udp, IPAddress ip, uint16_t port, interface_t)`. -/
def EOS.constructUdp (ip : IPAddress) (port : Nat) (interface : interface_t) : EOS :=
  { ip := ip, port := port, interface := interface }

/-- The constructor `EOS::EOS(interface_t)`: `ip` is default constructed and `port`
keeps what the storage `mem` held. -/
def EOS.constructSerial (mem : EOS) (interface : interface_t) : EOS :=
  { mem with ip := IPAddress.zero, interface := interface }

/-- The method `EOS::sendOSC(OSCMessage&, IPAddress, uint16_t)`, lines 23 to 34. -/
def EOS.sendOSCTo (eos : EOS) (msg : OSCMessage) (ip : IPAddress) (port : Nat) :
    List Transmission :=
  (if eos.interface = interface_t.EOSUDP then [Transmission.udpPacket ip port msg] else []) ++
  (if eos.interface = interface_t.EOSUSB then [Transmission.slipFrame msg] else [])

/-- The method `EOS::sendOSC(OSCMessage&)`, lines 36 to 47. -/
def EOS.sendOSC (eos : EOS) (msg : OSCMessage) : List Transmission :=
  (if eos.interface = interface_t.EOSUDP then
    [Transmission.udpPacket eos.ip eos.port msg] else []) ++
  (if eos.interface = interface_t.EOSUSB then [Transmission.slipFrame msg] else [])

/-! ## OscButton (eOS.cpp, lines 427 to 519) -/

/-- The enumeration `OscButton::osc_t`. -/
inductive osc_t where
  | NONE
  | INT32
  | FLOAT32
  | STRING
  deriving DecidableEq

/-- Private members of class `OscButton`.  The `float` member is kept as an exact
number. -/
structure OscButton where
  typ : osc_t
  pattern : String
  integer32 : Int
  float32 : ℚ
  message : String
  ip : IPAddress
  port : Nat
  pin : Nat
  last : Nat
  deriving DecidableEq

/-- One call `eos.sendOSC(osc, ip, port)`: the message and the destination passed. -/
structure SendCall where
  msg : OSCMessage
  ip : IPAddress
  port : Nat
  deriving DecidableEq

/-- The constructor `OscButton(pin, pattern, int32_t)`, lines 427 to 434.  In all
constructors `mem` is the content of the object's storage before the constructor
runs (scalar members that are not assigned keep it, `String` and `IPAddress` members
that are not assigned are default constructed) and `level` is what
`digitalRead(pin)` returns. -/
def OscButton.constructInt (mem : OscButton) (pin : Nat) (pattern : String) (integer32 : Int)
    (level : Nat) : OscButton :=
  { mem with pin := pin, pattern := pattern, integer32 := integer32, message := "",
             ip := IPAddress.zero, last := toUInt8 level, typ := osc_t.INT32 }

/-- The constructor `OscButton(pin, pattern, int32_t, ip, port)`, lines 436 to 445. -/
def OscButton.constructIntTo (mem : OscButton) (pin : Nat) (pattern : String) (integer32 : Int)
    (ip : IPAddress) (port : Nat) (level : Nat) : OscButton :=
  { mem with pin := pin, pattern := pattern, integer32 := integer32, message := "",
             ip := ip, port := port, last := toUInt8 level, typ := osc_t.INT32 }

/-- The constructor `OscButton(pin, pattern, float)`, lines 447 to 454. -/
def OscButton.constructFloat (mem : OscButton) (pin : Nat) (pattern : String) (float32 : ℚ)
    (level : Nat) : OscButton :=
  { mem with pin := pin, pattern := pattern, float32 := float32, message := "",
             ip := IPAddress.zero, last := toUInt8 level, typ := osc_t.FLOAT32 }

/-- The constructor `OscButton(pin, pattern, float, ip, port)`, lines 456 to 465. -/
def OscButton.constructFloatTo (mem : OscButton) (pin : Nat) (pattern : String) (float32 : ℚ)
    (ip : IPAddress) (port : Nat) (level : Nat) : OscButton :=
  { mem with pin := pin, pattern := pattern, float32 := float32, message := "",
             ip := ip, port := port, last := toUInt8 level, typ := osc_t.FLOAT32 }

/-- The constructor `OscButton(pin, pattern, String)`, lines 467 to 474. -/
def OscButton.constructString (mem : OscButton) (pin : Nat) (pattern : String)
    (message : String) (level : Nat) : OscButton :=
  { mem with pin := pin, pattern := pattern, message := message,
             ip := IPAddress.zero, last := toUInt8 level, typ := osc_t.STRING }

/-- The constructor `OscButton(pin, pattern, String, ip, port)`, lines 476 to 485. -/
def OscButton.constructStringTo (mem : OscButton) (pin : Nat) (pattern : String)
    (message : String) (ip : IPAddress) (port : Nat) (level : Nat) : OscButton :=
  { mem with pin := pin, pattern := pattern, message := message,
             ip := ip, port := port, last := toUInt8 level, typ := osc_t.STRING }

/-- The constructor `OscButton(pin, pattern)`, lines 487 to 493. -/
def OscButton.constructNone (mem : OscButton) (pin : Nat) (pattern : String)
    (level : Nat) : OscButton :=
  { mem with pin := pin, pattern := pattern, message := "",
             ip := IPAddress.zero, last := toUInt8 level, typ := osc_t.NONE }

/-- The constructor `OscButton(pin, pattern, ip, port)`, lines 495 to 503. -/
def OscButton.constructNoneTo (mem : OscButton) (pin : Nat) (pattern : String)
    (ip : IPAddress) (port : Nat) (level : Nat) : OscButton :=
  { mem with pin := pin, pattern := pattern, message := "",
             ip := ip, port := port, last := toUInt8 level, typ := osc_t.NONE }

/-- The method `OscButton::update`, lines 505 to 519; `sample` is what
`digitalRead(pin)` returns.  The result lists the calls of
`eos.sendOSC(osc, ip, port)`. -/
def OscButton.update (b : OscButton) (sample : Nat) : OscButton × List SendCall :=
  if sample ≠ b.last then
    if b.last = LOW then
      ({ b with last := HIGH }, [])
    else
      let osc0 := OSCMessage.new b.pattern
      let osc1 := if b.typ = osc_t.INT32 then osc0.add (OSCData.int b.integer32) else osc0
      let osc2 := if b.typ = osc_t.FLOAT32 then osc1.add (OSCData.float b.float32) else osc1
      let osc3 := if b.typ = osc_t.STRING then osc2.add (OSCData.str b.message) else osc2
      ({ b with last := LOW }, [{ msg := osc3, ip := b.ip, port := b.port }])
  else
    (b, [])

/-- A poll loop over `OscButton::update`: one sample per call, calls in order. -/
def OscButton.run (b : OscButton) : List Nat → OscButton × List SendCall
  | [] => (b, [])
  | s :: rest =>
    let r := b.update s
    let q := OscButton.run r.1 rest
    (q.1, r.2 ++ q.2)

/-- What reaches the transport when the calls of an OscButton are carried out by
the gateway `eos`. -/
def EOS.transmit (eos : EOS) (calls : List SendCall) : List Transmission :=
  calls.flatMap (fun c => eos.sendOSCTo c.msg c.ip c.port)

/-! ## Specification side definitions

These follow the wording of the specification and are compared with the code in
the theorems below. -/

/-- The edge-debounced step as the specification words it: the stored level after
a sample (unchanged when the sample equals it, flipped otherwise). -/
def EdgeSpec.next (last sample : Nat) : Nat :=
  if sample = last then last else if last = LOW then HIGH else LOW

/-- The edge-debounced step as the specification words it: nothing is sent when
the sample equals the stored level, otherwise one message at the fixed address
whose tag is chosen by the previous stored level. -/
def EdgeSpec.msgs (addr : String) (last sample : Nat) : List OSCMessage :=
  if sample = last then []
  else [{ address := addr, args := [OSCData.int (if last = LOW then EDGE_UP else EDGE_DOWN)] }]

/-- A sequence of edge-debounced steps: final stored level and messages sent. -/
def EdgeSpec.run (addr : String) (last : Nat) : List Nat → Nat × List OSCMessage
  | [] => (last, [])
  | s :: rest =>
    let q := EdgeSpec.run addr (EdgeSpec.next last s) rest
    (q.1, EdgeSpec.msgs addr last s ++ q.2)

/-- What one edge-debounced step must do, for a stored level `last`, a sample, the
level `stored` kept afterwards and the messages `sent` at the button's address. -/
def EdgeContract (addr : String) (last sample stored : Nat) (sent : List OSCMessage) : Prop :=
  (sample = last → sent = [] ∧ stored = last) ∧
  (sample ≠ last → last = LOW →
    sent = [{ address := addr, args := [OSCData.int EDGE_UP] }] ∧ stored = HIGH) ∧
  (sample ≠ last → last ≠ LOW →
    sent = [{ address := addr, args := [OSCData.int EDGE_DOWN] }] ∧ stored = LOW)

/-- Number of indices at which a sample differs from the one before it, the sample
before the first one being `prev`. -/
def levelChanges (prev : Nat) : List Nat → Nat
  | [] => 0
  | s :: rest => (if s ≠ prev then 1 else 0) + levelChanges s rest

/-- The messages of a trace that carry the given address. -/
def sentAt (addr : String) (trace : List OSCMessage) : List OSCMessage :=
  trace.filter (fun m => decide (m.address = addr))

/-- The signed unit step of the quadrature decoder: `-1` when pin B reads
non-zero, `+1` otherwise, negated for direction `REVERSE`. -/
def unitMotion (direction pinB : Nat) : Int :=
  if direction = REVERSE then (if pinB ≠ 0 then 1 else -1)
  else (if pinB ≠ 0 then -1 else 1)

/-- What the messages of one button must look like over a poll loop that starts at
level `L0`: `sent xs` are the messages of the button after the inputs `xs`; `pre` are
the inputs during which the pin stays at `L0`, `x` is the first input at which it
differs, `rest` is what follows.  Nothing is sent during `pre`, the call for `x` sends
the first message, and it carries the tag of the transition away from `L0`. -/
def FirstEdge {α : Type} (addr : String) (L0 : Nat) (sent : List α → List OSCMessage)
    (pre : List α) (x : α) (rest : List α) : Prop :=
  sent pre = [] ∧
  sent (pre ++ [x]) =
    [{ address := addr, args := [OSCData.int (if L0 = LOW then EDGE_UP else EDGE_DOWN)] }] ∧
  (sent (pre ++ x :: rest)).head? =
    some { address := addr, args := [OSCData.int (if L0 = LOW then EDGE_UP else EDGE_DOWN)] }

/-- The messages of a trace whose address starts with `base`. -/
def motionMessages (base : String) (trace : List OSCMessage) : List OSCMessage :=
  trace.filter (fun m => base.data.isPrefixOf m.address.data)

/-- Lines 158 to 166 (Encoder) and 237 to 245 (Wheel) as one expression: the motion
computed from the stored and the current sample of pin A, pin B and the direction. -/
def quadMotion (pinALast pinACurrent pinB direction : Nat) : Int :=
  if pinALast ≠ 0 ∧ pinACurrent = 0 then
    let m : Int := if pinB ≠ 0 then -1 else 1
    if direction = REVERSE then toInt8 (-m) else m
  else 0

/-- Lines 171 to 176 and 178 to 183 (Encoder), 251 to 256 and 258 to 263 (Wheel) as
one expression: what one modifier block does to the motion and the address. -/
def modifierStep (installed intens : Prop) [Decidable installed] [Decidable intens]
    (level : Nat) (s : Int × String) : Int × String :=
  if installed then
    if intens then
      if level = LOW then (toInt8 (s.1 * INT_ACC), s.2) else s
    else if level = LOW then (s.1, s.2 ++ "/fine") else s
  else s

/-- Lines 343 to 347 (Fader) and 285 to 289 (Submaster) as one expression: the
filtered value computed from the raw analog reading. -/
def filtered (analogRead : Nat) : Int :=
  let raw : Int := toInt16 ((analogRead >>> 2 : Nat) : Int)
  let current0 : Int := toInt16 THRESHOLD
  let delta : Int := toInt16 (raw - current0)
  let current1 : Int := if delta ≤ -THRESHOLD then toInt16 (raw + THRESHOLD) else current0
  if delta ≥ THRESHOLD then toInt16 (raw - THRESHOLD) else current1

/-- Line 349 (Fader) and line 291 (Submaster) as one expression: the `float value`
computed from the filtered value `current`,
`((current - THRESHOLD) * 1.0 / (255 - 2 * THRESHOLD)) / 1.0` stored in a `float`. -/
def faderValue (current : Int) : ℚ :=
  divFloat32 (current - THRESHOLD) (255 - 2 * THRESHOLD)

/-- The normalisation as the specification words it:
`(filtered - Threshold) / (FullScale - 2 * Threshold)` with full scale 255, as an
exact quotient. -/
def normalised (v : Int) : ℚ :=
  ((v - THRESHOLD : Int) : ℚ) / ((255 - 2 * THRESHOLD : Int) : ℚ)

/-- Lines 343 to 355 (Fader): the body of the timed block, that is one filter pass. -/
def Fader.filterPass (f : Fader) (i : FaderInput) : Fader × List OSCMessage :=
  if filtered i.analogRead ≠ f.analogLast then
    ({ f with analogLast := filtered i.analogRead, updateTime := toUInt32 i.millisStore },
      [{ address := f.faderPattern,
         args := [OSCData.float (faderValue (filtered i.analogRead))] }])
  else ({ f with updateTime := toUInt32 i.millisStore }, [])

/-- Lines 285 to 297 (Submaster): the body of the timed block, that is one filter
pass. -/
def Submaster.filterPass (s : Submaster) (i : FaderInput) : Submaster × List OSCMessage :=
  if filtered i.analogRead ≠ s.analogLast then
    ({ s with analogLast := filtered i.analogRead, updateTime := toUInt32 i.millisStore },
      [{ address := s.subPattern,
         args := [OSCData.float (faderValue (filtered i.analogRead))] }])
  else ({ s with updateTime := toUInt32 i.millisStore }, [])

/-- The analog half of the outcome of an `update()`: the value messages (those at
the control's own address), the stored filtered value and the stored timestamp. -/
def analogOutcome (pattern : String) (trace : List OSCMessage) (analogLast : Int)
    (updateTime : Nat) : List OSCMessage × Int × Nat :=
  (sentAt pattern trace, analogLast, updateTime)

/-- The payload of an OscButton as the specification words it: a tagged variant
(none, a 32 bit integer, a 32 bit float or a string) chosen at construction. -/
def OscButton.payload (b : OscButton) : List OSCData :=
  match b.typ with
  | osc_t.NONE => []
  | osc_t.INT32 => [OSCData.int b.integer32]
  | osc_t.FLOAT32 => [OSCData.float b.float32]
  | osc_t.STRING => [OSCData.str b.message]

/-! ## Sample objects and inputs -/

/-- Fader 2 of bank 1 on analog pin 14 with fire pin 3 and stop pin 4, both reading
HIGH at construction, built at time 0. -/
def Sample.fader : Fader := Fader.construct 14 3 4 2 1 1 1 0

/-- Submaster 5 on analog pin 15 with fire pin 6 reading HIGH, built at time 0. -/
def Sample.submaster : Submaster := Submaster.construct 15 6 5 1 0

/-- An encoder bound to "Pan", direction FORWARD, no button installed, whose last
sample of pin A was HIGH. -/
def Sample.encoder : Encoder :=
  { param := "Pan", pinA := 2, pinB := 3, buttonPin := 0, buttonMode := ButtonMode.HOME,
    pinALast := 1, pinACurrent := 1, buttonPinLast := 0, direction := FORWARD,
    encoderMotion := 0 }

/-- A wheel with index 3, direction FORWARD, no button installed, whose last sample
of pin A was HIGH. -/
def Sample.wheel : Wheel :=
  { idx := 3, pinA := 2, pinB := 3, buttonPin := 0, buttonMode := 0,
    pinALast := 1, pinACurrent := 1, buttonPinLast := 0, direction := FORWARD,
    encoderMotion := 0 }

/-- Pin readings of one call: A is LOW (a falling edge for the sample objects), B is
LOW, the shift pin and the button pin read HIGH. -/
def Sample.fallingEdge : EncoderInput :=
  { pinA := 0, pinB := 0, shiftPin := 1, buttonPin := 1 }

/-- Pin readings of one call: A is LOW, B is LOW, the shift pin reads LOW and the
button pin reads HIGH. -/
def Sample.fallingEdgeShift : EncoderInput :=
  { pinA := 0, pinB := 0, shiftPin := 0, buttonPin := 1 }

/-- The sample encoder with a Fine button installed on pin 4. -/
def Sample.encoderFine : Encoder :=
  { Sample.encoder with buttonPin := 4, buttonMode := ButtonMode.FINE }

/-- The sample encoder bound to "Intens" with a Fine button installed on pin 4. -/
def Sample.encoderIntensFine : Encoder :=
  { Sample.encoder with param := "Intens", buttonPin := 4, buttonMode := ButtonMode.FINE }

/-- The sample wheel with a Fine button installed on pin 4. -/
def Sample.wheelFine : Wheel :=
  { Sample.wheel with buttonPin := 4, buttonMode := ButtonMode.FINE.toNat }

/-- The sample wheel with index 1 and a Fine button installed on pin 4. -/
def Sample.wheelIntensFine : Wheel :=
  { Sample.wheel with idx := 1, buttonPin := 4, buttonMode := ButtonMode.FINE.toNat }

/-- Pin readings of one call: A is LOW, B is LOW, the shift pin reads HIGH and the
button pin reads LOW. -/
def Sample.fallingEdgeFine : EncoderInput :=
  { pinA := 0, pinB := 0, shiftPin := 1, buttonPin := 0 }

/-- Pin readings of one call: A is LOW, B is LOW, the shift pin and the button pin
both read LOW. -/
def Sample.fallingEdgeBoth : EncoderInput :=
  { pinA := 0, pinB := 0, shiftPin := 0, buttonPin := 0 }

/-- A filter pass at time 41 with raw reading 416 (8 bit sample 104), buttons
released. -/
def Sample.pass1 : FaderInput :=
  { millisTest := 41, analogRead := 416, millisStore := 41, firePin := 1, stopPin := 1 }

/-- A filter pass at time 100 with raw reading 400 (8 bit sample 100), buttons
released. -/
def Sample.pass2 : FaderInput :=
  { millisTest := 100, analogRead := 400, millisStore := 100, firePin := 1, stopPin := 1 }

/-- The value message of the sample fader for the stored value 100. -/
def Sample.valueMessage : OSCMessage :=
  { address := "/eos/fader/1/2", args := [OSCData.float (faderValue 100)] }

/-- An input record with both buttons pressed (LOW), reading 400 at time 10. -/
def Sample.pressed : FaderInput :=
  { millisTest := 10, analogRead := 400, millisStore := 10, firePin := 0, stopPin := 0 }

/-- An input record with both buttons released (HIGH), reading 400 at time 5. -/
def Sample.released : FaderInput :=
  { millisTest := 5, analogRead := 400, millisStore := 5, firePin := 1, stopPin := 1 }

/-- A call at time 40 with raw reading 416, buttons released: exactly
`FADER_UPDATE_RATE_MS` after the construction of the sample fader. -/
def Sample.atForty : FaderInput :=
  { millisTest := 40, analogRead := 416, millisStore := 40, firePin := 1, stopPin := 1 }

/-- A fader built ten milliseconds before the 32 bit clock wraps around. -/
def Sample.lateFader : Fader := Fader.construct 14 3 4 2 1 1 1 4294967286

/-- A submaster built ten milliseconds before the 32 bit clock wraps around. -/
def Sample.lateSubmaster : Submaster := Submaster.construct 15 6 5 1 4294967286

/-- A call five milliseconds after `Sample.lateFader` was built, raw reading 416,
buttons released. -/
def Sample.fiveLater : FaderInput :=
  { millisTest := 4294967291, analogRead := 416, millisStore := 4294967291,
    firePin := 1, stopPin := 1 }

/-- A call at time 10, inside the interval of the sample fader, in which the fire
button reads LOW and the stop button reads HIGH. -/
def Sample.fireEarly : FaderInput :=
  { millisTest := 10, analogRead := 400, millisStore := 10, firePin := 0, stopPin := 1 }

/-- Fader 2 of bank 1 without buttons (fire pin 0, stop pin 0), built at time 0. -/
def Sample.bareFader : Fader := Fader.construct 14 0 0 2 1 1 1 0

/-- Zero-initialised storage of an OscButton. -/
def Sample.oscStorage : OscButton :=
  { typ := osc_t.NONE, pattern := "", integer32 := 0, float32 := 0, message := "",
    ip := IPAddress.zero, port := 0, pin := 0, last := 0 }

/-- An OscButton on pin 7 that sends the integer 42 at "/eos/user/1", built without
a destination while the pin reads HIGH (released). -/
def Sample.oscButton : OscButton :=
  OscButton.constructInt Sample.oscStorage 7 "/eos/user/1" 42 1

/-- The same button built with the destination 192.168.1.9, port 9000. -/
def Sample.oscButtonTo : OscButton :=
  OscButton.constructIntTo Sample.oscStorage 7 "/eos/user/1" 42
    { a := 192, b := 168, c := 1, d := 9 } 9000 1

/-- The message of the sample OscButton. -/
def Sample.oscMessage : OSCMessage :=
  { address := "/eos/user/1", args := [OSCData.int 42] }

/-- A gateway in UDP mode whose default destination is 10.0.0.5, port 8000. -/
def Sample.gateway : EOS :=
  EOS.constructUdp { a := 10, b := 0, c := 0, d := 5 } 8000 interface_t.EOSUDP

/-- A gateway in serial mode. -/
def Sample.serialGateway : EOS :=
  EOS.constructSerial { ip := IPAddress.zero, port := 0, interface := interface_t.EOSUSB }
    interface_t.EOSUSB

/-- An encoder with static storage, bound to "Pan", on which `button(4, HOME)` was
called. -/
def Sample.homeEncoder : Encoder :=
  ((Encoder.construct Encoder.zeroStorage 2 3 FORWARD).setParameter "Pan").button 4
    ButtonMode.HOME

/-- Pin readings of one call in which every pin reads HIGH. -/
def Sample.allHigh : EncoderInput :=
  { pinA := 1, pinB := 1, shiftPin := 1, buttonPin := 1 }

/-- The motion message of the sample encoder rebound to "Tilt" with the shift pin
asserted. -/
def Sample.tiltMessage : OSCMessage :=
  { address := "/eos/wheel/fine/Tilt", args := [OSCData.int 1] }

/-! ## Lemmas on the edge-debounced step -/

theorem edgeSpec_contract (addr : String) (last sample : Nat) :
    EdgeContract addr last sample (EdgeSpec.next last sample) (EdgeSpec.msgs addr last sample) := by
  unfold EdgeContract EdgeSpec.next EdgeSpec.msgs
  refine ⟨?_, ?_, ?_⟩
  · intro h; simp [h]
  · intro h hl; subst hl; simp [h]
  · intro h hl; simp [h, hl]

theorem edgeSpec_run_append (addr : String) (last : Nat) (xs ys : List Nat) :
    EdgeSpec.run addr last (xs ++ ys) =
      ((EdgeSpec.run addr (EdgeSpec.run addr last xs).1 ys).1,
        (EdgeSpec.run addr last xs).2 ++ (EdgeSpec.run addr (EdgeSpec.run addr last xs).1 ys).2) := by
  induction xs generalizing last with
  | nil => simp [EdgeSpec.run]
  | cons x xs ih => simp [EdgeSpec.run, ih, List.append_assoc]

theorem edgeSpec_run_steady (addr : String) (last : Nat) (xs : List Nat)
    (h : ∀ s ∈ xs, s = last) : EdgeSpec.run addr last xs = (last, []) := by
  induction xs with
  | nil => rfl
  | cons x xs ih =>
    have hx : x = last := h x (List.mem_cons_self _ _)
    have hxs : ∀ s ∈ xs, s = last := fun s hs => h s (List.mem_cons_of_mem _ hs)
    simp [EdgeSpec.run, EdgeSpec.next, EdgeSpec.msgs, hx, ih hxs]

theorem edgeSpec_next_eq_sample (last sample : Nat) (hl : last = LOW ∨ last = HIGH)
    (hs : sample = LOW ∨ sample = HIGH) : EdgeSpec.next last sample = sample := by
  unfold EdgeSpec.next
  rcases hl with hl | hl <;> rcases hs with hs | hs <;> simp [hl, hs, LOW, HIGH]

theorem edgeSpec_run_count (addr : String) (last : Nat) (xs : List Nat)
    (hl : last = LOW ∨ last = HIGH) (hs : ∀ s ∈ xs, s = LOW ∨ s = HIGH) :
    (EdgeSpec.run addr last xs).2.length = levelChanges last xs ∧
      (EdgeSpec.run addr last xs).1 = xs.getLastD last := by
  induction xs generalizing last with
  | nil => simp [EdgeSpec.run, levelChanges]
  | cons x xs ih =>
    have hx : x = LOW ∨ x = HIGH := hs x (List.mem_cons_self _ _)
    have hxs : ∀ s ∈ xs, s = LOW ∨ s = HIGH := fun s h => hs s (List.mem_cons_of_mem _ h)
    have hn := edgeSpec_next_eq_sample last x hl hx
    obtain ⟨h1, h2⟩ := ih x hx hxs
    simp only [EdgeSpec.run, hn, List.length_append, h1, h2, levelChanges]
    refine ⟨?_, ?_⟩
    · unfold EdgeSpec.msgs
      by_cases hxl : x = last <;> simp [hxl]
    · cases xs <;> simp [List.getLastD]

theorem getLastD_take_succ (xs : List Nat) (k : Nat) (hk : k < xs.length) (d : Nat) :
    (xs.take (k + 1)).getLastD d = xs.get ⟨k, hk⟩ := by
  induction xs generalizing k d with
  | nil => simp at hk
  | cons x xs ih =>
    cases k with
    | zero => simp [List.getLastD]
    | succ k =>
      have hk2 : k < xs.length := by simpa using hk
      have := ih k hk2 x
      simp only [List.take_succ_cons, List.get_cons_succ]
      rw [← this]
      cases hxs : xs.take (k + 1) with
      | nil => cases xs <;> simp at hxs hk2
      | cons y ys => simp [List.getLastD]

theorem toUInt8_level (l : Nat) (h : l = LOW ∨ l = HIGH) : toUInt8 l = l := by
  rcases h with h | h <;> simp [h, toUInt8, LOW, HIGH]

/-! ## Key and Macro refine the edge-debounced step -/

theorem key_update_eq (k : Key) (sample : Nat) :
    k.update sample =
      ({ k with last := EdgeSpec.next k.last sample }, EdgeSpec.msgs k.keyPattern k.last sample) := by
  unfold Key.update EdgeSpec.next EdgeSpec.msgs OSCMessage.add OSCMessage.new
  by_cases h : sample = k.last
  · simp [h]
  · by_cases hl : k.last = LOW
    · have h2 : ¬ sample = LOW := hl ▸ h
      simp [hl, h2]
    · simp [h, hl]

theorem key_run_eq (k : Key) (xs : List Nat) :
    k.run xs =
      ({ k with last := (EdgeSpec.run k.keyPattern k.last xs).1 },
        (EdgeSpec.run k.keyPattern k.last xs).2) := by
  induction xs generalizing k with
  | nil => simp [Key.run, EdgeSpec.run]
  | cons x xs ih => simp [Key.run, EdgeSpec.run, key_update_eq, ih]

theorem macro_update_eq (m : Macro) (sample : Nat) :
    m.update sample =
      ({ m with last := EdgeSpec.next m.last sample }, EdgeSpec.msgs m.firePattern m.last sample) := by
  unfold Macro.update EdgeSpec.next EdgeSpec.msgs OSCMessage.add OSCMessage.new
  by_cases h : sample = m.last
  · simp [h]
  · by_cases hl : m.last = LOW
    · have h2 : ¬ sample = LOW := hl ▸ h
      simp [hl, h2]
    · simp [h, hl]

theorem macro_run_eq (m : Macro) (xs : List Nat) :
    m.run xs =
      ({ m with last := (EdgeSpec.run m.firePattern m.last xs).1 },
        (EdgeSpec.run m.firePattern m.last xs).2) := by
  induction xs generalizing m with
  | nil => simp [Macro.run, EdgeSpec.run]
  | cons x xs ih => simp [Macro.run, EdgeSpec.run, macro_update_eq, ih]

/-! ## Addresses -/

theorem addr_ne_fire (p : String) : p ≠ p ++ "/fire" := by
  intro h
  have hlen := congrArg String.length h
  simp at hlen
  exact absurd hlen (by decide)

theorem addr_ne_stop (p : String) : p ≠ p ++ "/stop" := by
  intro h
  have hlen := congrArg String.length h
  simp at hlen
  exact absurd hlen (by decide)

theorem addr_stop_ne_fire (p : String) : p ++ "/stop" ≠ p ++ "/fire" := by
  intro h
  have hd := congrArg String.data h
  simp at hd

theorem sentAt_append (addr : String) (xs ys : List OSCMessage) :
    sentAt addr (xs ++ ys) = sentAt addr xs ++ sentAt addr ys := by
  simp [sentAt]

theorem sentAt_other (addr : String) (xs : List OSCMessage)
    (h : ∀ m ∈ xs, m.address ≠ addr) : sentAt addr xs = [] := by
  simp only [sentAt, List.filter_eq_nil_iff, decide_eq_true_eq]
  exact h

theorem sentAt_same (addr : String) (xs : List OSCMessage)
    (h : ∀ m ∈ xs, m.address = addr) : sentAt addr xs = xs := by
  simp only [sentAt, List.filter_eq_self, decide_eq_true_eq]
  exact h

theorem edgeSpec_msgs_address (addr : String) (last sample : Nat) :
    ∀ m ∈ EdgeSpec.msgs addr last sample, m.address = addr := by
  intro m hm
  unfold EdgeSpec.msgs at hm
  by_cases h : sample = last
  · simp [h] at hm
  · simp [h] at hm
    simp [hm]

theorem edgeSpec_first_message (addr : String) (L0 : Nat) (pre : List Nat) (x : Nat)
    (rest : List Nat) (hpre : ∀ s ∈ pre, s = L0) (hx : x ≠ L0) :
    (EdgeSpec.run addr L0 pre).2 = [] ∧
      (EdgeSpec.run addr L0 (pre ++ [x])).2 =
        [{ address := addr, args := [OSCData.int (if L0 = LOW then EDGE_UP else EDGE_DOWN)] }] ∧
      (EdgeSpec.run addr L0 (pre ++ x :: rest)).2.head? =
        some { address := addr, args := [OSCData.int (if L0 = LOW then EDGE_UP else EDGE_DOWN)] } := by
  have hst := edgeSpec_run_steady addr L0 pre hpre
  refine ⟨by rw [hst], ?_, ?_⟩
  · rw [edgeSpec_run_append, hst]
    simp [EdgeSpec.run, EdgeSpec.msgs, hx]
  · rw [edgeSpec_run_append, hst]
    simp [EdgeSpec.run, EdgeSpec.msgs, hx]

/-! ## The buttons of Fader and Submaster refine the edge-debounced step -/

theorem fader_updateAnalog_frame (f : Fader) (i : FaderInput) :
    (f.updateAnalog i).1.faderPattern = f.faderPattern ∧
      (f.updateAnalog i).1.firePin = f.firePin ∧
      (f.updateAnalog i).1.stopPin = f.stopPin ∧
      (f.updateAnalog i).1.fireLast = f.fireLast ∧
      (f.updateAnalog i).1.stopLast = f.stopLast ∧
      (∀ m ∈ (f.updateAnalog i).2, m.address = f.faderPattern) := by
  unfold Fader.updateAnalog
  simp only [OSCMessage.add, OSCMessage.new]
  split_ifs <;> simp

theorem fader_updateFire_eq (f : Fader) (i : FaderInput) (hp : f.firePin ≠ 0) :
    f.updateFire i =
      ({ f with fireLast := EdgeSpec.next f.fireLast i.firePin },
        EdgeSpec.msgs (f.faderPattern ++ "/fire") f.fireLast i.firePin) := by
  unfold Fader.updateFire EdgeSpec.next EdgeSpec.msgs OSCMessage.add OSCMessage.new
  by_cases h : i.firePin = f.fireLast
  · simp [h, hp]
  · by_cases hl : f.fireLast = LOW
    · have h2 : ¬ i.firePin = LOW := hl ▸ h
      simp [hl, h2, hp]
    · simp [h, hl, hp]

theorem fader_updateStop_eq (f : Fader) (i : FaderInput) (hp : f.stopPin ≠ 0) :
    f.updateStop i =
      ({ f with stopLast := EdgeSpec.next f.stopLast i.stopPin },
        EdgeSpec.msgs (f.faderPattern ++ "/stop") f.stopLast i.stopPin) := by
  unfold Fader.updateStop EdgeSpec.next EdgeSpec.msgs OSCMessage.add OSCMessage.new
  by_cases h : i.stopPin = f.stopLast
  · simp [h, hp]
  · by_cases hl : f.stopLast = LOW
    · have h2 : ¬ i.stopPin = LOW := hl ▸ h
      simp [hl, h2, hp]
    · simp [h, hl, hp]

theorem fader_updateFire_frame (f : Fader) (i : FaderInput) :
    (f.updateFire i).1.faderPattern = f.faderPattern ∧
      (f.updateFire i).1.firePin = f.firePin ∧
      (f.updateFire i).1.stopPin = f.stopPin ∧
      (f.updateFire i).1.stopLast = f.stopLast ∧
      (f.updateFire i).1.analogLast = f.analogLast ∧
      (f.updateFire i).1.updateTime = f.updateTime ∧
      (∀ m ∈ (f.updateFire i).2, m.address = f.faderPattern ++ "/fire") := by
  unfold Fader.updateFire
  simp only [OSCMessage.add, OSCMessage.new]
  split_ifs <;> simp

theorem fader_updateStop_frame (f : Fader) (i : FaderInput) :
    (f.updateStop i).1.faderPattern = f.faderPattern ∧
      (f.updateStop i).1.firePin = f.firePin ∧
      (f.updateStop i).1.stopPin = f.stopPin ∧
      (f.updateStop i).1.fireLast = f.fireLast ∧
      (f.updateStop i).1.analogLast = f.analogLast ∧
      (f.updateStop i).1.updateTime = f.updateTime ∧
      (∀ m ∈ (f.updateStop i).2, m.address = f.faderPattern ++ "/stop") := by
  unfold Fader.updateStop
  simp only [OSCMessage.add, OSCMessage.new]
  split_ifs <;> simp

theorem fader_update_frame (f : Fader) (i : FaderInput) :
    (f.update i).1.faderPattern = f.faderPattern ∧
      (f.update i).1.firePin = f.firePin ∧
      (f.update i).1.stopPin = f.stopPin := by
  obtain ⟨a1, a2, a3, -, -, -⟩ := fader_updateAnalog_frame f i
  obtain ⟨b1, b2, b3, -, -, -, -⟩ := fader_updateFire_frame (f.updateAnalog i).1 i
  obtain ⟨c1, c2, c3, -, -, -, -⟩ :=
    fader_updateStop_frame ((f.updateAnalog i).1.updateFire i).1 i
  simp only [Fader.update]
  exact ⟨by rw [c1, b1, a1], by rw [c2, b2, a2], by rw [c3, b3, a3]⟩

theorem fader_update_fire (f : Fader) (i : FaderInput) (hp : f.firePin ≠ 0) :
    (f.update i).1.fireLast = EdgeSpec.next f.fireLast i.firePin ∧
      sentAt (f.faderPattern ++ "/fire") (f.update i).2 =
        EdgeSpec.msgs (f.faderPattern ++ "/fire") f.fireLast i.firePin := by
  obtain ⟨a1, a2, a3, a4, a5, a6⟩ := fader_updateAnalog_frame f i
  obtain ⟨b1, b2, b3, b4, -, -, b7⟩ := fader_updateFire_frame (f.updateAnalog i).1 i
  obtain ⟨c1, c2, c3, c4, -, -, c7⟩ :=
    fader_updateStop_frame ((f.updateAnalog i).1.updateFire i).1 i
  have hp2 : (f.updateAnalog i).1.firePin ≠ 0 := by rw [a2]; exact hp
  have hfire := fader_updateFire_eq (f.updateAnalog i).1 i hp2
  simp only [Fader.update]
  refine ⟨?_, ?_⟩
  · rw [c4, hfire]
    simp [a4]
  · rw [sentAt_append, sentAt_append]
    rw [sentAt_other _ (f.updateAnalog i).2 (fun m hm => by
      rw [a6 m hm]; exact addr_ne_fire _)]
    rw [sentAt_other _ (((f.updateAnalog i).1.updateFire i).1.updateStop i).2 (fun m hm => by
      rw [c7 m hm, b1, a1]; exact addr_stop_ne_fire _)]
    rw [hfire]
    simp only [a1, a4, List.nil_append, List.append_nil]
    exact sentAt_same _ _ (edgeSpec_msgs_address _ _ _)

theorem fader_update_stop (f : Fader) (i : FaderInput) (hp : f.stopPin ≠ 0) :
    (f.update i).1.stopLast = EdgeSpec.next f.stopLast i.stopPin ∧
      sentAt (f.faderPattern ++ "/stop") (f.update i).2 =
        EdgeSpec.msgs (f.faderPattern ++ "/stop") f.stopLast i.stopPin := by
  obtain ⟨a1, a2, a3, a4, a5, a6⟩ := fader_updateAnalog_frame f i
  obtain ⟨b1, b2, b3, b4, -, -, b7⟩ := fader_updateFire_frame (f.updateAnalog i).1 i
  have hp2 : ((f.updateAnalog i).1.updateFire i).1.stopPin ≠ 0 := by rw [b3, a3]; exact hp
  have hstop := fader_updateStop_eq ((f.updateAnalog i).1.updateFire i).1 i hp2
  simp only [Fader.update]
  refine ⟨?_, ?_⟩
  · rw [hstop]
    simp [b4, a5]
  · rw [sentAt_append, sentAt_append]
    rw [sentAt_other _ (f.updateAnalog i).2 (fun m hm => by
      rw [a6 m hm]; exact addr_ne_stop _)]
    rw [sentAt_other _ ((f.updateAnalog i).1.updateFire i).2 (fun m hm => by
      rw [b7 m hm, a1]; exact (addr_stop_ne_fire _).symm)]
    rw [hstop]
    simp only [b1, a1, b4, a5, List.nil_append]
    exact sentAt_same _ _ (edgeSpec_msgs_address _ _ _)

theorem fader_run_fire (f : Fader) (inputs : List FaderInput) (hp : f.firePin ≠ 0) :
    sentAt (f.faderPattern ++ "/fire") (f.run inputs).2 =
      (EdgeSpec.run (f.faderPattern ++ "/fire") f.fireLast
        (inputs.map FaderInput.firePin)).2 := by
  induction inputs generalizing f with
  | nil => simp [Fader.run, EdgeSpec.run, sentAt]
  | cons i rest ih =>
    obtain ⟨u1, u2, -⟩ := fader_update_frame f i
    obtain ⟨v1, v2⟩ := fader_update_fire f i hp
    have hp2 : (f.update i).1.firePin ≠ 0 := by rw [u2]; exact hp
    have h := ih (f.update i).1 hp2
    rw [u1, v1] at h
    simp only [Fader.run, EdgeSpec.run, List.map_cons, sentAt_append, v2, h]

theorem fader_run_stop (f : Fader) (inputs : List FaderInput) (hp : f.stopPin ≠ 0) :
    sentAt (f.faderPattern ++ "/stop") (f.run inputs).2 =
      (EdgeSpec.run (f.faderPattern ++ "/stop") f.stopLast
        (inputs.map FaderInput.stopPin)).2 := by
  induction inputs generalizing f with
  | nil => simp [Fader.run, EdgeSpec.run, sentAt]
  | cons i rest ih =>
    obtain ⟨u1, -, u3⟩ := fader_update_frame f i
    obtain ⟨v1, v2⟩ := fader_update_stop f i hp
    have hp2 : (f.update i).1.stopPin ≠ 0 := by rw [u3]; exact hp
    have h := ih (f.update i).1 hp2
    rw [u1, v1] at h
    simp only [Fader.run, EdgeSpec.run, List.map_cons, sentAt_append, v2, h]

theorem submaster_updateAnalog_frame (s : Submaster) (i : FaderInput) :
    (s.updateAnalog i).1.subPattern = s.subPattern ∧
      (s.updateAnalog i).1.firePin = s.firePin ∧
      (s.updateAnalog i).1.fireLast = s.fireLast ∧
      (∀ m ∈ (s.updateAnalog i).2, m.address = s.subPattern) := by
  unfold Submaster.updateAnalog
  simp only [OSCMessage.add, OSCMessage.new]
  split_ifs <;> simp

theorem submaster_updateFire_eq (s : Submaster) (i : FaderInput) (hp : s.firePin ≠ 0) :
    s.updateFire i =
      ({ s with fireLast := EdgeSpec.next s.fireLast i.firePin },
        EdgeSpec.msgs (s.subPattern ++ "/fire") s.fireLast i.firePin) := by
  unfold Submaster.updateFire EdgeSpec.next EdgeSpec.msgs OSCMessage.add OSCMessage.new
  by_cases h : i.firePin = s.fireLast
  · simp [h, hp]
  · by_cases hl : s.fireLast = LOW
    · have h2 : ¬ i.firePin = LOW := hl ▸ h
      simp [hl, h2, hp]
    · simp [h, hl, hp]

theorem submaster_update_fire (s : Submaster) (i : FaderInput) (hp : s.firePin ≠ 0) :
    (s.update i).1.subPattern = s.subPattern ∧
      (s.update i).1.firePin = s.firePin ∧
      (s.update i).1.fireLast = EdgeSpec.next s.fireLast i.firePin ∧
      sentAt (s.subPattern ++ "/fire") (s.update i).2 =
        EdgeSpec.msgs (s.subPattern ++ "/fire") s.fireLast i.firePin := by
  obtain ⟨a1, a2, a3, a4⟩ := submaster_updateAnalog_frame s i
  have hp2 : (s.updateAnalog i).1.firePin ≠ 0 := by rw [a2]; exact hp
  have hfire := submaster_updateFire_eq (s.updateAnalog i).1 i hp2
  simp only [Submaster.update]
  refine ⟨?_, ?_, ?_, ?_⟩
  · rw [hfire]; exact a1
  · rw [hfire]; exact a2
  · rw [hfire]; simp [a3]
  · rw [sentAt_append]
    rw [sentAt_other _ (s.updateAnalog i).2 (fun m hm => by
      rw [a4 m hm]; exact addr_ne_fire _)]
    rw [hfire]
    simp only [a1, a3, List.nil_append]
    exact sentAt_same _ _ (edgeSpec_msgs_address _ _ _)

theorem submaster_run_fire (s : Submaster) (inputs : List FaderInput) (hp : s.firePin ≠ 0) :
    sentAt (s.subPattern ++ "/fire") (s.run inputs).2 =
      (EdgeSpec.run (s.subPattern ++ "/fire") s.fireLast
        (inputs.map FaderInput.firePin)).2 := by
  induction inputs generalizing s with
  | nil => simp [Submaster.run, EdgeSpec.run, sentAt]
  | cons i rest ih =>
    obtain ⟨u1, u2, v1, v2⟩ := submaster_update_fire s i hp
    have hp2 : (s.update i).1.firePin ≠ 0 := by rw [u2]; exact hp
    have h := ih (s.update i).1 hp2
    rw [u1, v1] at h
    simp only [Submaster.run, EdgeSpec.run, List.map_cons, sentAt_append, v2, h]

theorem firstEdge_of_run {α : Type} (addr : String) (L0 : Nat)
    (sent : List α → List OSCMessage) (lvl : α → Nat)
    (h : ∀ xs, sent xs = (EdgeSpec.run addr L0 (xs.map lvl)).2)
    (pre : List α) (x : α) (rest : List α)
    (hpre : ∀ i ∈ pre, lvl i = L0) (hx : lvl x ≠ L0) :
    FirstEdge addr L0 sent pre x rest := by
  have hpre2 : ∀ s ∈ pre.map lvl, s = L0 := by
    intro s hs
    obtain ⟨i, hi, rfl⟩ := List.mem_map.mp hs
    exact hpre i hi
  obtain ⟨h1, h2, h3⟩ := edgeSpec_first_message addr L0 (pre.map lvl) (lvl x) (rest.map lvl) hpre2 hx
  refine ⟨?_, ?_, ?_⟩
  · rw [h]; exact h1
  · rw [h]; simpa using h2
  · rw [h]; simpa using h3

/-! ## The motion part of Encoder and Wheel -/

theorem isPrefixOf_append_self (l q : List Char) : l.isPrefixOf (l ++ q) = true := by
  induction l with
  | nil => simp [List.isPrefixOf]
  | cons a l ih => simp [List.isPrefixOf, ih]

theorem unitMotion_cases (direction pinB : Nat) :
    unitMotion direction pinB = 1 ∨ unitMotion direction pinB = -1 := by
  unfold unitMotion
  split_ifs <;> simp

theorem quadMotion_eq (pinALast pinACurrent pinB direction : Nat) :
    quadMotion pinALast pinACurrent pinB direction =
      if pinALast ≠ 0 ∧ pinACurrent = 0 then unitMotion direction pinB else 0 := by
  unfold quadMotion unitMotion
  split_ifs <;> simp [toInt8]

theorem encoder_updateMotion_eq (shiftPin : Nat) (e : Encoder) (i : EncoderInput) :
    Encoder.updateMotion shiftPin e i =
      if quadMotion e.pinALast (toUInt8 i.pinA) i.pinB e.direction ≠ 0 then
        ({ e with
            pinACurrent := toUInt8 i.pinA, pinALast := toUInt8 i.pinA,
            encoderMotion := toInt8 ((modifierStep (e.buttonPin ≠ 0 ∧ e.buttonMode = ButtonMode.FINE)
              (e.param = "Intens" ∨ e.param = "intens") i.buttonPin
              (modifierStep (shiftPin ≠ 0) (e.param = "Intens" ∨ e.param = "intens") i.shiftPin
                (quadMotion e.pinALast (toUInt8 i.pinA) i.pinB e.direction, "/eos/wheel"))).1
                * WHEEL_ACC) },
          [{ address := (modifierStep (e.buttonPin ≠ 0 ∧ e.buttonMode = ButtonMode.FINE)
              (e.param = "Intens" ∨ e.param = "intens") i.buttonPin
              (modifierStep (shiftPin ≠ 0) (e.param = "Intens" ∨ e.param = "intens") i.shiftPin
                (quadMotion e.pinALast (toUInt8 i.pinA) i.pinB e.direction, "/eos/wheel"))).2
                ++ ("/" ++ e.param),
             args := [OSCData.int (toInt8 ((modifierStep
              (e.buttonPin ≠ 0 ∧ e.buttonMode = ButtonMode.FINE)
              (e.param = "Intens" ∨ e.param = "intens") i.buttonPin
              (modifierStep (shiftPin ≠ 0) (e.param = "Intens" ∨ e.param = "intens") i.shiftPin
                (quadMotion e.pinALast (toUInt8 i.pinA) i.pinB e.direction, "/eos/wheel"))).1
                * WHEEL_ACC))] }])
      else
        ({ e with
            pinACurrent := toUInt8 i.pinA, pinALast := toUInt8 i.pinA,
            encoderMotion := quadMotion e.pinALast (toUInt8 i.pinA) i.pinB e.direction }, []) := by
  rfl

theorem wheel_update_eq (shiftPin : Nat) (w : Wheel) (i : EncoderInput) :
    Wheel.update shiftPin w i =
      if quadMotion w.pinALast (toUInt8 i.pinA) i.pinB w.direction ≠ 0 then
        ({ w with
            pinACurrent := toUInt8 i.pinA, pinALast := toUInt8 i.pinA,
            encoderMotion := toInt8 ((modifierStep
              (w.buttonPin ≠ 0 ∧ w.buttonMode = ButtonMode.FINE.toNat) (w.idx = 1) i.buttonPin
              (modifierStep (shiftPin ≠ 0) (w.idx = 1) i.shiftPin
                (quadMotion w.pinALast (toUInt8 i.pinA) i.pinB w.direction,
                  "/eos/active/wheel"))).1 * WHEEL_ACC) },
          [{ address := (modifierStep
              (w.buttonPin ≠ 0 ∧ w.buttonMode = ButtonMode.FINE.toNat) (w.idx = 1) i.buttonPin
              (modifierStep (shiftPin ≠ 0) (w.idx = 1) i.shiftPin
                (quadMotion w.pinALast (toUInt8 i.pinA) i.pinB w.direction,
                  "/eos/active/wheel"))).2 ++ ("/" ++ decimal w.idx),
             args := [OSCData.int (toInt8 ((modifierStep
              (w.buttonPin ≠ 0 ∧ w.buttonMode = ButtonMode.FINE.toNat) (w.idx = 1) i.buttonPin
              (modifierStep (shiftPin ≠ 0) (w.idx = 1) i.shiftPin
                (quadMotion w.pinALast (toUInt8 i.pinA) i.pinB w.direction,
                  "/eos/active/wheel"))).1 * WHEEL_ACC))] }])
      else
        ({ w with
            pinACurrent := toUInt8 i.pinA, pinALast := toUInt8 i.pinA,
            encoderMotion := quadMotion w.pinALast (toUInt8 i.pinA) i.pinB w.direction }, []) := by
  rfl

theorem modifierStep_off (installed intens : Prop) [Decidable installed] [Decidable intens]
    (level : Nat) (s : Int × String) (h : ¬ (installed ∧ level = LOW)) :
    modifierStep installed intens level s = s := by
  unfold modifierStep
  by_cases h1 : installed
  · have h2 : ¬ level = LOW := fun hl => h ⟨h1, hl⟩
    simp [h1, h2]
  · simp [h1]

theorem modifierStep_intens (installed intens : Prop) [Decidable installed] [Decidable intens]
    (level : Nat) (s : Int × String) (h1 : installed) (h2 : level = LOW) (h3 : intens) :
    modifierStep installed intens level s = (toInt8 (s.1 * INT_ACC), s.2) := by
  unfold modifierStep
  simp [h1, h2, h3]

theorem modifierStep_fine (installed intens : Prop) [Decidable installed] [Decidable intens]
    (level : Nat) (s : Int × String) (h1 : installed) (h2 : level = LOW) (h3 : ¬ intens) :
    modifierStep installed intens level s = (s.1, s.2 ++ "/fine") := by
  unfold modifierStep
  simp [h1, h2, h3]

theorem modifierStep_address (installed intens : Prop) [Decidable installed] [Decidable intens]
    (level : Nat) (s : Int × String) :
    ∃ q : String, (modifierStep installed intens level s).2 = s.2 ++ q := by
  unfold modifierStep
  split_ifs
  · exact ⟨"", by simp⟩
  · exact ⟨"", by simp⟩
  · exact ⟨"/fine", rfl⟩
  · exact ⟨"", by simp⟩
  · exact ⟨"", by simp⟩

theorem encoder_updateMotion_out (shiftPin : Nat) (e : Encoder) (i : EncoderInput) :
    (Encoder.updateMotion shiftPin e i).2 =
      if e.pinALast ≠ 0 ∧ toUInt8 i.pinA = 0 then
        [{ address := (modifierStep (e.buttonPin ≠ 0 ∧ e.buttonMode = ButtonMode.FINE)
              (e.param = "Intens" ∨ e.param = "intens") i.buttonPin
              (modifierStep (shiftPin ≠ 0) (e.param = "Intens" ∨ e.param = "intens") i.shiftPin
                (unitMotion e.direction i.pinB, "/eos/wheel"))).2 ++ ("/" ++ e.param),
           args := [OSCData.int (toInt8 ((modifierStep
              (e.buttonPin ≠ 0 ∧ e.buttonMode = ButtonMode.FINE)
              (e.param = "Intens" ∨ e.param = "intens") i.buttonPin
              (modifierStep (shiftPin ≠ 0) (e.param = "Intens" ∨ e.param = "intens") i.shiftPin
                (unitMotion e.direction i.pinB, "/eos/wheel"))).1 * WHEEL_ACC))] }]
      else [] := by
  rw [encoder_updateMotion_eq, quadMotion_eq]
  by_cases h : e.pinALast ≠ 0 ∧ toUInt8 i.pinA = 0
  · have hu : unitMotion e.direction i.pinB ≠ 0 := by
      rcases unitMotion_cases e.direction i.pinB with h1 | h1 <;> rw [h1] <;> decide
    rw [if_pos h, if_pos h, if_pos hu]
  · rw [if_neg h, if_neg h]
    simp

theorem wheel_update_out (shiftPin : Nat) (w : Wheel) (i : EncoderInput) :
    (Wheel.update shiftPin w i).2 =
      if w.pinALast ≠ 0 ∧ toUInt8 i.pinA = 0 then
        [{ address := (modifierStep
              (w.buttonPin ≠ 0 ∧ w.buttonMode = ButtonMode.FINE.toNat) (w.idx = 1) i.buttonPin
              (modifierStep (shiftPin ≠ 0) (w.idx = 1) i.shiftPin
                (unitMotion w.direction i.pinB, "/eos/active/wheel"))).2
                ++ ("/" ++ decimal w.idx),
           args := [OSCData.int (toInt8 ((modifierStep
              (w.buttonPin ≠ 0 ∧ w.buttonMode = ButtonMode.FINE.toNat) (w.idx = 1) i.buttonPin
              (modifierStep (shiftPin ≠ 0) (w.idx = 1) i.shiftPin
                (unitMotion w.direction i.pinB, "/eos/active/wheel"))).1 * WHEEL_ACC))] }]
      else [] := by
  rw [wheel_update_eq, quadMotion_eq]
  by_cases h : w.pinALast ≠ 0 ∧ toUInt8 i.pinA = 0
  · have hu : unitMotion w.direction i.pinB ≠ 0 := by
      rcases unitMotion_cases w.direction i.pinB with h1 | h1 <;> rw [h1] <;> decide
    rw [if_pos h, if_pos h, if_pos hu]
  · rw [if_neg h, if_neg h]
    simp

theorem encoder_updateMotion_frame (shiftPin : Nat) (e : Encoder) (i : EncoderInput) :
    (Encoder.updateMotion shiftPin e i).1.param = e.param ∧
      (Encoder.updateMotion shiftPin e i).1.buttonPin = e.buttonPin ∧
      (Encoder.updateMotion shiftPin e i).1.buttonMode = e.buttonMode ∧
      (Encoder.updateMotion shiftPin e i).1.buttonPinLast = e.buttonPinLast ∧
      (Encoder.updateMotion shiftPin e i).1.direction = e.direction := by
  rw [encoder_updateMotion_eq]
  split_ifs <;> simp

theorem encoder_updateButton_address (e : Encoder) (i : EncoderInput) :
    ∀ m ∈ (Encoder.updateButton e i).2, m.address = "/eos/param/" ++ e.param ++ "/home" := by
  unfold Encoder.updateButton
  simp only [OSCMessage.add, OSCMessage.new]
  split_ifs <;> simp

theorem encoder_updateButton_off (e : Encoder) (i : EncoderInput)
    (h : e.buttonPin = 0 ∨ e.buttonMode = ButtonMode.FINE) :
    Encoder.updateButton e i = (e, []) := by
  unfold Encoder.updateButton
  rcases h with h | h <;> simp [h]

theorem encoder_update_motion (shiftPin : Nat) (e : Encoder) (i : EncoderInput) :
    motionMessages "/eos/wheel" (Encoder.update shiftPin e i).2 =
      (Encoder.updateMotion shiftPin e i).2 := by
  have hbase : "/eos/wheel".data = ['/', 'e', 'o', 's', '/', 'w', 'h', 'e', 'e', 'l'] := rfl
  have hparam : "/eos/param/".data =
      ['/', 'e', 'o', 's', '/', 'p', 'a', 'r', 'a', 'm', '/'] := rfl
  have hhome : motionMessages "/eos/wheel"
      (Encoder.updateButton (Encoder.updateMotion shiftPin e i).1 i).2 = [] := by
    simp only [motionMessages, List.filter_eq_nil_iff]
    intro m hm
    rw [encoder_updateButton_address _ i m hm]
    simp only [String.data_append, hbase, hparam, List.cons_append, List.isPrefixOf]
    decide
  have hmotion : motionMessages "/eos/wheel" (Encoder.updateMotion shiftPin e i).2 =
      (Encoder.updateMotion shiftPin e i).2 := by
    rw [encoder_updateMotion_out]
    split_ifs
    · obtain ⟨q1, h1⟩ := modifierStep_address (shiftPin ≠ 0)
        (e.param = "Intens" ∨ e.param = "intens") i.shiftPin
        (unitMotion e.direction i.pinB, "/eos/wheel")
      obtain ⟨q2, h2⟩ := modifierStep_address (e.buttonPin ≠ 0 ∧ e.buttonMode = ButtonMode.FINE)
        (e.param = "Intens" ∨ e.param = "intens") i.buttonPin
        (modifierStep (shiftPin ≠ 0) (e.param = "Intens" ∨ e.param = "intens") i.shiftPin
          (unitMotion e.direction i.pinB, "/eos/wheel"))
      rw [h2, h1]
      simp only [motionMessages, List.filter_cons, List.filter_nil, String.data_append,
        List.append_assoc, isPrefixOf_append_self, if_true]
    · rfl
  simp only [Encoder.update]
  unfold motionMessages at hhome hmotion ⊢
  rw [List.filter_append, hhome, hmotion, List.append_nil]

theorem toInt8_unit (direction pinB : Nat) :
    toInt8 (unitMotion direction pinB * WHEEL_ACC) = unitMotion direction pinB * WHEEL_ACC := by
  rcases unitMotion_cases direction pinB with h | h <;> rw [h] <;> decide

theorem toInt8_unit_intens (direction pinB : Nat) :
    toInt8 (toInt8 (unitMotion direction pinB * INT_ACC) * WHEEL_ACC) =
      unitMotion direction pinB * (INT_ACC * WHEEL_ACC) := by
  rcases unitMotion_cases direction pinB with h | h <;> rw [h] <;> decide

theorem toUInt8_eq_zero_iff (a : Nat) (h : a = LOW ∨ a = HIGH) : toUInt8 a = 0 ↔ a = LOW := by
  rcases h with h | h <;> simp [h, toUInt8, LOW, HIGH]

theorem wheel_address (p : String) : "/eos/wheel" ++ ("/" ++ p) = "/eos/wheel/" ++ p := by
  rw [← String.append_assoc]; rfl

theorem wheel_fine_address (p : String) :
    "/eos/wheel" ++ "/fine" ++ ("/" ++ p) = "/eos/wheel/fine/" ++ p := by
  rw [← String.append_assoc]; rfl

theorem active_wheel_address (p : String) :
    "/eos/active/wheel" ++ ("/" ++ p) = "/eos/active/wheel/" ++ p := by
  rw [← String.append_assoc]; rfl

theorem active_wheel_fine_address (p : String) :
    "/eos/active/wheel" ++ "/fine" ++ ("/" ++ p) = "/eos/active/wheel/fine/" ++ p := by
  rw [← String.append_assoc]; rfl

theorem encoder_update_no_button (shiftPin : Nat) (e : Encoder) (i : EncoderInput)
    (h : e.buttonPin = 0 ∨ e.buttonMode = ButtonMode.FINE) :
    (Encoder.update shiftPin e i).2 = (Encoder.updateMotion shiftPin e i).2 := by
  obtain ⟨-, f2, f3, -, -⟩ := encoder_updateMotion_frame shiftPin e i
  have hoff := encoder_updateButton_off (Encoder.updateMotion shiftPin e i).1 i
    (by rw [f2, f3]; exact h)
  simp only [Encoder.update, hoff, List.append_nil]

theorem wheel_address_ne_fine (p : String) : "/eos/wheel/" ++ p ≠ "/eos/wheel/fine/" ++ p := by
  intro h
  have hlen := congrArg String.length h
  simp only [String.length_append, add_left_inj] at hlen
  exact absurd hlen (by decide)

theorem active_wheel_address_ne_fine (p : String) :
    "/eos/active/wheel/" ++ p ≠ "/eos/active/wheel/fine/" ++ p := by
  intro h
  have hlen := congrArg String.length h
  simp only [String.length_append, add_left_inj] at hlen
  exact absurd hlen (by decide)

theorem abs_unit_wheel_acc (direction pinB : Nat) :
    |unitMotion direction pinB * WHEEL_ACC| = WHEEL_ACC := by
  rcases unitMotion_cases direction pinB with h | h <;> rw [h] <;> decide

/-! ## The filter pass of Fader and Submaster -/

theorem filtered_eq (a : Nat) (h : a ≤ 1023) :
    filtered a = if a / 4 ≤ 8 then 4 else ((a / 4 : Nat) : Int) - 4 := by
  unfold filtered toInt16 THRESHOLD
  simp only [Nat.shiftRight_eq_div_pow]
  split_ifs <;> omega

theorem filtered_range (a : Nat) (h : a ≤ 1023) : 4 ≤ filtered a ∧ filtered a ≤ 251 := by
  rw [filtered_eq a h]
  split_ifs <;> omega

theorem normalised_eq (v : Int) : normalised v = ((v : ℚ) - 4) / 247 := by
  simp [normalised, THRESHOLD]

theorem normalised_range (v : Int) (h : 4 ≤ v ∧ v ≤ 251) :
    0 ≤ normalised v ∧ normalised v ≤ 1 := by
  rw [normalised_eq]
  have h1 : (4 : ℚ) ≤ (v : ℚ) := by exact_mod_cast h.1
  have h2 : (v : ℚ) ≤ 251 := by exact_mod_cast h.2
  constructor
  · apply div_nonneg <;> linarith
  · rw [div_le_one (by norm_num)]
    linarith

theorem fader_updateAnalog_eq (f : Fader) (i : FaderInput) :
    f.updateAnalog i =
      if toUInt32 (f.updateTime + FADER_UPDATE_RATE_MS) < toUInt32 i.millisTest then
        if filtered i.analogRead ≠ f.analogLast then
          ({ f with analogLast := filtered i.analogRead, updateTime := toUInt32 i.millisStore },
            [{ address := f.faderPattern,
               args := [OSCData.float (faderValue (filtered i.analogRead))] }])
        else ({ f with updateTime := toUInt32 i.millisStore }, [])
      else (f, []) := by
  rfl

theorem submaster_updateAnalog_eq (s : Submaster) (i : FaderInput) :
    s.updateAnalog i =
      if toUInt32 (s.updateTime + FADER_UPDATE_RATE_MS) < toUInt32 i.millisTest then
        if filtered i.analogRead ≠ s.analogLast then
          ({ s with analogLast := filtered i.analogRead, updateTime := toUInt32 i.millisStore },
            [{ address := s.subPattern,
               args := [OSCData.float (faderValue (filtered i.analogRead))] }])
        else ({ s with updateTime := toUInt32 i.millisStore }, [])
      else (s, []) := by
  rfl

theorem fader_updateAnalog_msg (f : Fader) (i : FaderInput) :
    ∀ m ∈ (f.updateAnalog i).2,
      (f.updateAnalog i).1.analogLast = filtered i.analogRead ∧
        m.args = [OSCData.float (faderValue (filtered i.analogRead))] := by
  intro m hm
  rw [fader_updateAnalog_eq] at hm ⊢
  split_ifs at hm ⊢
  · rw [List.mem_singleton] at hm
    rw [hm]
    simp
  · exact absurd hm (List.not_mem_nil m)
  · exact absurd hm (List.not_mem_nil m)

theorem submaster_updateAnalog_msg (s : Submaster) (i : FaderInput) :
    ∀ m ∈ (s.updateAnalog i).2,
      (s.updateAnalog i).1.analogLast = filtered i.analogRead ∧
        m.args = [OSCData.float (faderValue (filtered i.analogRead))] := by
  intro m hm
  rw [submaster_updateAnalog_eq] at hm ⊢
  split_ifs at hm ⊢
  · rw [List.mem_singleton] at hm
    rw [hm]
    simp
  · exact absurd hm (List.not_mem_nil m)
  · exact absurd hm (List.not_mem_nil m)

theorem fader_update_analog (f : Fader) (i : FaderInput) :
    sentAt f.faderPattern (f.update i).2 = (f.updateAnalog i).2 ∧
      (f.update i).1.analogLast = (f.updateAnalog i).1.analogLast ∧
      (f.update i).1.updateTime = (f.updateAnalog i).1.updateTime := by
  obtain ⟨a1, -, -, -, -, a6⟩ := fader_updateAnalog_frame f i
  obtain ⟨b1, -, -, -, b5, b6, b7⟩ := fader_updateFire_frame (f.updateAnalog i).1 i
  obtain ⟨-, -, -, -, c5, c6, c7⟩ :=
    fader_updateStop_frame ((f.updateAnalog i).1.updateFire i).1 i
  simp only [Fader.update]
  refine ⟨?_, by rw [c5, b5], by rw [c6, b6]⟩
  rw [sentAt_append, sentAt_append, sentAt_same _ _ a6]
  rw [sentAt_other _ ((f.updateAnalog i).1.updateFire i).2 (fun m hm => by
    rw [b7 m hm, a1]; exact (addr_ne_fire _).symm)]
  rw [sentAt_other _ (((f.updateAnalog i).1.updateFire i).1.updateStop i).2 (fun m hm => by
    rw [c7 m hm, b1, a1]; exact (addr_ne_stop _).symm)]
  simp

theorem submaster_updateFire_frame (s : Submaster) (i : FaderInput) :
    (s.updateFire i).1.analogLast = s.analogLast ∧
      (s.updateFire i).1.updateTime = s.updateTime ∧
      (∀ m ∈ (s.updateFire i).2, m.address = s.subPattern ++ "/fire") := by
  unfold Submaster.updateFire
  simp only [OSCMessage.add, OSCMessage.new]
  split_ifs <;> simp

theorem submaster_update_analog (s : Submaster) (i : FaderInput) :
    sentAt s.subPattern (s.update i).2 = (s.updateAnalog i).2 ∧
      (s.update i).1.analogLast = (s.updateAnalog i).1.analogLast ∧
      (s.update i).1.updateTime = (s.updateAnalog i).1.updateTime := by
  obtain ⟨a1, -, -, a4⟩ := submaster_updateAnalog_frame s i
  obtain ⟨b1, b2, b3⟩ := submaster_updateFire_frame (s.updateAnalog i).1 i
  simp only [Submaster.update]
  refine ⟨?_, b1, b2⟩
  rw [sentAt_append, sentAt_same _ _ a4]
  rw [sentAt_other _ ((s.updateAnalog i).1.updateFire i).2 (fun m hm => by
    rw [b3 m hm, a1]; exact (addr_ne_fire _).symm)]
  simp

/-! ## The interval test and idle calls -/

theorem filtered_ne_sentinel (a : Nat) (h : a ≤ 65535) : filtered a ≠ toInt16 0xFFFF := by
  unfold filtered toInt16 THRESHOLD
  simp only [Nat.shiftRight_eq_div_pow]
  split_ifs <;> omega

theorem fader_updateAnalog_pass (f : Fader) (i : FaderInput) :
    f.updateAnalog i =
      if toUInt32 (f.updateTime + FADER_UPDATE_RATE_MS) < toUInt32 i.millisTest then
        f.filterPass i
      else (f, []) := by
  rfl

theorem submaster_updateAnalog_pass (s : Submaster) (i : FaderInput) :
    s.updateAnalog i =
      if toUInt32 (s.updateTime + FADER_UPDATE_RATE_MS) < toUInt32 i.millisTest then
        s.filterPass i
      else (s, []) := by
  rfl

theorem fader_filterPass_sentAt (f : Fader) (i : FaderInput) :
    sentAt f.faderPattern (f.filterPass i).2 = (f.filterPass i).2 := by
  apply sentAt_same
  unfold Fader.filterPass
  split_ifs <;> simp

theorem submaster_filterPass_sentAt (s : Submaster) (i : FaderInput) :
    sentAt s.subPattern (s.filterPass i).2 = (s.filterPass i).2 := by
  apply sentAt_same
  unfold Submaster.filterPass
  split_ifs <;> simp

theorem fader_update_outcome (f : Fader) (i : FaderInput) :
    analogOutcome f.faderPattern (f.update i).2 (f.update i).1.analogLast
        (f.update i).1.updateTime =
      if toUInt32 (f.updateTime + FADER_UPDATE_RATE_MS) < toUInt32 i.millisTest then
        ((f.filterPass i).2, (f.filterPass i).1.analogLast, (f.filterPass i).1.updateTime)
      else ([], f.analogLast, f.updateTime) := by
  obtain ⟨u1, u2, u3⟩ := fader_update_analog f i
  unfold analogOutcome
  rw [u1, u2, u3, fader_updateAnalog_pass]
  split_ifs <;> rfl

theorem submaster_update_outcome (s : Submaster) (i : FaderInput) :
    analogOutcome s.subPattern (s.update i).2 (s.update i).1.analogLast
        (s.update i).1.updateTime =
      if toUInt32 (s.updateTime + FADER_UPDATE_RATE_MS) < toUInt32 i.millisTest then
        ((s.filterPass i).2, (s.filterPass i).1.analogLast, (s.filterPass i).1.updateTime)
      else ([], s.analogLast, s.updateTime) := by
  obtain ⟨u1, u2, u3⟩ := submaster_update_analog s i
  unfold analogOutcome
  rw [u1, u2, u3, submaster_updateAnalog_pass]
  split_ifs <;> rfl

theorem fader_run_append (f : Fader) (xs ys : List FaderInput) :
    f.run (xs ++ ys) =
      (((f.run xs).1.run ys).1, (f.run xs).2 ++ ((f.run xs).1.run ys).2) := by
  induction xs generalizing f with
  | nil => simp [Fader.run]
  | cons x xs ih => simp [Fader.run, ih, List.append_assoc]

theorem submaster_run_append (s : Submaster) (xs ys : List FaderInput) :
    s.run (xs ++ ys) =
      (((s.run xs).1.run ys).1, (s.run xs).2 ++ ((s.run xs).1.run ys).2) := by
  induction xs generalizing s with
  | nil => simp [Submaster.run]
  | cons x xs ih => simp [Submaster.run, ih, List.append_assoc]

theorem fader_run_idle (f : Fader) (pre : List FaderInput)
    (h : ∀ i ∈ pre, ¬ toUInt32 (f.updateTime + FADER_UPDATE_RATE_MS) < toUInt32 i.millisTest) :
    sentAt f.faderPattern (f.run pre).2 = [] ∧
      (f.run pre).1.analogLast = f.analogLast ∧
      (f.run pre).1.updateTime = f.updateTime ∧
      (f.run pre).1.faderPattern = f.faderPattern := by
  induction pre generalizing f with
  | nil => simp [Fader.run, sentAt]
  | cons i rest ih =>
    have hi := h i (List.mem_cons_self _ _)
    have ho := fader_update_outcome f i
    rw [if_neg hi] at ho
    simp only [analogOutcome, Prod.mk.injEq] at ho
    obtain ⟨o1, o2, o3⟩ := ho
    have hp := (fader_update_frame f i).1
    have hrest : ∀ j ∈ rest,
        ¬ toUInt32 ((f.update i).1.updateTime + FADER_UPDATE_RATE_MS) < toUInt32 j.millisTest := by
      intro j hj
      rw [o3]
      exact h j (List.mem_cons_of_mem _ hj)
    obtain ⟨r1, r2, r3, r4⟩ := ih (f.update i).1 hrest
    rw [hp] at r1
    simp only [Fader.run, sentAt_append, o1, r1, r2, r3, r4, o2, o3, hp, List.append_nil,
      and_self]

theorem submaster_run_idle (s : Submaster) (pre : List FaderInput)
    (h : ∀ i ∈ pre, ¬ toUInt32 (s.updateTime + FADER_UPDATE_RATE_MS) < toUInt32 i.millisTest) :
    sentAt s.subPattern (s.run pre).2 = [] ∧
      (s.run pre).1.analogLast = s.analogLast ∧
      (s.run pre).1.updateTime = s.updateTime ∧
      (s.run pre).1.subPattern = s.subPattern := by
  induction pre generalizing s with
  | nil => simp [Submaster.run, sentAt]
  | cons i rest ih =>
    have hi := h i (List.mem_cons_self _ _)
    have ho := submaster_update_outcome s i
    rw [if_neg hi] at ho
    simp only [analogOutcome, Prod.mk.injEq] at ho
    obtain ⟨o1, o2, o3⟩ := ho
    have hp : (s.update i).1.subPattern = s.subPattern := by
      obtain ⟨a1, -, -, -⟩ := submaster_updateAnalog_frame s i
      have hb : ((s.updateAnalog i).1.updateFire i).1.subPattern
          = (s.updateAnalog i).1.subPattern := by
        unfold Submaster.updateFire
        split_ifs <;> rfl
      simp only [Submaster.update]
      rw [hb, a1]
    have hrest : ∀ j ∈ rest,
        ¬ toUInt32 ((s.update i).1.updateTime + FADER_UPDATE_RATE_MS) < toUInt32 j.millisTest := by
      intro j hj
      rw [o3]
      exact h j (List.mem_cons_of_mem _ hj)
    obtain ⟨r1, r2, r3, r4⟩ := ih (s.update i).1 hrest
    rw [hp] at r1
    simp only [Submaster.run, sentAt_append, o1, r1, r2, r3, r4, o2, o3, hp, List.append_nil,
      and_self]

theorem fader_first_pass (f : Fader) (x : FaderInput)
    (hs : f.analogLast = toInt16 0xFFFF)
    (hx : toUInt32 (f.updateTime + FADER_UPDATE_RATE_MS) < toUInt32 x.millisTest)
    (hr : x.analogRead ≤ 65535) :
    (sentAt f.faderPattern (f.update x).2).length = 1 := by
  have ho := fader_update_outcome f x
  rw [if_pos hx] at ho
  simp only [analogOutcome, Prod.mk.injEq] at ho
  rw [ho.1]
  have hne : filtered x.analogRead ≠ f.analogLast := by
    rw [hs]; exact filtered_ne_sentinel _ hr
  unfold Fader.filterPass
  rw [if_pos hne]
  rfl

theorem submaster_first_pass (s : Submaster) (x : FaderInput)
    (hs : s.analogLast = toInt16 0xFFFF)
    (hx : toUInt32 (s.updateTime + FADER_UPDATE_RATE_MS) < toUInt32 x.millisTest)
    (hr : x.analogRead ≤ 65535) :
    (sentAt s.subPattern (s.update x).2).length = 1 := by
  have ho := submaster_update_outcome s x
  rw [if_pos hx] at ho
  simp only [analogOutcome, Prod.mk.injEq] at ho
  rw [ho.1]
  have hne : filtered x.analogRead ≠ s.analogLast := by
    rw [hs]; exact filtered_ne_sentinel _ hr
  unfold Submaster.filterPass
  rw [if_pos hne]
  rfl

theorem toUInt32_of_lt (n : Nat) (h : n < 2 ^ 32) : toUInt32 n = n := by
  unfold toUInt32
  exact Nat.mod_eq_of_lt h

theorem fader_filterPass_facts (f : Fader) (i : FaderInput) :
    (f.filterPass i).1.updateTime = toUInt32 i.millisStore ∧
      (f.filterPass i).1.analogLast = filtered i.analogRead ∧
      ((f.filterPass i).1.analogLast ≠ f.analogLast ↔ (f.filterPass i).2 ≠ []) ∧
      (f.filterPass i).2.length ≤ 1 ∧
      (∀ m ∈ (f.filterPass i).2,
        m.address = f.faderPattern ∧
        m.args = [OSCData.float (faderValue (f.filterPass i).1.analogLast)]) := by
  unfold Fader.filterPass
  by_cases h : filtered i.analogRead ≠ f.analogLast
  · rw [if_pos h]
    simp [h]
  · rw [if_neg h]
    have h2 : filtered i.analogRead = f.analogLast := not_not.mp h
    simp [h2]

theorem submaster_filterPass_facts (s : Submaster) (i : FaderInput) :
    (s.filterPass i).1.updateTime = toUInt32 i.millisStore ∧
      (s.filterPass i).1.analogLast = filtered i.analogRead ∧
      ((s.filterPass i).1.analogLast ≠ s.analogLast ↔ (s.filterPass i).2 ≠ []) ∧
      (s.filterPass i).2.length ≤ 1 ∧
      (∀ m ∈ (s.filterPass i).2,
        m.address = s.subPattern ∧
        m.args = [OSCData.float (faderValue (s.filterPass i).1.analogLast)]) := by
  unfold Submaster.filterPass
  by_cases h : filtered i.analogRead ≠ s.analogLast
  · rw [if_pos h]
    simp [h]
  · rw [if_neg h]
    have h2 : filtered i.analogRead = s.analogLast := not_not.mp h
    simp [h2]

/-! ## Buttons that are not installed -/

theorem fader_update_no_fire (f : Fader) (i : FaderInput) (hp : f.firePin = 0) :
    sentAt (f.faderPattern ++ "/fire") (f.update i).2 = [] := by
  obtain ⟨a1, a2, -, -, -, a6⟩ := fader_updateAnalog_frame f i
  obtain ⟨b1, -, -, -, -, -, -⟩ := fader_updateFire_frame (f.updateAnalog i).1 i
  obtain ⟨-, -, -, -, -, -, c7⟩ :=
    fader_updateStop_frame ((f.updateAnalog i).1.updateFire i).1 i
  have hoff : ((f.updateAnalog i).1.updateFire i).2 = [] := by
    unfold Fader.updateFire
    rw [a2, hp]
    simp
  simp only [Fader.update]
  rw [sentAt_append, sentAt_append, hoff]
  rw [sentAt_other _ (f.updateAnalog i).2 (fun m hm => by
    rw [a6 m hm]; exact addr_ne_fire _)]
  rw [sentAt_other _ (((f.updateAnalog i).1.updateFire i).1.updateStop i).2 (fun m hm => by
    rw [c7 m hm, b1, a1]; exact addr_stop_ne_fire _)]
  rfl

theorem fader_update_no_stop (f : Fader) (i : FaderInput) (hp : f.stopPin = 0) :
    sentAt (f.faderPattern ++ "/stop") (f.update i).2 = [] := by
  obtain ⟨a1, -, a3, -, -, a6⟩ := fader_updateAnalog_frame f i
  obtain ⟨-, -, b3, -, -, -, b7⟩ := fader_updateFire_frame (f.updateAnalog i).1 i
  have hoff : (((f.updateAnalog i).1.updateFire i).1.updateStop i).2 = [] := by
    unfold Fader.updateStop
    rw [b3, a3, hp]
    simp
  simp only [Fader.update]
  rw [sentAt_append, sentAt_append, hoff]
  rw [sentAt_other _ (f.updateAnalog i).2 (fun m hm => by
    rw [a6 m hm]; exact addr_ne_stop _)]
  rw [sentAt_other _ ((f.updateAnalog i).1.updateFire i).2 (fun m hm => by
    rw [b7 m hm, a1]; exact (addr_stop_ne_fire _).symm)]
  rfl

theorem fader_run_no_fire (f : Fader) (inputs : List FaderInput) (hp : f.firePin = 0) :
    sentAt (f.faderPattern ++ "/fire") (f.run inputs).2 = [] := by
  induction inputs generalizing f with
  | nil => simp [Fader.run, sentAt]
  | cons i rest ih =>
    obtain ⟨u1, u2, -⟩ := fader_update_frame f i
    have h := ih (f.update i).1 (by rw [u2]; exact hp)
    rw [u1] at h
    simp only [Fader.run, sentAt_append, fader_update_no_fire f i hp, h, List.append_nil]

theorem fader_run_no_stop (f : Fader) (inputs : List FaderInput) (hp : f.stopPin = 0) :
    sentAt (f.faderPattern ++ "/stop") (f.run inputs).2 = [] := by
  induction inputs generalizing f with
  | nil => simp [Fader.run, sentAt]
  | cons i rest ih =>
    obtain ⟨u1, -, u3⟩ := fader_update_frame f i
    have h := ih (f.update i).1 (by rw [u3]; exact hp)
    rw [u1] at h
    simp only [Fader.run, sentAt_append, fader_update_no_stop f i hp, h, List.append_nil]

theorem submaster_update_frame (s : Submaster) (i : FaderInput) :
    (s.update i).1.subPattern = s.subPattern ∧ (s.update i).1.firePin = s.firePin := by
  obtain ⟨a1, a2, -, -⟩ := submaster_updateAnalog_frame s i
  have hb : ((s.updateAnalog i).1.updateFire i).1.subPattern = (s.updateAnalog i).1.subPattern ∧
      ((s.updateAnalog i).1.updateFire i).1.firePin = (s.updateAnalog i).1.firePin := by
    unfold Submaster.updateFire
    split_ifs <;> exact ⟨rfl, rfl⟩
  simp only [Submaster.update]
  exact ⟨by rw [hb.1, a1], by rw [hb.2, a2]⟩

theorem submaster_update_no_fire (s : Submaster) (i : FaderInput) (hp : s.firePin = 0) :
    sentAt (s.subPattern ++ "/fire") (s.update i).2 = [] := by
  obtain ⟨-, a2, -, a4⟩ := submaster_updateAnalog_frame s i
  have hoff : ((s.updateAnalog i).1.updateFire i).2 = [] := by
    unfold Submaster.updateFire
    rw [a2, hp]
    simp
  simp only [Submaster.update]
  rw [sentAt_append, hoff]
  rw [sentAt_other _ (s.updateAnalog i).2 (fun m hm => by
    rw [a4 m hm]; exact addr_ne_fire _)]
  rfl

theorem submaster_run_no_fire (s : Submaster) (inputs : List FaderInput) (hp : s.firePin = 0) :
    sentAt (s.subPattern ++ "/fire") (s.run inputs).2 = [] := by
  induction inputs generalizing s with
  | nil => simp [Submaster.run, sentAt]
  | cons i rest ih =>
    obtain ⟨u1, u2⟩ := submaster_update_frame s i
    have h := ih (s.update i).1 (by rw [u2]; exact hp)
    rw [u1] at h
    simp only [Submaster.run, sentAt_append, submaster_update_no_fire s i hp, h, List.append_nil]

/-! ## OscButton -/

theorem oscButton_update_eq (b : OscButton) (sample : Nat) :
    b.update sample =
      if sample ≠ b.last then
        if b.last = LOW then ({ b with last := HIGH }, [])
        else ({ b with last := LOW },
          [{ msg := { address := b.pattern, args := b.payload }, ip := b.ip, port := b.port }])
      else (b, []) := by
  rcases b with ⟨typ, pattern, integer32, float32, message, ip, port, pin, last⟩
  unfold OscButton.update OscButton.payload OSCMessage.add OSCMessage.new
  cases typ <;> simp

theorem oscButton_update_frame (b : OscButton) (sample : Nat) :
    (b.update sample).1.typ = b.typ ∧
      (b.update sample).1.pattern = b.pattern ∧
      (b.update sample).1.integer32 = b.integer32 ∧
      (b.update sample).1.float32 = b.float32 ∧
      (b.update sample).1.message = b.message ∧
      (b.update sample).1.ip = b.ip ∧
      (b.update sample).1.port = b.port ∧
      (b.update sample).1.pin = b.pin ∧
      (b.update sample).1.payload = b.payload := by
  rw [oscButton_update_eq]
  unfold OscButton.payload
  split_ifs <;> simp

theorem oscButton_update_calls (b : OscButton) (sample : Nat) :
    ∀ c ∈ (b.update sample).2,
      c = { msg := { address := b.pattern, args := b.payload }, ip := b.ip, port := b.port } := by
  intro c hc
  rw [oscButton_update_eq] at hc
  split_ifs at hc
  · exact absurd hc (List.not_mem_nil c)
  · exact List.mem_singleton.mp hc
  · exact absurd hc (List.not_mem_nil c)

theorem oscButton_run_calls (b : OscButton) (xs : List Nat) :
    ∀ c ∈ (b.run xs).2,
      c = { msg := { address := b.pattern, args := b.payload }, ip := b.ip, port := b.port } := by
  induction xs generalizing b with
  | nil =>
    intro c hc
    exact absurd hc (List.not_mem_nil c)
  | cons x xs ih =>
    intro c hc
    simp only [OscButton.run, List.mem_append] at hc
    rcases hc with hc | hc
    · exact oscButton_update_calls b x c hc
    · obtain ⟨-, f2, -, -, -, f6, f7, -, f9⟩ := oscButton_update_frame b x
      have h := ih (b.update x).1 c hc
      rw [f2, f6, f7, f9] at h
      exact h

theorem oscButton_run_steady (b : OscButton) (xs : List Nat) (h : ∀ s ∈ xs, s = b.last) :
    b.run xs = (b, []) := by
  induction xs with
  | nil => rfl
  | cons x xs ih =>
    have hx : x = b.last := h x (List.mem_cons_self _ _)
    have hxs : ∀ s ∈ xs, s = b.last := fun s hs => h s (List.mem_cons_of_mem _ hs)
    have hu : b.update x = (b, []) := by
      rw [oscButton_update_eq, hx]
      simp
    simp only [OscButton.run, hu, ih hxs, List.append_nil]

theorem oscButton_run_append (b : OscButton) (xs ys : List Nat) :
    b.run (xs ++ ys) =
      (((b.run xs).1.run ys).1, (b.run xs).2 ++ ((b.run xs).1.run ys).2) := by
  induction xs generalizing b with
  | nil => simp [OscButton.run]
  | cons x xs ih => simp [OscButton.run, ih, List.append_assoc]

/-! ## Addresses of Encoder and Wheel follow the bound parameter -/

theorem modifierStep_twice (inst1 inst2 intens : Prop) [Decidable inst1] [Decidable inst2]
    [Decidable intens] (level1 level2 : Nat) (m : Int) (base : String) :
    (modifierStep inst2 intens level2 (modifierStep inst1 intens level1 (m, base))).2 = base ∨
      (modifierStep inst2 intens level2 (modifierStep inst1 intens level1 (m, base))).2
        = base ++ "/fine" ∨
      (modifierStep inst2 intens level2 (modifierStep inst1 intens level1 (m, base))).2
        = base ++ "/fine" ++ "/fine" := by
  unfold modifierStep
  split_ifs <;> simp

theorem modifierStep_not_both (inst1 inst2 intens : Prop) [Decidable inst1] [Decidable inst2]
    [Decidable intens] (level1 level2 : Nat) (m : Int) (base : String)
    (h : ¬ ((inst1 ∧ level1 = LOW) ∧ (inst2 ∧ level2 = LOW))) :
    (modifierStep inst2 intens level2 (modifierStep inst1 intens level1 (m, base))).2 = base ∨
      (modifierStep inst2 intens level2 (modifierStep inst1 intens level1 (m, base))).2
        = base ++ "/fine" := by
  by_cases h1 : inst1 ∧ level1 = LOW
  · have h2 : ¬ (inst2 ∧ level2 = LOW) := fun h2 => h ⟨h1, h2⟩
    rw [modifierStep_off _ _ _ _ h2]
    unfold modifierStep
    split_ifs <;> simp
  · rw [modifierStep_off inst1 _ _ _ h1]
    unfold modifierStep
    split_ifs <;> simp

theorem wheel_fine_fine_address (p : String) :
    "/eos/wheel" ++ "/fine" ++ "/fine" ++ ("/" ++ p) = "/eos/wheel/fine/fine/" ++ p := by
  rw [← String.append_assoc]; rfl

theorem active_wheel_fine_fine_address (p : String) :
    "/eos/active/wheel" ++ "/fine" ++ "/fine" ++ ("/" ++ p) = "/eos/active/wheel/fine/fine/" ++ p := by
  rw [← String.append_assoc]; rfl

theorem encoder_updateMotion_addresses (shiftPin : Nat) (e : Encoder) (i : EncoderInput) :
    ∀ m ∈ (Encoder.updateMotion shiftPin e i).2,
      m.address = "/eos/wheel/" ++ e.param ∨ m.address = "/eos/wheel/fine/" ++ e.param ∨
        m.address = "/eos/wheel/fine/fine/" ++ e.param := by
  intro m hm
  rw [encoder_updateMotion_out] at hm
  split_ifs at hm
  · rw [List.mem_singleton] at hm
    rw [hm]
    rcases modifierStep_twice (shiftPin ≠ 0) (e.buttonPin ≠ 0 ∧ e.buttonMode = ButtonMode.FINE)
      (e.param = "Intens" ∨ e.param = "intens") i.shiftPin i.buttonPin
      (unitMotion e.direction i.pinB) "/eos/wheel" with h | h | h
    · left; simp only [h, wheel_address]
    · right; left; simp only [h, wheel_fine_address]
    · right; right; simp only [h, wheel_fine_fine_address]
  · exact absurd hm (List.not_mem_nil m)

theorem encoder_updateMotion_addresses_not_both (shiftPin : Nat) (e : Encoder)
    (i : EncoderInput)
    (h : ¬ ((shiftPin ≠ 0 ∧ i.shiftPin = LOW) ∧
      ((e.buttonPin ≠ 0 ∧ e.buttonMode = ButtonMode.FINE) ∧ i.buttonPin = LOW))) :
    ∀ m ∈ (Encoder.updateMotion shiftPin e i).2,
      m.address = "/eos/wheel/" ++ e.param ∨ m.address = "/eos/wheel/fine/" ++ e.param := by
  intro m hm
  rw [encoder_updateMotion_out] at hm
  split_ifs at hm
  · rw [List.mem_singleton] at hm
    rw [hm]
    rcases modifierStep_not_both (shiftPin ≠ 0)
      (e.buttonPin ≠ 0 ∧ e.buttonMode = ButtonMode.FINE)
      (e.param = "Intens" ∨ e.param = "intens") i.shiftPin i.buttonPin
      (unitMotion e.direction i.pinB) "/eos/wheel" h with h1 | h1
    · left; simp only [h1, wheel_address]
    · right; simp only [h1, wheel_fine_address]
  · exact absurd hm (List.not_mem_nil m)

theorem wheel_update_addresses (shiftPin : Nat) (w : Wheel) (i : EncoderInput) :
    ∀ m ∈ (Wheel.update shiftPin w i).2,
      m.address = "/eos/active/wheel/" ++ decimal w.idx ∨
        m.address = "/eos/active/wheel/fine/" ++ decimal w.idx ∨
        m.address = "/eos/active/wheel/fine/fine/" ++ decimal w.idx := by
  intro m hm
  rw [wheel_update_out] at hm
  split_ifs at hm
  · rw [List.mem_singleton] at hm
    rw [hm]
    rcases modifierStep_twice (shiftPin ≠ 0)
      (w.buttonPin ≠ 0 ∧ w.buttonMode = ButtonMode.FINE.toNat)
      (w.idx = 1) i.shiftPin i.buttonPin
      (unitMotion w.direction i.pinB) "/eos/active/wheel" with h | h | h
    · left; simp only [h, active_wheel_address]
    · right; left; simp only [h, active_wheel_fine_address]
    · right; right; simp only [h, active_wheel_fine_fine_address]
  · exact absurd hm (List.not_mem_nil m)

theorem encoder_updateButton_param (e : Encoder) (i : EncoderInput) :
    (Encoder.updateButton e i).1.param = e.param := by
  unfold Encoder.updateButton
  split_ifs <;> rfl

theorem encoder_update_param (shiftPin : Nat) (e : Encoder) (i : EncoderInput) :
    (Encoder.update shiftPin e i).1.param = e.param := by
  simp only [Encoder.update]
  rw [encoder_updateButton_param, (encoder_updateMotion_frame shiftPin e i).1]

theorem wheel_update_idx (shiftPin : Nat) (w : Wheel) (i : EncoderInput) :
    (Wheel.update shiftPin w i).1.idx = w.idx := by
  rw [wheel_update_eq]
  split_ifs <;> rfl

theorem motionMessages_append (base : String) (xs ys : List OSCMessage) :
    motionMessages base (xs ++ ys) = motionMessages base xs ++ motionMessages base ys := by
  simp [motionMessages]

theorem encoder_run_facts (shiftPin : Nat) (e : Encoder) (inputs : List EncoderInput) :
    (Encoder.run shiftPin e inputs).1.param = e.param ∧
      (∀ m ∈ motionMessages "/eos/wheel" (Encoder.run shiftPin e inputs).2,
        m.address = "/eos/wheel/" ++ e.param ∨ m.address = "/eos/wheel/fine/" ++ e.param ∨
          m.address = "/eos/wheel/fine/fine/" ++ e.param) ∧
      (∀ m ∈ (Encoder.run shiftPin e inputs).2,
        m ∉ motionMessages "/eos/wheel" (Encoder.run shiftPin e inputs).2 →
          m.address = "/eos/param/" ++ e.param ++ "/home") := by
  induction inputs generalizing e with
  | nil =>
    refine ⟨rfl, ?_, ?_⟩
    · intro m hm
      simp [Encoder.run, motionMessages] at hm
    · intro m hm
      simp [Encoder.run] at hm
  | cons i rest ih =>
    have hp := encoder_update_param shiftPin e i
    obtain ⟨r1, r2, r3⟩ := ih (Encoder.update shiftPin e i).1
    rw [hp] at r1 r2 r3
    have hmot := encoder_update_motion shiftPin e i
    refine ⟨?_, ?_, ?_⟩
    · simp only [Encoder.run]
      exact r1
    · intro m hm
      simp only [Encoder.run, motionMessages_append, List.mem_append] at hm
      rcases hm with hm | hm
      · rw [hmot] at hm
        exact encoder_updateMotion_addresses shiftPin e i m hm
      · exact r2 m hm
    · intro m hm hnot
      simp only [Encoder.run, motionMessages_append, List.mem_append] at hm hnot
      rcases hm with hm | hm
      · simp only [Encoder.update, List.mem_append] at hm
        rcases hm with hm | hm
        · exfalso
          apply hnot
          left
          rw [hmot]
          exact hm
        · have hb := encoder_updateButton_address (Encoder.updateMotion shiftPin e i).1 i m hm
          rw [(encoder_updateMotion_frame shiftPin e i).1] at hb
          exact hb
      · exact r3 m hm (fun hx => hnot (Or.inr hx))

theorem wheel_run_facts (shiftPin : Nat) (w : Wheel) (inputs : List EncoderInput) :
    (Wheel.run shiftPin w inputs).1.idx = w.idx ∧
      (∀ m ∈ (Wheel.run shiftPin w inputs).2,
        m.address = "/eos/active/wheel/" ++ decimal w.idx ∨
          m.address = "/eos/active/wheel/fine/" ++ decimal w.idx ∨
          m.address = "/eos/active/wheel/fine/fine/" ++ decimal w.idx) := by
  induction inputs generalizing w with
  | nil =>
    refine ⟨rfl, ?_⟩
    intro m hm
    simp [Wheel.run] at hm
  | cons i rest ih =>
    have hp := wheel_update_idx shiftPin w i
    obtain ⟨r1, r2⟩ := ih (Wheel.update shiftPin w i).1
    rw [hp] at r1 r2
    refine ⟨?_, ?_⟩
    · simp only [Wheel.run]
      exact r1
    · intro m hm
      simp only [Wheel.run, List.mem_append] at hm
      rcases hm with hm | hm
      · exact wheel_update_addresses shiftPin w i m hm
      · exact r2 m hm

/-! ## Buttons in Fine mode -/

theorem home_address_not_motion (q : String) :
    ("/eos/wheel".data).isPrefixOf (("/eos/param/" ++ q ++ "/home").data) = false := by
  have hbase : "/eos/wheel".data = ['/', 'e', 'o', 's', '/', 'w', 'h', 'e', 'e', 'l'] := rfl
  have hparam : "/eos/param/".data =
      ['/', 'e', 'o', 's', '/', 'p', 'a', 'r', 'a', 'm', '/'] := rfl
  simp only [String.data_append, hbase, hparam, List.cons_append, List.isPrefixOf]
  decide

theorem encoder_update_button_config (shiftPin : Nat) (e : Encoder) (i : EncoderInput) :
    (Encoder.update shiftPin e i).1.buttonPin = e.buttonPin ∧
      (Encoder.update shiftPin e i).1.buttonMode = e.buttonMode := by
  obtain ⟨-, f2, f3, -, -⟩ := encoder_updateMotion_frame shiftPin e i
  have hb : (Encoder.updateButton (Encoder.updateMotion shiftPin e i).1 i).1.buttonPin
        = (Encoder.updateMotion shiftPin e i).1.buttonPin ∧
      (Encoder.updateButton (Encoder.updateMotion shiftPin e i).1 i).1.buttonMode
        = (Encoder.updateMotion shiftPin e i).1.buttonMode := by
    unfold Encoder.updateButton
    split_ifs <;> exact ⟨rfl, rfl⟩
  simp only [Encoder.update]
  exact ⟨by rw [hb.1, f2], by rw [hb.2, f3]⟩

theorem encoder_run_only_motion (shiftPin : Nat) (e : Encoder) (inputs : List EncoderInput)
    (h : e.buttonPin = 0 ∨ e.buttonMode = ButtonMode.FINE) :
    motionMessages "/eos/wheel" (Encoder.run shiftPin e inputs).2 =
      (Encoder.run shiftPin e inputs).2 := by
  induction inputs generalizing e with
  | nil => simp [Encoder.run, motionMessages]
  | cons i rest ih =>
    obtain ⟨c1, c2⟩ := encoder_update_button_config shiftPin e i
    have h2 : (Encoder.update shiftPin e i).1.buttonPin = 0 ∨
        (Encoder.update shiftPin e i).1.buttonMode = ButtonMode.FINE := by
      rw [c1, c2]; exact h
    have hstep : motionMessages "/eos/wheel" (Encoder.update shiftPin e i).2 =
        (Encoder.update shiftPin e i).2 := by
      rw [encoder_update_motion, encoder_update_no_button shiftPin e i h]
    simp only [Encoder.run, motionMessages_append, hstep, ih _ h2]

theorem motionMessages_address (base : String) (trace : List OSCMessage) :
    ∀ m ∈ motionMessages base trace, base.data.isPrefixOf m.address.data = true := by
  intro m hm
  unfold motionMessages at hm
  exact (List.mem_filter.mp hm).2

theorem wheel_update_args (shiftPin : Nat) (w : Wheel) (i : EncoderInput) :
    ∀ m ∈ (Wheel.update shiftPin w i).2, ∃ a : Int, m.args = [OSCData.int a] := by
  intro m hm
  rw [wheel_update_out] at hm
  split_ifs at hm
  · rw [List.mem_singleton] at hm
    rw [hm]
    exact ⟨_, rfl⟩
  · exact absurd hm (List.not_mem_nil m)

theorem wheel_run_args (shiftPin : Nat) (w : Wheel) (inputs : List EncoderInput) :
    ∀ m ∈ (Wheel.run shiftPin w inputs).2, ∃ a : Int, m.args = [OSCData.int a] := by
  induction inputs generalizing w with
  | nil =>
    intro m hm
    simp [Wheel.run] at hm
  | cons i rest ih =>
    intro m hm
    simp only [Wheel.run, List.mem_append] at hm
    rcases hm with hm | hm
    · exact wheel_update_args shiftPin w i m hm
    · exact ih _ m hm

theorem encoder_updateMotion_button_level (shiftPin : Nat) (e : Encoder) (i : EncoderInput)
    (x : Nat) (h : e.buttonPin = 0 ∨ e.buttonMode = ButtonMode.HOME) :
    (Encoder.updateMotion shiftPin e i).2 =
      (Encoder.updateMotion shiftPin e { i with buttonPin := x }).2 := by
  have hoff : ∀ level : Nat,
      ¬ ((e.buttonPin ≠ 0 ∧ e.buttonMode = ButtonMode.FINE) ∧ level = LOW) := by
    intro level hx
    rcases h with h | h
    · exact hx.1.1 h
    · rw [h] at hx
      exact absurd hx.1.2 (by decide)
  rw [encoder_updateMotion_out, encoder_updateMotion_out,
    modifierStep_off _ _ _ _ (hoff i.buttonPin), modifierStep_off _ _ _ _ (hoff x)]

/-! ## The filtered value as a function of the sample -/

theorem filtered_eq_max (a : Nat) (h : a ≤ 1023) :
    filtered a = max THRESHOLD (((a >>> 2 : Nat) : Int) - THRESHOLD) := by
  rw [filtered_eq a h]
  simp only [Nat.shiftRight_eq_div_pow, THRESHOLD]
  split_ifs <;> omega

theorem filtered_mono (a b : Nat) (ha : a ≤ 1023) (hb : b ≤ 1023)
    (hab : a >>> 2 ≤ b >>> 2) : filtered a ≤ filtered b := by
  rw [filtered_eq a ha, filtered_eq b hb]
  simp only [Nat.shiftRight_eq_div_pow] at hab
  split_ifs <;> omega

theorem fader_run_addresses (f : Fader) (inputs : List FaderInput) :
    ∀ m ∈ (f.run inputs).2,
      m.address = f.faderPattern ∨ m.address = f.faderPattern ++ "/fire" ∨
        m.address = f.faderPattern ++ "/stop" := by
  induction inputs generalizing f with
  | nil =>
    intro m hm
    simp [Fader.run] at hm
  | cons i rest ih =>
    intro m hm
    simp only [Fader.run, List.mem_append] at hm
    rcases hm with hm | hm
    · obtain ⟨a1, -, -, -, -, a6⟩ := fader_updateAnalog_frame f i
      obtain ⟨b1, -, -, -, -, -, b7⟩ := fader_updateFire_frame (f.updateAnalog i).1 i
      obtain ⟨-, -, -, -, -, -, c7⟩ :=
        fader_updateStop_frame ((f.updateAnalog i).1.updateFire i).1 i
      simp only [Fader.update, List.mem_append] at hm
      rcases hm with (hm | hm) | hm
      · left; exact a6 m hm
      · right; left; rw [b7 m hm, a1]
      · right; right; rw [c7 m hm, b1, a1]
    · have h := ih (f.update i).1 m hm
      rw [(fader_update_frame f i).1] at h
      exact h

theorem fader_run_pattern (f : Fader) (inputs : List FaderInput) :
    (f.run inputs).1.faderPattern = f.faderPattern := by
  induction inputs generalizing f with
  | nil => rfl
  | cons i rest ih =>
    simp only [Fader.run]
    rw [ih (f.update i).1, (fader_update_frame f i).1]

/-! ## The float value of a fader message -/

set_option maxRecDepth 1000000 in
theorem float32Parts_facts :
    ∀ n, n ≤ 247 →
      (float32Parts n 247).2 = 2 ^ floorLog2 (float32Parts n 247).2 ∧
      floorLog2 (float32Parts n 247).2 ≤ 31 ∧
      ((float32Parts n 247).1 = 0 ∨ 2 ^ 23 ≤ (float32Parts n 247).1) ∧
      (float32Parts n 247).1 ≤ 2 ^ 24 ∧
      (float32Parts n 247).1 ≤ (float32Parts n 247).2 ∧
      2 * ((float32Parts n 247).1 * 247) ≤ 2 * (n * (float32Parts n 247).2) + 247 ∧
      2 * (n * (float32Parts n 247).2) ≤ 2 * ((float32Parts n 247).1 * 247) + 247 ∧
      (float32Parts n 247).1 * 247 * 2 ^ 25 ≤
        n * (float32Parts n 247).2 * 2 ^ 25 + 247 * (float32Parts n 247).2 ∧
      n * (float32Parts n 247).2 * 2 ^ 25 ≤
        (float32Parts n 247).1 * 247 * 2 ^ 25 + 247 * (float32Parts n 247).2 ∧
      float32Parts n 247 = roundBinary 24 n 247 := by
  decide!

theorem faderValue_eq (n : Nat) :
    faderValue ((n : Int) + 4) =
      ((float32Parts n 247).1 : ℚ) / ((float32Parts n 247).2 : ℚ) := by
  unfold faderValue divFloat32 THRESHOLD
  have h1 : ((n : Int) + 4 - 4) = (n : Int) := by omega
  have h2 : ((255 : Int) - 2 * 4) = 247 := by norm_num
  rw [h1, h2]
  have h3 : ¬ (((n : Int) < 0 ∧ (0 : Int) < 247) ∨ ((0 : Int) < n ∧ (247 : Int) < 0)) := by
    omega
  simp only [Int.natAbs_ofNat, if_neg h3]
  rfl

theorem rounded_quotient_bounds (m D n : Nat) (e : Nat) (hD : D = 2 ^ e)
    (h1 : 2 * (m * 247) ≤ 2 * (n * D) + 247) (h2 : 2 * (n * D) ≤ 2 * (m * 247) + 247)
    (h3 : m * 247 * 2 ^ 25 ≤ n * D * 2 ^ 25 + 247 * D)
    (h4 : n * D * 2 ^ 25 ≤ m * 247 * 2 ^ 25 + 247 * D)
    (h5 : m ≤ D) :
    |(m : ℚ) / (D : ℚ) - (n : ℚ) / 247| ≤ 1 / 2 ^ (e + 1) ∧
      |(m : ℚ) / (D : ℚ) - (n : ℚ) / 247| ≤ 1 / 2 ^ 25 ∧
      0 ≤ (m : ℚ) / (D : ℚ) ∧ (m : ℚ) / (D : ℚ) ≤ 1 := by
  have hDpos : (0 : ℚ) < (D : ℚ) := by
    rw [hD]; push_cast; positivity
  have hK : (0 : ℚ) < 247 * (D : ℚ) := by positivity
  have h2D : (0 : ℚ) < 2 * (D : ℚ) := by positivity
  have hpow : (2 : ℚ) ^ (e + 1) = 2 * (D : ℚ) := by
    rw [hD]; push_cast; ring
  have c1 : (2 : ℚ) * ((m : ℚ) * 247) ≤ 2 * ((n : ℚ) * D) + 247 := by exact_mod_cast h1
  have c2 : (2 : ℚ) * ((n : ℚ) * D) ≤ 2 * ((m : ℚ) * 247) + 247 := by exact_mod_cast h2
  have c3 : (m : ℚ) * 247 * 2 ^ 25 ≤ (n : ℚ) * D * 2 ^ 25 + 247 * D := by exact_mod_cast h3
  have c4 : (n : ℚ) * D * 2 ^ 25 ≤ (m : ℚ) * 247 * 2 ^ 25 + 247 * D := by exact_mod_cast h4
  have c5 : (m : ℚ) ≤ (D : ℚ) := by exact_mod_cast h5
  have d1 := mul_le_mul_of_nonneg_right c1 hDpos.le
  have d2 := mul_le_mul_of_nonneg_right c2 hDpos.le
  have hdiff : (m : ℚ) / (D : ℚ) - (n : ℚ) / 247 =
      ((m : ℚ) * 247 - (n : ℚ) * D) / (247 * D) := by
    field_simp
    ring
  have hneg : ∀ c : ℚ, -(1 / c) = (-1) / c := fun c => by ring
  refine ⟨?_, ?_, ?_, ?_⟩
  · rw [hdiff, hpow, abs_le, hneg]
    constructor
    · rw [div_le_div_iff₀ h2D hK]
      nlinarith
    · rw [div_le_div_iff₀ hK h2D]
      nlinarith
  · rw [hdiff, abs_le, hneg]
    constructor
    · rw [div_le_div_iff₀ (by positivity) hK]
      nlinarith
    · rw [div_le_div_iff₀ hK (by positivity)]
      nlinarith
  · positivity
  · rw [div_le_one hDpos]
    exact c5

theorem faderValue_rounded (v : Int) (h : 4 ≤ v ∧ v ≤ 251) :
    (∃ mant e : Nat, (mant = 0 ∨ 2 ^ 23 ≤ mant) ∧ mant ≤ 2 ^ 24 ∧ e ≤ 31 ∧
        faderValue v = (mant : ℚ) / 2 ^ e ∧
        |faderValue v - normalised v| ≤ 1 / 2 ^ (e + 1)) ∧
      |faderValue v - normalised v| ≤ 1 / 2 ^ 25 ∧
      0 ≤ faderValue v ∧ faderValue v ≤ 1 := by
  obtain ⟨n, hn⟩ : ∃ n : Nat, v = (n : Int) + 4 := ⟨(v - 4).toNat, by omega⟩
  have hn2 : n ≤ 247 := by omega
  obtain ⟨f1, f2, f3, f4, f5, f6, f7, f8, f9, -⟩ := float32Parts_facts n hn2
  have hq : normalised v = (n : ℚ) / 247 := by
    rw [normalised_eq, hn]
    push_cast
    ring
  obtain ⟨b1, b2, b3, b4⟩ := rounded_quotient_bounds (float32Parts n 247).1
    (float32Parts n 247).2 n (floorLog2 (float32Parts n 247).2) f1 f6 f7 f8 f9 f5
  have hv : faderValue v =
      ((float32Parts n 247).1 : ℚ) / ((float32Parts n 247).2 : ℚ) := by
    rw [hn]; exact faderValue_eq n
  have hv2 : faderValue v =
      ((float32Parts n 247).1 : ℚ) / 2 ^ floorLog2 (float32Parts n 247).2 := by
    rw [hv]
    congr 1
    exact_mod_cast f1
  rw [hq, hv]
  refine ⟨⟨(float32Parts n 247).1, floorLog2 (float32Parts n 247).2, f3, f4, f2, ?_, b1⟩,
    b2, b3, b4⟩
  rw [← hv]
  exact hv2

set_option maxRecDepth 1000000 in
theorem faderValue_samples :
    faderValue 4 = 0 ∧ faderValue 251 = 1 ∧ faderValue 100 = 13041399 / 33554432 := by
  have p0 : float32Parts 0 247 = (0, 1) := by decide!
  have p247 : float32Parts 247 247 = (8388608, 8388608) := by decide!
  have p96 : float32Parts 96 247 = (13041399, 33554432) := by decide!
  have e0 := faderValue_eq 0
  have e247 := faderValue_eq 247
  have e96 := faderValue_eq 96
  rw [p0] at e0
  rw [p247] at e247
  rw [p96] at e96
  refine ⟨?_, ?_, ?_⟩
  · have h : ((0 : Nat) : Int) + 4 = 4 := by norm_num
    rw [h] at e0
    rw [e0]
    norm_num
  · have h : ((247 : Nat) : Int) + 4 = 251 := by norm_num
    rw [h] at e247
    rw [e247]
    norm_num
  · have h : ((96 : Nat) : Int) + 4 = 100 := by norm_num
    rw [h] at e96
    rw [e96]
    norm_num

theorem faderValue_single_rounding (v : Int) (h : 4 ≤ v ∧ v ≤ 251) :
    faderValue v = ((roundBinary 24 (v - 4).toNat 247).1 : ℚ) /
      ((roundBinary 24 (v - 4).toNat 247).2 : ℚ) := by
  obtain ⟨n, hn⟩ : ∃ n : Nat, v = (n : Int) + 4 := ⟨(v - 4).toNat, by omega⟩
  have hn2 : n ≤ 247 := by omega
  have hn3 : (v - 4).toNat = n := by omega
  obtain ⟨-, -, -, -, -, -, -, -, -, f10⟩ := float32Parts_facts n hn2
  rw [hn3, ← f10, hn]
  exact faderValue_eq n

/-! ## Claims -/

/-- C1: a Key, and likewise a Macro, constructed while its pin reads `L0` (LOW or
HIGH) and polled with any finite sequence of LOW/HIGH samples emits as many messages
as there are indices at which the sample differs from the one before it (the first
one being compared with `L0`); after each call the stored level is the sample just
read; and a run in which the pin never leaves `L0` emits nothing. -/
theorem key_macro_one_message_per_level_change (pin macroNo : Nat) (keyName : String)
    (L0 : Nat) (samples : List Nat)
    (hL : L0 = LOW ∨ L0 = HIGH) (hs : ∀ s ∈ samples, s = LOW ∨ s = HIGH) :
    (((Key.construct pin keyName L0).run samples).2.length = levelChanges L0 samples ∧
      (∀ (k : Nat) (hk : k < samples.length),
        ((Key.construct pin keyName L0).run (samples.take (k + 1))).1.last
          = samples.get ⟨k, hk⟩) ∧
      ((∀ s ∈ samples, s = L0) → ((Key.construct pin keyName L0).run samples).2 = [])) ∧
    (((Macro.construct pin macroNo L0).run samples).2.length = levelChanges L0 samples ∧
      (∀ (k : Nat) (hk : k < samples.length),
        ((Macro.construct pin macroNo L0).run (samples.take (k + 1))).1.last
          = samples.get ⟨k, hk⟩) ∧
      ((∀ s ∈ samples, s = L0) → ((Macro.construct pin macroNo L0).run samples).2 = [])) := by
  have h8 := toUInt8_level L0 hL
  have htake : ∀ k, ∀ s ∈ samples.take (k + 1), s = LOW ∨ s = HIGH :=
    fun k s h => hs s (List.mem_of_mem_take h)
  refine ⟨⟨?_, ?_, ?_⟩, ⟨?_, ?_, ?_⟩⟩
  · rw [key_run_eq]
    simpa [Key.construct, h8] using (edgeSpec_run_count _ L0 samples hL hs).1
  · intro k hk
    have hc := (edgeSpec_run_count ("/eos/key/" ++ keyName) L0 (samples.take (k + 1)) hL
      (htake k)).2
    rw [getLastD_take_succ samples k hk] at hc
    rw [key_run_eq]
    simpa [Key.construct, h8] using hc
  · intro hst
    rw [key_run_eq]
    simp [Key.construct, h8, edgeSpec_run_steady _ L0 samples hst]
  · rw [macro_run_eq]
    simpa [Macro.construct, h8] using (edgeSpec_run_count _ L0 samples hL hs).1
  · intro k hk
    have hc := (edgeSpec_run_count ("/eos/macro/" ++ decimal macroNo ++ "/fire") L0
      (samples.take (k + 1)) hL (htake k)).2
    rw [getLastD_take_succ samples k hk] at hc
    rw [macro_run_eq]
    simpa [Macro.construct, h8] using hc
  · intro hst
    rw [macro_run_eq]
    simp [Macro.construct, h8, edgeSpec_run_steady _ L0 samples hst]

/-- Witness of C1: a key on pin 2 that reads HIGH at construction and then sees
HIGH, LOW, LOW, HIGH emits two messages. -/
theorem key_macro_one_message_per_level_change_witness :
    ((Key.construct 2 "go" 1).run [1, 0, 0, 1]).2.length = 2 ∧
      ((Macro.construct 2 7 1).run [1, 0, 0, 1]).2.length = 2 :=
  ⟨(key_macro_one_message_per_level_change 2 7 "go" 1 [1, 0, 0, 1]
      (by decide) (by decide)).1.1,
    (key_macro_one_message_per_level_change 2 7 "go" 1 [1, 0, 0, 1]
      (by decide) (by decide)).2.1⟩

/-- C3: for a Key, a Macro, the fire and stop buttons of a Fader and the fire button
of a Submaster, constructed while the pin reads `L0` (LOW or HIGH): while the pin
stays at `L0` no message is emitted, the first message is emitted by the call that
reads the first sample different from `L0`, and it carries the tag of the transition
away from `L0` (`EDGE_UP` if `L0` is LOW, `EDGE_DOWN` if `L0` is HIGH). -/
theorem first_message_reports_leaving_initial_level (L0 : Nat) (hL : L0 = LOW ∨ L0 = HIGH) :
    (∀ (pin : Nat) (keyName : String) (pre : List Nat) (x : Nat) (rest : List Nat),
      (∀ s ∈ pre, s = L0) → x ≠ L0 →
      FirstEdge ("/eos/key/" ++ keyName) L0
        (fun xs => ((Key.construct pin keyName L0).run xs).2) pre x rest) ∧
    (∀ (pin macroNo : Nat) (pre : List Nat) (x : Nat) (rest : List Nat),
      (∀ s ∈ pre, s = L0) → x ≠ L0 →
      FirstEdge ("/eos/macro/" ++ decimal macroNo ++ "/fire") L0
        (fun xs => ((Macro.construct pin macroNo L0).run xs).2) pre x rest) ∧
    (∀ (analogPin firePin stopPin fader bank stopLevel now : Nat)
        (pre : List FaderInput) (x : FaderInput) (rest : List FaderInput),
      firePin ≠ 0 → (∀ i ∈ pre, i.firePin = L0) → x.firePin ≠ L0 →
      FirstEdge ("/eos/fader/" ++ decimal bank ++ "/" ++ decimal fader ++ "/fire") L0
        (fun xs => sentAt ("/eos/fader/" ++ decimal bank ++ "/" ++ decimal fader ++ "/fire")
          ((Fader.construct analogPin firePin stopPin fader bank L0 stopLevel now).run xs).2)
        pre x rest) ∧
    (∀ (analogPin firePin stopPin fader bank fireLevel now : Nat)
        (pre : List FaderInput) (x : FaderInput) (rest : List FaderInput),
      stopPin ≠ 0 → (∀ i ∈ pre, i.stopPin = L0) → x.stopPin ≠ L0 →
      FirstEdge ("/eos/fader/" ++ decimal bank ++ "/" ++ decimal fader ++ "/stop") L0
        (fun xs => sentAt ("/eos/fader/" ++ decimal bank ++ "/" ++ decimal fader ++ "/stop")
          ((Fader.construct analogPin firePin stopPin fader bank fireLevel L0 now).run xs).2)
        pre x rest) ∧
    (∀ (analogPin firePin sub now : Nat)
        (pre : List FaderInput) (x : FaderInput) (rest : List FaderInput),
      firePin ≠ 0 → (∀ i ∈ pre, i.firePin = L0) → x.firePin ≠ L0 →
      FirstEdge ("/eos/sub/" ++ decimal sub ++ "/fire") L0
        (fun xs => sentAt ("/eos/sub/" ++ decimal sub ++ "/fire")
          ((Submaster.construct analogPin firePin sub L0 now).run xs).2)
        pre x rest) := by
  have h8 := toUInt8_level L0 hL
  refine ⟨?_, ?_, ?_, ?_, ?_⟩
  · intro pin keyName pre x rest hpre hx
    refine firstEdge_of_run _ L0 _ id ?_ pre x rest hpre hx
    intro xs
    simp [key_run_eq, Key.construct, h8]
  · intro pin macroNo pre x rest hpre hx
    refine firstEdge_of_run _ L0 _ id ?_ pre x rest hpre hx
    intro xs
    simp [macro_run_eq, Macro.construct, h8]
  · intro analogPin firePin stopPin fader bank stopLevel now pre x rest hp hpre hx
    refine firstEdge_of_run _ L0 _ FaderInput.firePin ?_ pre x rest hpre hx
    intro xs
    have h := fader_run_fire (Fader.construct analogPin firePin stopPin fader bank L0 stopLevel now)
      xs hp
    simpa [Fader.construct, h8] using h
  · intro analogPin firePin stopPin fader bank fireLevel now pre x rest hp hpre hx
    refine firstEdge_of_run _ L0 _ FaderInput.stopPin ?_ pre x rest hpre hx
    intro xs
    have h := fader_run_stop (Fader.construct analogPin firePin stopPin fader bank fireLevel L0 now)
      xs hp
    simpa [Fader.construct, h8] using h
  · intro analogPin firePin sub now pre x rest hp hpre hx
    refine firstEdge_of_run _ L0 _ FaderInput.firePin ?_ pre x rest hpre hx
    intro xs
    have h := submaster_run_fire (Submaster.construct analogPin firePin sub L0 now) xs hp
    simpa [Submaster.construct, h8] using h

/-- Witness of C3: a fader whose fire button (pin 3) reads HIGH at construction,
polled released, released, pressed, released: the first fire message is the one of
the third call and carries `EDGE_DOWN`. -/
theorem first_message_reports_leaving_initial_level_witness :
    FirstEdge ("/eos/fader/" ++ decimal 1 ++ "/" ++ decimal 2 ++ "/fire") 1
      (fun xs => sentAt ("/eos/fader/" ++ decimal 1 ++ "/" ++ decimal 2 ++ "/fire")
        ((Fader.construct 14 3 4 2 1 1 1 0).run xs).2)
      [Sample.released, Sample.released] Sample.pressed [Sample.released] :=
  (first_message_reports_leaving_initial_level 1 (by decide)).2.2.1 14 3 4 2 1 1 0
    [Sample.released, Sample.released] Sample.pressed [Sample.released]
    (by decide) (by decide) (by decide)

/-- C4: `Encoder::update` and `Wheel::update` send a motion message if and only if
the stored sample of pin A is non-zero and the current sample of pin A is LOW; in
every other case no motion message is sent, whatever pin B, the shift pin and the
button pin read; and no call sends more than one motion message. -/
theorem motion_only_on_falling_edge_of_A (shiftPin : Nat) (e : Encoder) (w : Wheel)
    (i : EncoderInput) (hA : i.pinA = LOW ∨ i.pinA = HIGH) :
    (((motionMessages "/eos/wheel" (Encoder.update shiftPin e i).2).length = 1 ↔
        (e.pinALast ≠ 0 ∧ i.pinA = LOW)) ∧
      (¬ (e.pinALast ≠ 0 ∧ i.pinA = LOW) →
        motionMessages "/eos/wheel" (Encoder.update shiftPin e i).2 = []) ∧
      (motionMessages "/eos/wheel" (Encoder.update shiftPin e i).2).length ≤ 1) ∧
    ((((Wheel.update shiftPin w i).2).length = 1 ↔ (w.pinALast ≠ 0 ∧ i.pinA = LOW)) ∧
      (¬ (w.pinALast ≠ 0 ∧ i.pinA = LOW) → (Wheel.update shiftPin w i).2 = []) ∧
      ((Wheel.update shiftPin w i).2).length ≤ 1) := by
  have hz := toUInt8_eq_zero_iff i.pinA hA
  rw [encoder_update_motion, encoder_updateMotion_out, wheel_update_out]
  refine ⟨?_, ?_⟩
  · by_cases h : e.pinALast ≠ 0 ∧ i.pinA = LOW
    · have h2 : e.pinALast ≠ 0 ∧ toUInt8 i.pinA = 0 := ⟨h.1, hz.mpr h.2⟩
      rw [if_pos h2]
      simp [h]
    · have h2 : ¬ (e.pinALast ≠ 0 ∧ toUInt8 i.pinA = 0) := fun x => h ⟨x.1, hz.mp x.2⟩
      rw [if_neg h2]
      simp [h]
  · by_cases h : w.pinALast ≠ 0 ∧ i.pinA = LOW
    · have h2 : w.pinALast ≠ 0 ∧ toUInt8 i.pinA = 0 := ⟨h.1, hz.mpr h.2⟩
      rw [if_pos h2]
      simp [h]
    · have h2 : ¬ (w.pinALast ≠ 0 ∧ toUInt8 i.pinA = 0) := fun x => h ⟨x.1, hz.mp x.2⟩
      rw [if_neg h2]
      simp [h]

/-- Witness of C4: the sample encoder and wheel at a falling edge of pin A. -/
theorem motion_only_on_falling_edge_of_A_witness :
    (motionMessages "/eos/wheel" (Encoder.update 5 Sample.encoder Sample.fallingEdge).2).length = 1
      ∧ ((Wheel.update 5 Sample.wheel Sample.fallingEdge).2).length = 1 :=
  ⟨(motion_only_on_falling_edge_of_A 5 Sample.encoder Sample.wheel Sample.fallingEdge
      (by decide)).1.1.mpr (by decide),
    (motion_only_on_falling_edge_of_A 5 Sample.encoder Sample.wheel Sample.fallingEdge
      (by decide)).2.1.mpr (by decide)⟩

/-- C5: on a falling edge of pin A with no modifier asserted (the shift pin is not
installed or does not read LOW, and no Fine button is installed and reading LOW),
the integer argument of the motion message of `Encoder::update` and `Wheel::update`
is `-1 * WHEEL_ACC` when pin B reads HIGH and `1 * WHEEL_ACC` when pin B reads LOW
for direction FORWARD, and the negation of that value for direction REVERSE. -/
theorem motion_sign_follows_B_and_direction (shiftPin : Nat) (i : EncoderInput)
    (hA : i.pinA = LOW) (hshift : ¬ (shiftPin ≠ 0 ∧ i.shiftPin = LOW)) :
    (∀ e : Encoder, e.pinALast ≠ 0 →
      ¬ (e.buttonPin ≠ 0 ∧ e.buttonMode = ButtonMode.FINE ∧ i.buttonPin = LOW) →
      (e.direction = FORWARD → i.pinB = HIGH →
        (motionMessages "/eos/wheel" (Encoder.update shiftPin e i).2).map OSCMessage.args
          = [[OSCData.int (-1 * WHEEL_ACC)]]) ∧
      (e.direction = FORWARD → i.pinB = LOW →
        (motionMessages "/eos/wheel" (Encoder.update shiftPin e i).2).map OSCMessage.args
          = [[OSCData.int (1 * WHEEL_ACC)]]) ∧
      (e.direction = REVERSE → i.pinB = HIGH →
        (motionMessages "/eos/wheel" (Encoder.update shiftPin e i).2).map OSCMessage.args
          = [[OSCData.int (-(-1 * WHEEL_ACC))]]) ∧
      (e.direction = REVERSE → i.pinB = LOW →
        (motionMessages "/eos/wheel" (Encoder.update shiftPin e i).2).map OSCMessage.args
          = [[OSCData.int (-(1 * WHEEL_ACC))]])) ∧
    (∀ w : Wheel, w.pinALast ≠ 0 →
      ¬ (w.buttonPin ≠ 0 ∧ w.buttonMode = ButtonMode.FINE.toNat ∧ i.buttonPin = LOW) →
      (w.direction = FORWARD → i.pinB = HIGH →
        ((Wheel.update shiftPin w i).2).map OSCMessage.args = [[OSCData.int (-1 * WHEEL_ACC)]]) ∧
      (w.direction = FORWARD → i.pinB = LOW →
        ((Wheel.update shiftPin w i).2).map OSCMessage.args = [[OSCData.int (1 * WHEEL_ACC)]]) ∧
      (w.direction = REVERSE → i.pinB = HIGH →
        ((Wheel.update shiftPin w i).2).map OSCMessage.args
          = [[OSCData.int (-(-1 * WHEEL_ACC))]]) ∧
      (w.direction = REVERSE → i.pinB = LOW →
        ((Wheel.update shiftPin w i).2).map OSCMessage.args
          = [[OSCData.int (-(1 * WHEEL_ACC))]])) := by
  have hz : toUInt8 i.pinA = 0 := by rw [hA]; rfl
  refine ⟨?_, ?_⟩
  · intro e he hfine
    have hfine2 : ¬ ((e.buttonPin ≠ 0 ∧ e.buttonMode = ButtonMode.FINE) ∧ i.buttonPin = LOW) :=
      fun h => hfine ⟨h.1.1, h.1.2, h.2⟩
    have hout : (motionMessages "/eos/wheel" (Encoder.update shiftPin e i).2).map OSCMessage.args
        = [[OSCData.int (unitMotion e.direction i.pinB * WHEEL_ACC)]] := by
      rw [encoder_update_motion, encoder_updateMotion_out, if_pos ⟨he, hz⟩,
        modifierStep_off _ _ _ _ hfine2, modifierStep_off _ _ _ _ hshift]
      simp [toInt8_unit]
    rw [hout]
    refine ⟨?_, ?_, ?_, ?_⟩ <;> intro hd hb <;> rw [hd, hb] <;> decide
  · intro w hw hfine
    have hfine2 :
        ¬ ((w.buttonPin ≠ 0 ∧ w.buttonMode = ButtonMode.FINE.toNat) ∧ i.buttonPin = LOW) :=
      fun h => hfine ⟨h.1.1, h.1.2, h.2⟩
    have hout : ((Wheel.update shiftPin w i).2).map OSCMessage.args
        = [[OSCData.int (unitMotion w.direction i.pinB * WHEEL_ACC)]] := by
      rw [wheel_update_out, if_pos ⟨hw, hz⟩,
        modifierStep_off _ _ _ _ hfine2, modifierStep_off _ _ _ _ hshift]
      simp [toInt8_unit]
    rw [hout]
    refine ⟨?_, ?_, ?_, ?_⟩ <;> intro hd hb <;> rw [hd, hb] <;> decide

/-- Witness of C5: the sample encoder (FORWARD) at a falling edge with pin B LOW and
the installed shift pin reading HIGH sends the argument `1 * WHEEL_ACC`. -/
theorem motion_sign_follows_B_and_direction_witness :
    (motionMessages "/eos/wheel" (Encoder.update 5 Sample.encoder Sample.fallingEdge).2).map
      OSCMessage.args = [[OSCData.int (1 * WHEEL_ACC)]] :=
  ((motion_sign_follows_B_and_direction 5 Sample.fallingEdge (by decide) (by decide)).1
    Sample.encoder (by decide) (by decide)).2.1 (by decide) (by decide)

/-- C6: when no shift pin is installed (`shiftPin == 0`) and the control has no
button installed (`buttonPin == 0`), then for every parameter name or index and every
reading of every pin, `Encoder::update` sends nothing or exactly one message whose
address is "/eos/wheel/" followed by the parameter name (`Wheel::update`:
"/eos/active/wheel/" followed by the decimal index), with no "/fine" segment put in
front of the parameter, and whose argument has magnitude `WHEEL_ACC`; an Encoder bound
to "Pan", FORWARD, at a falling edge of A with B LOW sends exactly one message at
"/eos/wheel/Pan" with argument `1 * WHEEL_ACC`. -/
theorem no_modifier_installed_plain_address (shiftPin : Nat) (e : Encoder) (w : Wheel)
    (i : EncoderInput) (hS : shiftPin = 0) (hE : e.buttonPin = 0) (hW : w.buttonPin = 0) :
    ((Encoder.update shiftPin e i).2 = [] ∨
      ∃ a : Int, |a| = WHEEL_ACC ∧
        (Encoder.update shiftPin e i).2 =
          [{ address := "/eos/wheel/" ++ e.param, args := [OSCData.int a] }]) ∧
    (∀ m ∈ (Encoder.update shiftPin e i).2, m.address ≠ "/eos/wheel/fine/" ++ e.param) ∧
    ((Wheel.update shiftPin w i).2 = [] ∨
      ∃ a : Int, |a| = WHEEL_ACC ∧
        (Wheel.update shiftPin w i).2 =
          [{ address := "/eos/active/wheel/" ++ decimal w.idx, args := [OSCData.int a] }]) ∧
    (∀ m ∈ (Wheel.update shiftPin w i).2,
      m.address ≠ "/eos/active/wheel/fine/" ++ decimal w.idx) ∧
    (e.param = "Pan" → e.direction = FORWARD → e.pinALast ≠ 0 → i.pinA = LOW → i.pinB = LOW →
      (Encoder.update shiftPin e i).2 =
        [{ address := "/eos/wheel/Pan", args := [OSCData.int (1 * WHEEL_ACC)] }]) := by
  have hshift : ¬ (shiftPin ≠ 0 ∧ i.shiftPin = LOW) := fun h => h.1 hS
  have hfineE : ¬ ((e.buttonPin ≠ 0 ∧ e.buttonMode = ButtonMode.FINE) ∧ i.buttonPin = LOW) :=
    fun h => h.1.1 hE
  have hfineW :
      ¬ ((w.buttonPin ≠ 0 ∧ w.buttonMode = ButtonMode.FINE.toNat) ∧ i.buttonPin = LOW) :=
    fun h => h.1.1 hW
  have hEout : (Encoder.update shiftPin e i).2 =
      if e.pinALast ≠ 0 ∧ toUInt8 i.pinA = 0 then
        [{ address := "/eos/wheel/" ++ e.param,
           args := [OSCData.int (unitMotion e.direction i.pinB * WHEEL_ACC)] }]
      else [] := by
    rw [encoder_update_no_button shiftPin e i (Or.inl hE), encoder_updateMotion_out,
      modifierStep_off _ _ _ _ hfineE, modifierStep_off _ _ _ _ hshift]
    simp only [toInt8_unit, wheel_address]
  have hWout : (Wheel.update shiftPin w i).2 =
      if w.pinALast ≠ 0 ∧ toUInt8 i.pinA = 0 then
        [{ address := "/eos/active/wheel/" ++ decimal w.idx,
           args := [OSCData.int (unitMotion w.direction i.pinB * WHEEL_ACC)] }]
      else [] := by
    rw [wheel_update_out, modifierStep_off _ _ _ _ hfineW, modifierStep_off _ _ _ _ hshift]
    simp only [toInt8_unit, active_wheel_address]
  refine ⟨?_, ?_, ?_, ?_, ?_⟩
  · rw [hEout]
    by_cases h : e.pinALast ≠ 0 ∧ toUInt8 i.pinA = 0
    · rw [if_pos h]
      exact Or.inr ⟨_, abs_unit_wheel_acc e.direction i.pinB, rfl⟩
    · rw [if_neg h]
      exact Or.inl rfl
  · intro m hm
    rw [hEout] at hm
    by_cases h : e.pinALast ≠ 0 ∧ toUInt8 i.pinA = 0
    · rw [if_pos h, List.mem_singleton] at hm
      rw [hm]
      exact wheel_address_ne_fine e.param
    · rw [if_neg h] at hm
      exact absurd hm (List.not_mem_nil m)
  · rw [hWout]
    by_cases h : w.pinALast ≠ 0 ∧ toUInt8 i.pinA = 0
    · rw [if_pos h]
      exact Or.inr ⟨_, abs_unit_wheel_acc w.direction i.pinB, rfl⟩
    · rw [if_neg h]
      exact Or.inl rfl
  · intro m hm
    rw [hWout] at hm
    by_cases h : w.pinALast ≠ 0 ∧ toUInt8 i.pinA = 0
    · rw [if_pos h, List.mem_singleton] at hm
      rw [hm]
      exact active_wheel_address_ne_fine (decimal w.idx)
    · rw [if_neg h] at hm
      exact absurd hm (List.not_mem_nil m)
  · intro hp hd he hA hB
    have hz : toUInt8 i.pinA = 0 := by rw [hA]; rfl
    rw [hEout, if_pos ⟨he, hz⟩, hp, hd, hB]
    rfl

/-- Witness of C6: the sample encoder ("Pan", FORWARD, no button) with no shift pin
installed, at a falling edge of A with B LOW. -/
theorem no_modifier_installed_plain_address_witness :
    (Encoder.update 0 Sample.encoder Sample.fallingEdge).2 =
      [{ address := "/eos/wheel/Pan", args := [OSCData.int (1 * WHEEL_ACC)] }] :=
  (no_modifier_installed_plain_address 0 Sample.encoder Sample.wheel Sample.fallingEdge
    rfl rfl rfl).2.2.2.2 rfl rfl (by decide) rfl rfl

/-- C7: on a falling edge of pin A with an installed shift pin reading LOW and no Fine
button asserted: for an intensity binding (Encoder parameter exactly "Intens" or
"intens", Wheel index exactly 1) the address is the plain one and the argument is the
unit motion times `INT_ACC * WHEEL_ACC`; for every other parameter name or index
(other spellings such as "INTENS" included) the address gains one "/fine" segment
before the parameter or index and the argument is the unit motion times `WHEEL_ACC`. -/
theorem shift_modifier_scales_intensity_or_adds_fine (shiftPin : Nat) (i : EncoderInput)
    (hS : shiftPin ≠ 0) (hL : i.shiftPin = LOW) (hA : i.pinA = LOW) :
    (∀ e : Encoder, e.pinALast ≠ 0 →
      ¬ (e.buttonPin ≠ 0 ∧ e.buttonMode = ButtonMode.FINE ∧ i.buttonPin = LOW) →
      ((e.param = "Intens" ∨ e.param = "intens") →
        motionMessages "/eos/wheel" (Encoder.update shiftPin e i).2 =
          [{ address := "/eos/wheel/" ++ e.param,
             args := [OSCData.int (unitMotion e.direction i.pinB * (INT_ACC * WHEEL_ACC))] }]) ∧
      (¬ (e.param = "Intens" ∨ e.param = "intens") →
        motionMessages "/eos/wheel" (Encoder.update shiftPin e i).2 =
          [{ address := "/eos/wheel/fine/" ++ e.param,
             args := [OSCData.int (unitMotion e.direction i.pinB * WHEEL_ACC)] }]) ∧
      (e.param = "INTENS" →
        motionMessages "/eos/wheel" (Encoder.update shiftPin e i).2 =
          [{ address := "/eos/wheel/fine/INTENS",
             args := [OSCData.int (unitMotion e.direction i.pinB * WHEEL_ACC)] }])) ∧
    (∀ w : Wheel, w.pinALast ≠ 0 →
      ¬ (w.buttonPin ≠ 0 ∧ w.buttonMode = ButtonMode.FINE.toNat ∧ i.buttonPin = LOW) →
      (w.idx = 1 →
        (Wheel.update shiftPin w i).2 =
          [{ address := "/eos/active/wheel/" ++ decimal w.idx,
             args := [OSCData.int (unitMotion w.direction i.pinB * (INT_ACC * WHEEL_ACC))] }]) ∧
      (w.idx ≠ 1 →
        (Wheel.update shiftPin w i).2 =
          [{ address := "/eos/active/wheel/fine/" ++ decimal w.idx,
             args := [OSCData.int (unitMotion w.direction i.pinB * WHEEL_ACC)] }])) := by
  have hz : toUInt8 i.pinA = 0 := by rw [hA]; rfl
  refine ⟨?_, ?_⟩
  · intro e he hfine
    have hfine2 : ¬ ((e.buttonPin ≠ 0 ∧ e.buttonMode = ButtonMode.FINE) ∧ i.buttonPin = LOW) :=
      fun h => hfine ⟨h.1.1, h.1.2, h.2⟩
    have hplain : ¬ (e.param = "Intens" ∨ e.param = "intens") →
        motionMessages "/eos/wheel" (Encoder.update shiftPin e i).2 =
          [{ address := "/eos/wheel/fine/" ++ e.param,
             args := [OSCData.int (unitMotion e.direction i.pinB * WHEEL_ACC)] }] := by
      intro hint
      rw [encoder_update_motion, encoder_updateMotion_out, if_pos ⟨he, hz⟩,
        modifierStep_off _ _ _ _ hfine2, modifierStep_fine _ _ _ _ hS hL hint]
      simp only [toInt8_unit, wheel_fine_address]
    refine ⟨?_, hplain, ?_⟩
    · intro hint
      rw [encoder_update_motion, encoder_updateMotion_out, if_pos ⟨he, hz⟩,
        modifierStep_off _ _ _ _ hfine2, modifierStep_intens _ _ _ _ hS hL hint]
      simp only [toInt8_unit_intens, wheel_address]
    · intro hp
      have hint : ¬ (e.param = "Intens" ∨ e.param = "intens") := by
        rw [hp]; decide
      have h := hplain hint
      rw [hp] at h
      exact h
  · intro w hw hfine
    have hfine2 :
        ¬ ((w.buttonPin ≠ 0 ∧ w.buttonMode = ButtonMode.FINE.toNat) ∧ i.buttonPin = LOW) :=
      fun h => hfine ⟨h.1.1, h.1.2, h.2⟩
    refine ⟨?_, ?_⟩
    · intro hint
      rw [wheel_update_out, if_pos ⟨hw, hz⟩,
        modifierStep_off _ _ _ _ hfine2, modifierStep_intens _ _ _ _ hS hL hint]
      simp only [toInt8_unit_intens, active_wheel_address]
    · intro hint
      rw [wheel_update_out, if_pos ⟨hw, hz⟩,
        modifierStep_off _ _ _ _ hfine2, modifierStep_fine _ _ _ _ hS hL hint]
      simp only [toInt8_unit, active_wheel_fine_address]

/-- Witness of C7: the sample encoder ("Pan") with the shift pin 5 reading LOW sends
its motion at "/eos/wheel/fine/Pan". -/
theorem shift_modifier_scales_intensity_or_adds_fine_witness :
    motionMessages "/eos/wheel" (Encoder.update 5 Sample.encoder Sample.fallingEdgeShift).2 =
      [{ address := "/eos/wheel/fine/" ++ Sample.encoder.param,
         args := [OSCData.int
          (unitMotion Sample.encoder.direction Sample.fallingEdgeShift.pinB * WHEEL_ACC)] }] :=
  ((shift_modifier_scales_intensity_or_adds_fine 5 Sample.fallingEdgeShift
    (by decide) rfl rfl).1 Sample.encoder (by decide) (by decide)).2.1 (by decide)

/-- C8, evaluated on the code: with an installed shift pin reading LOW and an
installed Fine button reading LOW at a falling edge of pin A, both modifier blocks
act.  A non-intensity binding gets two "/fine" segments and an intensity binding
gets `INT_ACC` applied twice, whereas either modifier alone gives one "/fine"
segment and `INT_ACC` applied once. -/
theorem both_modifiers_act_twice :
    ((Encoder.update 5 Sample.encoderFine Sample.fallingEdgeShift).2 =
        [{ address := "/eos/wheel/fine/Pan", args := [OSCData.int 1] }] ∧
      (Encoder.update 5 Sample.encoderFine Sample.fallingEdgeFine).2 =
        [{ address := "/eos/wheel/fine/Pan", args := [OSCData.int 1] }] ∧
      (Encoder.update 5 Sample.encoderFine Sample.fallingEdgeBoth).2 =
        [{ address := "/eos/wheel/fine/fine/Pan", args := [OSCData.int 1] }]) ∧
    ((Encoder.update 5 Sample.encoderIntensFine Sample.fallingEdgeShift).2 =
        [{ address := "/eos/wheel/Intens", args := [OSCData.int (INT_ACC * WHEEL_ACC)] }] ∧
      (Encoder.update 5 Sample.encoderIntensFine Sample.fallingEdgeFine).2 =
        [{ address := "/eos/wheel/Intens", args := [OSCData.int (INT_ACC * WHEEL_ACC)] }] ∧
      (Encoder.update 5 Sample.encoderIntensFine Sample.fallingEdgeBoth).2 =
        [{ address := "/eos/wheel/Intens",
           args := [OSCData.int (INT_ACC * INT_ACC * WHEEL_ACC)] }]) ∧
    ((Wheel.update 5 Sample.wheelFine Sample.fallingEdgeShift).2 =
        [{ address := "/eos/active/wheel/fine/3", args := [OSCData.int 1] }] ∧
      (Wheel.update 5 Sample.wheelFine Sample.fallingEdgeBoth).2 =
        [{ address := "/eos/active/wheel/fine/fine/3", args := [OSCData.int 1] }]) ∧
    ((Wheel.update 5 Sample.wheelIntensFine Sample.fallingEdgeShift).2 =
        [{ address := "/eos/active/wheel/1", args := [OSCData.int (INT_ACC * WHEEL_ACC)] }] ∧
      (Wheel.update 5 Sample.wheelIntensFine Sample.fallingEdgeBoth).2 =
        [{ address := "/eos/active/wheel/1",
           args := [OSCData.int (INT_ACC * INT_ACC * WHEEL_ACC)] }]) := by
  decide

/-- C9, evaluated on the code: the sample fader and submaster store the filtered
value 100 in a first filter pass (8 bit sample 104); a later pass whose 8 bit sample
is 100, which lies within `THRESHOLD` of the stored value 100, sends a value message
and replaces the stored value by 96. -/
theorem sample_inside_deadband_is_emitted :
    ((Sample.fader.update Sample.pass1).1.analogLast = 100 ∧
      Sample.pass2.analogRead >>> 2 = 100 ∧
      (((Sample.fader.update Sample.pass1).1.update Sample.pass2).2).map OSCMessage.address
        = ["/eos/fader/1/2"] ∧
      ((Sample.fader.update Sample.pass1).1.update Sample.pass2).1.analogLast = 96) ∧
    ((Sample.submaster.update Sample.pass1).1.analogLast = 100 ∧
      (((Sample.submaster.update Sample.pass1).1.update Sample.pass2).2).map OSCMessage.address
        = ["/eos/sub/5"] ∧
      ((Sample.submaster.update Sample.pass1).1.update Sample.pass2).1.analogLast = 96) := by
  decide



/-- C11: a freshly constructed Fader or Submaster (stored value: the sentinel
`0xFFFF` held in an `int16_t`) emits no value message during the calls in which the
interval test fails, and exactly one value message in the first call in which the
interval test passes, for every analog reading (any reading of up to 16 bits): the
filtered value never equals the sentinel. -/
theorem fresh_fader_first_pass_emits_once
    (analogPin firePin stopPin fader bank fireLevel stopLevel sub now : Nat)
    (pre : List FaderInput) (x : FaderInput)
    (hpre : ∀ i ∈ pre,
      ¬ toUInt32 (toUInt32 now + FADER_UPDATE_RATE_MS) < toUInt32 i.millisTest)
    (hx : toUInt32 (toUInt32 now + FADER_UPDATE_RATE_MS) < toUInt32 x.millisTest)
    (hr : x.analogRead ≤ 65535) :
    (sentAt (Fader.construct analogPin firePin stopPin fader bank fireLevel stopLevel now).faderPattern
        ((Fader.construct analogPin firePin stopPin fader bank fireLevel stopLevel now).run pre).2
        = [] ∧
      (sentAt (Fader.construct analogPin firePin stopPin fader bank fireLevel stopLevel now).faderPattern
        ((Fader.construct analogPin firePin stopPin fader bank fireLevel stopLevel now).run
          (pre ++ [x])).2).length = 1) ∧
    (sentAt (Submaster.construct analogPin firePin sub fireLevel now).subPattern
        ((Submaster.construct analogPin firePin sub fireLevel now).run pre).2 = [] ∧
      (sentAt (Submaster.construct analogPin firePin sub fireLevel now).subPattern
        ((Submaster.construct analogPin firePin sub fireLevel now).run (pre ++ [x])).2).length
        = 1) ∧
    (∀ a : Nat, a ≤ 65535 → filtered a ≠ toInt16 0xFFFF) := by
  refine ⟨?_, ?_, fun a ha => filtered_ne_sentinel a ha⟩
  · obtain ⟨r1, r2, r3, r4⟩ :=
      fader_run_idle (Fader.construct analogPin firePin stopPin fader bank fireLevel stopLevel now)
        pre hpre
    refine ⟨r1, ?_⟩
    rw [fader_run_append, sentAt_append, r1, List.nil_append]
    have h1 := fader_first_pass
      ((Fader.construct analogPin firePin stopPin fader bank fireLevel stopLevel now).run pre).1 x
      (by rw [r2]; rfl) (by rw [r3]; exact hx) hr
    rw [r4] at h1
    simpa [Fader.run] using h1
  · obtain ⟨r1, r2, r3, r4⟩ :=
      submaster_run_idle (Submaster.construct analogPin firePin sub fireLevel now) pre hpre
    refine ⟨r1, ?_⟩
    rw [submaster_run_append, sentAt_append, r1, List.nil_append]
    have h1 := submaster_first_pass
      ((Submaster.construct analogPin firePin sub fireLevel now).run pre).1 x
      (by rw [r2]; rfl) (by rw [r3]; exact hx) hr
    rw [r4] at h1
    simpa [Submaster.run] using h1

/-- Witness of C11: the sample fader, built at time 0, polled at times 5 and 10 (too
early) and then at time 41. -/
theorem fresh_fader_first_pass_emits_once_witness :
    (sentAt (Fader.construct 14 3 4 2 1 1 1 0).faderPattern
      ((Fader.construct 14 3 4 2 1 1 1 0).run
        ([Sample.released, Sample.pressed] ++ [Sample.pass1])).2).length = 1 :=
  (fresh_fader_first_pass_emits_once 14 3 4 2 1 1 1 5 0 [Sample.released, Sample.pressed]
    Sample.pass1 (by decide) (by decide) (by decide)).1.2

/-- Counterexample to C12: when `now` equals the stored timestamp plus
`FADER_UPDATE_RATE_MS` the filter pass is skipped: the freshly built sample fader and
submaster (timestamp 0, sentinel stored) polled at time 40 send no value message and
keep their timestamp, although a filter pass there would send one. -/
theorem filter_pass_skipped_at_exact_interval :
    (Sample.atForty.millisTest = Sample.fader.updateTime + FADER_UPDATE_RATE_MS ∧
      Sample.fader.updateAnalog Sample.atForty = (Sample.fader, []) ∧
      (Sample.fader.filterPass Sample.atForty).2.length = 1 ∧
      sentAt Sample.fader.faderPattern (Sample.fader.update Sample.atForty).2 = [] ∧
      (Sample.fader.update Sample.atForty).1.updateTime = 0) ∧
    (Sample.atForty.millisTest = Sample.submaster.updateTime + FADER_UPDATE_RATE_MS ∧
      Sample.submaster.updateAnalog Sample.atForty = (Sample.submaster, []) ∧
      (Sample.submaster.filterPass Sample.atForty).2.length = 1 ∧
      sentAt Sample.submaster.subPattern (Sample.submaster.update Sample.atForty).2 = [] ∧
      (Sample.submaster.update Sample.atForty).1.updateTime = 0) := by
  decide

/-- C12, amended: `Fader::update` and `Submaster::update` run the analog filter pass
exactly when `now > lastSampleTimestamp + FADER_UPDATE_RATE_MS` (the sum not
overflowing 32 bits) and skip it otherwise; the pass is skipped when `now` equals
`lastSampleTimestamp + 40` and runs when `now` equals `lastSampleTimestamp + 41`. -/
theorem filter_pass_runs_after_interval (f : Fader) (s : Submaster) (i : FaderInput)
    (hf : f.updateTime + FADER_UPDATE_RATE_MS < 2 ^ 32)
    (hs : s.updateTime + FADER_UPDATE_RATE_MS < 2 ^ 32)
    (hn : i.millisTest < 2 ^ 32) :
    ((f.updateTime + FADER_UPDATE_RATE_MS < i.millisTest →
        f.updateAnalog i = f.filterPass i ∧
        analogOutcome f.faderPattern (f.update i).2 (f.update i).1.analogLast
          (f.update i).1.updateTime =
          ((f.filterPass i).2, (f.filterPass i).1.analogLast, (f.filterPass i).1.updateTime)) ∧
      (¬ f.updateTime + FADER_UPDATE_RATE_MS < i.millisTest →
        f.updateAnalog i = (f, []) ∧
        analogOutcome f.faderPattern (f.update i).2 (f.update i).1.analogLast
          (f.update i).1.updateTime = ([], f.analogLast, f.updateTime)) ∧
      (i.millisTest = f.updateTime + 40 → f.updateAnalog i = (f, [])) ∧
      (i.millisTest = f.updateTime + 41 → f.updateAnalog i = f.filterPass i)) ∧
    ((s.updateTime + FADER_UPDATE_RATE_MS < i.millisTest →
        s.updateAnalog i = s.filterPass i ∧
        analogOutcome s.subPattern (s.update i).2 (s.update i).1.analogLast
          (s.update i).1.updateTime =
          ((s.filterPass i).2, (s.filterPass i).1.analogLast, (s.filterPass i).1.updateTime)) ∧
      (¬ s.updateTime + FADER_UPDATE_RATE_MS < i.millisTest →
        s.updateAnalog i = (s, []) ∧
        analogOutcome s.subPattern (s.update i).2 (s.update i).1.analogLast
          (s.update i).1.updateTime = ([], s.analogLast, s.updateTime)) ∧
      (i.millisTest = s.updateTime + 40 → s.updateAnalog i = (s, [])) ∧
      (i.millisTest = s.updateTime + 41 → s.updateAnalog i = s.filterPass i)) := by
  have hF := toUInt32_of_lt _ hf
  have hS := toUInt32_of_lt _ hs
  have hN := toUInt32_of_lt _ hn
  have h40 : FADER_UPDATE_RATE_MS = 40 := rfl
  refine ⟨?_, ?_⟩
  · have hpass : f.updateTime + FADER_UPDATE_RATE_MS < i.millisTest →
        f.updateAnalog i = f.filterPass i := by
      intro h
      rw [fader_updateAnalog_pass, hF, hN, if_pos h]
    have hskip : ¬ f.updateTime + FADER_UPDATE_RATE_MS < i.millisTest →
        f.updateAnalog i = (f, []) := by
      intro h
      rw [fader_updateAnalog_pass, hF, hN, if_neg h]
    refine ⟨?_, ?_, ?_, ?_⟩
    · intro h
      refine ⟨hpass h, ?_⟩
      rw [fader_update_outcome, hF, hN, if_pos h]
    · intro h
      refine ⟨hskip h, ?_⟩
      rw [fader_update_outcome, hF, hN, if_neg h]
    · intro h
      exact hskip (by rw [h, h40]; omega)
    · intro h
      exact hpass (by rw [h, h40]; omega)
  · have hpass : s.updateTime + FADER_UPDATE_RATE_MS < i.millisTest →
        s.updateAnalog i = s.filterPass i := by
      intro h
      rw [submaster_updateAnalog_pass, hS, hN, if_pos h]
    have hskip : ¬ s.updateTime + FADER_UPDATE_RATE_MS < i.millisTest →
        s.updateAnalog i = (s, []) := by
      intro h
      rw [submaster_updateAnalog_pass, hS, hN, if_neg h]
    refine ⟨?_, ?_, ?_, ?_⟩
    · intro h
      refine ⟨hpass h, ?_⟩
      rw [submaster_update_outcome, hS, hN, if_pos h]
    · intro h
      refine ⟨hskip h, ?_⟩
      rw [submaster_update_outcome, hS, hN, if_neg h]
    · intro h
      exact hskip (by rw [h, h40]; omega)
    · intro h
      exact hpass (by rw [h, h40]; omega)

/-- Witness of C12, amended: the sample fader, built at time 0, runs its filter pass
when polled at time 41. -/
theorem filter_pass_runs_after_interval_witness :
    Sample.fader.updateAnalog Sample.pass1 = Sample.fader.filterPass Sample.pass1 :=
  ((filter_pass_runs_after_interval Sample.fader Sample.submaster Sample.pass1
    (by decide) (by decide) (by decide)).1.1 (by decide)).1

/-- C13, evaluated on the code: a fader and a submaster built at clock value
4294967286 (ten milliseconds before the 32 bit clock wraps) and polled five
milliseconds later sample the input and send a value message, although only five
milliseconds have elapsed: the sum `updateTime + FADER_UPDATE_RATE_MS` wraps to 30. -/
theorem rate_limit_broken_before_clock_wrap :
    ((Sample.fiveLater.millisTest + 2 ^ 32 - Sample.lateFader.updateTime) % 2 ^ 32 = 5 ∧
      toUInt32 (Sample.lateFader.updateTime + FADER_UPDATE_RATE_MS) = 30 ∧
      (sentAt Sample.lateFader.faderPattern
        (Sample.lateFader.update Sample.fiveLater).2).length = 1 ∧
      (Sample.lateFader.update Sample.fiveLater).1.analogLast = 100 ∧
      (Sample.lateFader.update Sample.fiveLater).1.updateTime = 4294967291) ∧
    ((Sample.fiveLater.millisTest + 2 ^ 32 - Sample.lateSubmaster.updateTime) % 2 ^ 32 = 5 ∧
      (sentAt Sample.lateSubmaster.subPattern
        (Sample.lateSubmaster.update Sample.fiveLater).2).length = 1 ∧
      (Sample.lateSubmaster.update Sample.fiveLater).1.analogLast = 100 ∧
      (Sample.lateSubmaster.update Sample.fiveLater).1.updateTime = 4294967291) := by
  decide

/-- C19: the analog state frame of `Fader::update` and `Submaster::update`.  When
the interval test fails, the stored filtered value and the stored timestamp are
unchanged and no value message is sent.  When it passes, the stored timestamp
becomes the clock value read after the pass whether or not a message was sent, at
most one value message is sent, the stored filtered value changes if and only if a
value message is sent, and that message carries the value computed from the new
stored value. -/
theorem analog_state_frame (f : Fader) (s : Submaster) (i : FaderInput) :
    ((¬ toUInt32 (f.updateTime + FADER_UPDATE_RATE_MS) < toUInt32 i.millisTest →
        sentAt f.faderPattern (f.update i).2 = [] ∧
        (f.update i).1.analogLast = f.analogLast ∧
        (f.update i).1.updateTime = f.updateTime) ∧
      (toUInt32 (f.updateTime + FADER_UPDATE_RATE_MS) < toUInt32 i.millisTest →
        (f.update i).1.updateTime = toUInt32 i.millisStore ∧
        (i.millisStore < 2 ^ 32 → (f.update i).1.updateTime = i.millisStore) ∧
        ((f.update i).1.analogLast ≠ f.analogLast ↔
          sentAt f.faderPattern (f.update i).2 ≠ []) ∧
        (sentAt f.faderPattern (f.update i).2).length ≤ 1 ∧
        (∀ m ∈ sentAt f.faderPattern (f.update i).2,
          m.args = [OSCData.float (faderValue (f.update i).1.analogLast)]))) ∧
    ((¬ toUInt32 (s.updateTime + FADER_UPDATE_RATE_MS) < toUInt32 i.millisTest →
        sentAt s.subPattern (s.update i).2 = [] ∧
        (s.update i).1.analogLast = s.analogLast ∧
        (s.update i).1.updateTime = s.updateTime) ∧
      (toUInt32 (s.updateTime + FADER_UPDATE_RATE_MS) < toUInt32 i.millisTest →
        (s.update i).1.updateTime = toUInt32 i.millisStore ∧
        (i.millisStore < 2 ^ 32 → (s.update i).1.updateTime = i.millisStore) ∧
        ((s.update i).1.analogLast ≠ s.analogLast ↔
          sentAt s.subPattern (s.update i).2 ≠ []) ∧
        (sentAt s.subPattern (s.update i).2).length ≤ 1 ∧
        (∀ m ∈ sentAt s.subPattern (s.update i).2,
          m.args = [OSCData.float (faderValue (s.update i).1.analogLast)]))) := by
  refine ⟨⟨?_, ?_⟩, ⟨?_, ?_⟩⟩
  · intro h
    have ho := fader_update_outcome f i
    rw [if_neg h] at ho
    simpa only [analogOutcome, Prod.mk.injEq] using ho
  · intro h
    have ho := fader_update_outcome f i
    rw [if_pos h] at ho
    simp only [analogOutcome, Prod.mk.injEq] at ho
    obtain ⟨o1, o2, o3⟩ := ho
    obtain ⟨p1, -, p3, p4, p5⟩ := fader_filterPass_facts f i
    rw [o1, o2, o3]
    exact ⟨p1, fun hlt => by rw [p1, toUInt32_of_lt _ hlt], p3, p4, fun m hm => (p5 m hm).2⟩
  · intro h
    have ho := submaster_update_outcome s i
    rw [if_neg h] at ho
    simpa only [analogOutcome, Prod.mk.injEq] using ho
  · intro h
    have ho := submaster_update_outcome s i
    rw [if_pos h] at ho
    simp only [analogOutcome, Prod.mk.injEq] at ho
    obtain ⟨o1, o2, o3⟩ := ho
    obtain ⟨p1, -, p3, p4, p5⟩ := submaster_filterPass_facts s i
    rw [o1, o2, o3]
    exact ⟨p1, fun hlt => by rw [p1, toUInt32_of_lt _ hlt], p3, p4, fun m hm => (p5 m hm).2⟩

/-- Witness of C19: the sample fader, built at time 0 and polled at time 41, stores
the timestamp 41; polled at time 10 it keeps the timestamp 0. -/
theorem analog_state_frame_witness :
    (Sample.fader.update Sample.pass1).1.updateTime = Sample.pass1.millisStore ∧
      (Sample.fader.update Sample.pressed).1.updateTime = Sample.fader.updateTime :=
  ⟨((analog_state_frame Sample.fader Sample.submaster Sample.pass1).1.2 (by decide)).2.1
      (by decide),
    ((analog_state_frame Sample.fader Sample.submaster Sample.pressed).1.1 (by decide)).2.2⟩

/-- C20: a pin value of zero disables the button.  A Fader constructed with
`firePin == 0` (respectively `stopPin == 0`) never emits a message at its "/fire"
(respectively "/stop") address and a Submaster constructed with `firePin == 0` never
emits one at its "/fire" address, for every sequence of pin readings and clock
values.  With a non-zero pin the button is polled in every call of `update()`: it
obeys the edge contract whatever the clock reads, and in a call in which the interval
test fails a changed level still sends its message. -/
theorem zero_pin_disables_button (analogPin firePin stopPin fader bank sub : Nat)
    (fireLevel stopLevel now : Nat) (inputs : List FaderInput)
    (f : Fader) (s : Submaster) (i : FaderInput) :
    (sentAt ((Fader.construct analogPin 0 stopPin fader bank fireLevel stopLevel now).faderPattern
        ++ "/fire")
        ((Fader.construct analogPin 0 stopPin fader bank fireLevel stopLevel now).run inputs).2
        = [] ∧
      sentAt ((Fader.construct analogPin firePin 0 fader bank fireLevel stopLevel now).faderPattern
        ++ "/stop")
        ((Fader.construct analogPin firePin 0 fader bank fireLevel stopLevel now).run inputs).2
        = [] ∧
      sentAt ((Submaster.construct analogPin 0 sub fireLevel now).subPattern ++ "/fire")
        ((Submaster.construct analogPin 0 sub fireLevel now).run inputs).2 = []) ∧
    ((f.firePin = 0 → sentAt (f.faderPattern ++ "/fire") (f.run inputs).2 = []) ∧
      (f.stopPin = 0 → sentAt (f.faderPattern ++ "/stop") (f.run inputs).2 = []) ∧
      (s.firePin = 0 → sentAt (s.subPattern ++ "/fire") (s.run inputs).2 = [])) ∧
    ((f.firePin ≠ 0 →
        EdgeContract (f.faderPattern ++ "/fire") f.fireLast i.firePin (f.update i).1.fireLast
          (sentAt (f.faderPattern ++ "/fire") (f.update i).2) ∧
        (¬ toUInt32 (f.updateTime + FADER_UPDATE_RATE_MS) < toUInt32 i.millisTest →
          i.firePin ≠ f.fireLast →
          (sentAt (f.faderPattern ++ "/fire") (f.update i).2).length = 1)) ∧
      (f.stopPin ≠ 0 →
        EdgeContract (f.faderPattern ++ "/stop") f.stopLast i.stopPin (f.update i).1.stopLast
          (sentAt (f.faderPattern ++ "/stop") (f.update i).2) ∧
        (¬ toUInt32 (f.updateTime + FADER_UPDATE_RATE_MS) < toUInt32 i.millisTest →
          i.stopPin ≠ f.stopLast →
          (sentAt (f.faderPattern ++ "/stop") (f.update i).2).length = 1)) ∧
      (s.firePin ≠ 0 →
        EdgeContract (s.subPattern ++ "/fire") s.fireLast i.firePin (s.update i).1.fireLast
          (sentAt (s.subPattern ++ "/fire") (s.update i).2) ∧
        (¬ toUInt32 (s.updateTime + FADER_UPDATE_RATE_MS) < toUInt32 i.millisTest →
          i.firePin ≠ s.fireLast →
          (sentAt (s.subPattern ++ "/fire") (s.update i).2).length = 1))) := by
  have hlen : ∀ (addr : String) (last sample : Nat), sample ≠ last →
      (EdgeSpec.msgs addr last sample).length = 1 := by
    intro addr last sample h
    unfold EdgeSpec.msgs
    rw [if_neg h]
    rfl
  refine ⟨⟨?_, ?_, ?_⟩, ⟨?_, ?_, ?_⟩, ⟨?_, ?_, ?_⟩⟩
  · exact fader_run_no_fire _ inputs rfl
  · exact fader_run_no_stop _ inputs rfl
  · exact submaster_run_no_fire _ inputs rfl
  · exact fun hp => fader_run_no_fire f inputs hp
  · exact fun hp => fader_run_no_stop f inputs hp
  · exact fun hp => submaster_run_no_fire s inputs hp
  · intro hp
    obtain ⟨h1, h2⟩ := fader_update_fire f i hp
    rw [h1, h2]
    exact ⟨edgeSpec_contract _ _ _, fun _ hne => hlen _ _ _ hne⟩
  · intro hp
    obtain ⟨h1, h2⟩ := fader_update_stop f i hp
    rw [h1, h2]
    exact ⟨edgeSpec_contract _ _ _, fun _ hne => hlen _ _ _ hne⟩
  · intro hp
    obtain ⟨-, -, h1, h2⟩ := submaster_update_fire s i hp
    rw [h1, h2]
    exact ⟨edgeSpec_contract _ _ _, fun _ hne => hlen _ _ _ hne⟩

/-- Witness of C20: the sample fader (fire pin 3) polled at time 10, before its
interval has elapsed, with the fire button pressed sends its fire message; the
sample fader without buttons sends none over three calls. -/
theorem zero_pin_disables_button_witness :
    (sentAt (Sample.fader.faderPattern ++ "/fire")
        (Sample.fader.update Sample.fireEarly).2).length = 1 ∧
      sentAt (Sample.bareFader.faderPattern ++ "/fire")
        (Sample.bareFader.run [Sample.fireEarly, Sample.pass1, Sample.pressed]).2 = [] :=
  ⟨((zero_pin_disables_button 14 3 4 2 1 5 1 1 0 [Sample.fireEarly, Sample.pass1, Sample.pressed]
      Sample.fader Sample.submaster Sample.fireEarly).2.2.1 (by decide)).2
      (by decide) (by decide),
    (zero_pin_disables_button 14 3 4 2 1 5 1 1 0 [Sample.fireEarly, Sample.pass1, Sample.pressed]
      Sample.bareFader Sample.submaster Sample.fireEarly).2.1.1 (by decide)⟩

/-- Counterexample to C14: the sample OscButton, constructed released (HIGH), sends
its message in the call that observes the press (HIGH to LOW) and sends nothing in
the call that observes the following release (LOW to HIGH). -/
theorem oscButton_sends_on_press_not_on_release :
    Sample.oscButton.last = HIGH ∧
      (Sample.oscButton.update LOW).2.length = 1 ∧
      ((Sample.oscButton.update LOW).1.update HIGH).2 = [] ∧
      ¬ ((Sample.oscButton.update LOW).2 = [] ∧
          ((Sample.oscButton.update LOW).1.update HIGH).2.length = 1) := by
  decide

/-- C14, amended: an OscButton emits on press only.  For an OscButton whose stored
level is HIGH (constructed released, the pin being pulled up), the call of
`update()` that observes the press (HIGH to LOW) emits exactly one message, any
number of further calls that see the button still held emit nothing, and the call
that observes the following release (LOW to HIGH) emits nothing. -/
theorem oscButton_sends_on_press_only (b : OscButton) (n : Nat) (hb : b.last = HIGH) :
    (b.update LOW).2 =
        [{ msg := { address := b.pattern, args := b.payload }, ip := b.ip, port := b.port }] ∧
      (b.update LOW).1.run (List.replicate n LOW) = ((b.update LOW).1, []) ∧
      ((b.update LOW).1.update HIGH).2 = [] ∧
      ((b.update LOW).1.update HIGH).1.last = HIGH ∧
      (b.run (LOW :: (List.replicate n LOW ++ [HIGH]))).2 =
        [{ msg := { address := b.pattern, args := b.payload }, ip := b.ip, port := b.port }] := by
  have hpress : b.update LOW =
      ({ b with last := LOW },
        [{ msg := { address := b.pattern, args := b.payload }, ip := b.ip, port := b.port }]) := by
    rw [oscButton_update_eq, hb]
    simp [LOW, HIGH]
  have hheld : (b.update LOW).1.run (List.replicate n LOW) = ((b.update LOW).1, []) := by
    apply oscButton_run_steady
    intro s hs
    rw [hpress]
    exact List.eq_of_mem_replicate hs
  have hrel : (b.update LOW).1.update HIGH = ({ (b.update LOW).1 with last := HIGH }, []) := by
    rw [oscButton_update_eq, hpress]
    simp [LOW, HIGH]
  refine ⟨by rw [hpress], hheld, by rw [hrel], by rw [hrel], ?_⟩
  simp only [OscButton.run]
  rw [oscButton_run_append, hheld]
  simp only [OscButton.run, hrel, List.append_nil, List.nil_append]
  rw [hpress]

/-- Witness of C14, amended: the sample OscButton pressed, held for three calls and
released sends exactly its one message. -/
theorem oscButton_sends_on_press_only_witness :
    (Sample.oscButton.run (LOW :: (List.replicate 3 LOW ++ [HIGH]))).2 =
      [{ msg := { address := Sample.oscButton.pattern, args := Sample.oscButton.payload },
         ip := Sample.oscButton.ip, port := Sample.oscButton.port }] :=
  (oscButton_sends_on_press_only Sample.oscButton 3 (by decide)).2.2.2.2

/-- C15: every message emitted by an OscButton, over any sequence of updates, has
the address given as `pattern` at construction and carries exactly the payload
selected by the constructor used: no argument, one integer equal to the
constructor's integer, one float equal to the constructor's float, or one string
equal to the constructor's message; `update()` never changes the payload kind, the
payload value or the address. -/
theorem oscButton_payload_fixed_at_construction (mem b : OscButton) (pin level : Nat)
    (pattern message : String) (integer32 : Int) (float32 : ℚ) (ip : IPAddress) (port : Nat)
    (sample : Nat) (xs : List Nat) :
    ((∀ c ∈ ((OscButton.constructNone mem pin pattern level).run xs).2,
        c.msg = { address := pattern, args := [] }) ∧
      (∀ c ∈ ((OscButton.constructNoneTo mem pin pattern ip port level).run xs).2,
        c.msg = { address := pattern, args := [] }) ∧
      (∀ c ∈ ((OscButton.constructInt mem pin pattern integer32 level).run xs).2,
        c.msg = { address := pattern, args := [OSCData.int integer32] }) ∧
      (∀ c ∈ ((OscButton.constructIntTo mem pin pattern integer32 ip port level).run xs).2,
        c.msg = { address := pattern, args := [OSCData.int integer32] }) ∧
      (∀ c ∈ ((OscButton.constructFloat mem pin pattern float32 level).run xs).2,
        c.msg = { address := pattern, args := [OSCData.float float32] }) ∧
      (∀ c ∈ ((OscButton.constructFloatTo mem pin pattern float32 ip port level).run xs).2,
        c.msg = { address := pattern, args := [OSCData.float float32] }) ∧
      (∀ c ∈ ((OscButton.constructString mem pin pattern message level).run xs).2,
        c.msg = { address := pattern, args := [OSCData.str message] }) ∧
      (∀ c ∈ ((OscButton.constructStringTo mem pin pattern message ip port level).run xs).2,
        c.msg = { address := pattern, args := [OSCData.str message] })) ∧
    ((b.update sample).1.typ = b.typ ∧
      (b.update sample).1.pattern = b.pattern ∧
      (b.update sample).1.integer32 = b.integer32 ∧
      (b.update sample).1.float32 = b.float32 ∧
      (b.update sample).1.message = b.message) := by
  refine ⟨⟨?_, ?_, ?_, ?_, ?_, ?_, ?_, ?_⟩, ?_⟩
  · intro c hc
    rw [oscButton_run_calls _ xs c hc]; rfl
  · intro c hc
    rw [oscButton_run_calls _ xs c hc]; rfl
  · intro c hc
    rw [oscButton_run_calls _ xs c hc]; rfl
  · intro c hc
    rw [oscButton_run_calls _ xs c hc]; rfl
  · intro c hc
    rw [oscButton_run_calls _ xs c hc]; rfl
  · intro c hc
    rw [oscButton_run_calls _ xs c hc]; rfl
  · intro c hc
    rw [oscButton_run_calls _ xs c hc]; rfl
  · intro c hc
    rw [oscButton_run_calls _ xs c hc]; rfl
  · obtain ⟨f1, f2, f3, f4, f5, -, -, -, -⟩ := oscButton_update_frame b sample
    exact ⟨f1, f2, f3, f4, f5⟩

/-- C16, evaluated on the code: in UDP mode the sample OscButton built with a
destination sends its packet there, but the one built without a destination sends
its packet to 0.0.0.0 and the port found in its storage, not to the default
destination of the gateway (10.0.0.5, port 8000) that `EOS::sendOSC(msg)` uses; in
serial mode one frame is written either way. -/
theorem oscButton_without_destination_misses_default :
    (EOS.transmit Sample.gateway (Sample.oscButtonTo.update LOW).2 =
        [Transmission.udpPacket { a := 192, b := 168, c := 1, d := 9 } 9000 Sample.oscMessage] ∧
      EOS.transmit Sample.gateway (Sample.oscButton.update LOW).2 =
        [Transmission.udpPacket IPAddress.zero 0 Sample.oscMessage] ∧
      EOS.sendOSC Sample.gateway Sample.oscMessage =
        [Transmission.udpPacket { a := 10, b := 0, c := 0, d := 5 } 8000 Sample.oscMessage]) ∧
    (EOS.transmit Sample.serialGateway (Sample.oscButtonTo.update LOW).2 =
        [Transmission.slipFrame Sample.oscMessage] ∧
      EOS.transmit Sample.serialGateway (Sample.oscButton.update LOW).2 =
        [Transmission.slipFrame Sample.oscMessage]) := by
  decide

/-- What the accessors guarantee on every input.  After `Encoder::parameter(p)` the
getter returns `p`; over every later sequence of updates each motion message has `p`
as its last segment, behind "/eos/wheel" and one "/fine" segment for each modifier
block that acted, so that a third form with two "/fine" segments remains possible;
in a call in which the two modifiers are not both asserted the address is exactly
"/eos/wheel/p" or "/eos/wheel/fine/p"; each Home-button message is addressed
"/eos/param/p/home".  After `Wheel::index(i)` the getter returns `i` and each later
message ends with the decimal form of `i`.  Neither setter changes the pin state,
the direction or the button configuration. -/
theorem address_follows_accessor (shiftPin : Nat) (e : Encoder) (w : Wheel) (p : String)
    (idx : Nat) (inputs : List EncoderInput) (i : EncoderInput) :
    ((e.setParameter p).parameter = p ∧
      (Encoder.run shiftPin (e.setParameter p) inputs).1.parameter = p ∧
      (∀ m ∈ motionMessages "/eos/wheel" (Encoder.run shiftPin (e.setParameter p) inputs).2,
        m.address = "/eos/wheel/" ++ p ∨ m.address = "/eos/wheel/fine/" ++ p ∨
          m.address = "/eos/wheel/fine/fine/" ++ p) ∧
      (¬ ((shiftPin ≠ 0 ∧ i.shiftPin = LOW) ∧
          ((e.buttonPin ≠ 0 ∧ e.buttonMode = ButtonMode.FINE) ∧ i.buttonPin = LOW)) →
        ∀ m ∈ motionMessages "/eos/wheel" (Encoder.update shiftPin (e.setParameter p) i).2,
          m.address = "/eos/wheel/" ++ p ∨ m.address = "/eos/wheel/fine/" ++ p) ∧
      (∀ m ∈ (Encoder.run shiftPin (e.setParameter p) inputs).2,
        m ∉ motionMessages "/eos/wheel" (Encoder.run shiftPin (e.setParameter p) inputs).2 →
          m.address = "/eos/param/" ++ p ++ "/home") ∧
      ((e.setParameter p).pinA = e.pinA ∧ (e.setParameter p).pinB = e.pinB ∧
        (e.setParameter p).pinALast = e.pinALast ∧
        (e.setParameter p).pinACurrent = e.pinACurrent ∧
        (e.setParameter p).direction = e.direction ∧
        (e.setParameter p).buttonPin = e.buttonPin ∧
        (e.setParameter p).buttonMode = e.buttonMode ∧
        (e.setParameter p).buttonPinLast = e.buttonPinLast ∧
        (e.setParameter p).encoderMotion = e.encoderMotion)) ∧
    ((w.setIndex idx).index = idx ∧
      (Wheel.run shiftPin (w.setIndex idx) inputs).1.index = idx ∧
      (∀ m ∈ (Wheel.run shiftPin (w.setIndex idx) inputs).2,
        m.address = "/eos/active/wheel/" ++ decimal idx ∨
          m.address = "/eos/active/wheel/fine/" ++ decimal idx ∨
          m.address = "/eos/active/wheel/fine/fine/" ++ decimal idx) ∧
      ((w.setIndex idx).pinA = w.pinA ∧ (w.setIndex idx).pinB = w.pinB ∧
        (w.setIndex idx).pinALast = w.pinALast ∧
        (w.setIndex idx).pinACurrent = w.pinACurrent ∧
        (w.setIndex idx).direction = w.direction ∧
        (w.setIndex idx).buttonPin = w.buttonPin ∧
        (w.setIndex idx).buttonMode = w.buttonMode ∧
        (w.setIndex idx).buttonPinLast = w.buttonPinLast ∧
        (w.setIndex idx).encoderMotion = w.encoderMotion)) := by
  obtain ⟨e1, e2, e3⟩ := encoder_run_facts shiftPin (e.setParameter p) inputs
  obtain ⟨w1, w2⟩ := wheel_run_facts shiftPin (w.setIndex idx) inputs
  refine ⟨⟨rfl, e1, e2, ?_, e3, ⟨rfl, rfl, rfl, rfl, rfl, rfl, rfl, rfl, rfl⟩⟩,
    ⟨rfl, w1, w2, ⟨rfl, rfl, rfl, rfl, rfl, rfl, rfl, rfl, rfl⟩⟩⟩
  intro h m hm
  rw [encoder_update_motion] at hm
  exact encoder_updateMotion_addresses_not_both shiftPin (e.setParameter p) i h m hm

/-- The sample encoder rebound to "Tilt" sends the motion of a falling edge with the
shift pin reading LOW in `Sample.tiltMessage`, whose address is
"/eos/wheel/fine/Tilt". -/
theorem address_follows_accessor_witness :
    Sample.tiltMessage ∈ motionMessages "/eos/wheel"
        (Encoder.update 5 (Sample.encoder.setParameter "Tilt") Sample.fallingEdgeShift).2 ∧
      (Sample.tiltMessage.address = "/eos/wheel/" ++ "Tilt" ∨
        Sample.tiltMessage.address = "/eos/wheel/fine/" ++ "Tilt") :=
  ⟨by decide,
    (address_follows_accessor 5 Sample.encoder Sample.wheel "Tilt" 3 []
      Sample.fallingEdgeShift).1.2.2.2.1 (by decide) Sample.tiltMessage (by decide)⟩

/-- C17, evaluated on the code: the sample encoder with a Fine button on pin 4 is
rebound by `parameter("Tilt")`; the getter returns "Tilt" and the setter leaves the
pins, the direction and the button as they were.  At a falling edge of pin A with
the shift pin reading LOW and the Fine button released the motion message is
addressed "/eos/wheel/fine/Tilt"; with the shift pin and the Fine button both
reading LOW it is addressed "/eos/wheel/fine/fine/Tilt", which is neither
"/eos/wheel/Tilt" nor "/eos/wheel/fine/Tilt". -/
theorem rebound_encoder_address_with_both_modifiers :
    (Sample.encoderFine.setParameter "Tilt").parameter = "Tilt" ∧
      ((Sample.encoderFine.setParameter "Tilt").pinALast = Sample.encoderFine.pinALast ∧
        (Sample.encoderFine.setParameter "Tilt").direction = Sample.encoderFine.direction ∧
        (Sample.encoderFine.setParameter "Tilt").buttonPin = 4 ∧
        (Sample.encoderFine.setParameter "Tilt").buttonMode = ButtonMode.FINE) ∧
      motionMessages "/eos/wheel"
          (Encoder.update 5 (Sample.encoderFine.setParameter "Tilt")
            Sample.fallingEdgeShift).2 =
        [{ address := "/eos/wheel/fine/Tilt", args := [OSCData.int 1] }] ∧
      (Sample.fallingEdgeBoth.pinA = LOW ∧ Sample.fallingEdgeBoth.shiftPin = LOW ∧
        Sample.fallingEdgeBoth.buttonPin = LOW) ∧
      motionMessages "/eos/wheel"
          (Encoder.update 5 (Sample.encoderFine.setParameter "Tilt")
            Sample.fallingEdgeBoth).2 =
        [{ address := "/eos/wheel/fine/fine/Tilt", args := [OSCData.int 1] }] ∧
      (Encoder.update 5 (Sample.encoderFine.setParameter "Tilt")
          Sample.fallingEdgeBoth).1.parameter = "Tilt" ∧
      ¬ (∀ m ∈ motionMessages "/eos/wheel"
            (Encoder.update 5 (Sample.encoderFine.setParameter "Tilt")
              Sample.fallingEdgeBoth).2,
          m.address = "/eos/wheel/" ++ "Tilt" ∨ m.address = "/eos/wheel/fine/" ++ "Tilt") := by
  decide

/-- C18, evaluated on the code: `Encoder::button` does not read the pin, so the
stored level of the Home button is what the object's storage held.  An encoder with
static storage on which `button(4, HOME)` was called while pin 4 read HIGH holds the
stored level LOW, and the first `update()` in which the pin still reads HIGH sends a
"/home" message tagged `EDGE_UP`. -/
theorem home_button_level_not_initialised :
    Sample.homeEncoder.buttonPin = 4 ∧
      Sample.homeEncoder.buttonMode = ButtonMode.HOME ∧
      Sample.homeEncoder.buttonPinLast = LOW ∧
      Sample.allHigh.buttonPin = HIGH ∧
      (Encoder.update 0 Sample.homeEncoder Sample.allHigh).2 =
        [{ address := "/eos/param/Pan/home", args := [OSCData.int EDGE_UP] }] ∧
      (Encoder.run 0 Sample.homeEncoder [Sample.allHigh, Sample.allHigh, Sample.allHigh]).2 =
        [{ address := "/eos/param/Pan/home", args := [OSCData.int EDGE_UP] }] := by
  decide

/-- C21: a Fine-mode button never emits on its own.  Every message `Wheel::update`
sends over any input sequence is a motion message (an address under
"/eos/active/wheel" ending in the index, one integer argument), and without a
falling edge of pin A it sends nothing; `Wheel::button(pin, HOME)` leaves the Wheel
unchanged; an Encoder whose button was installed in FINE mode sends motion messages
only, never a "/home" message; and for an Encoder whose button was installed in HOME
mode the motion messages of a call do not depend on the level of the button. -/
theorem fine_button_never_emits (shiftPin : Nat) (e : Encoder) (w : Wheel) (pin : Nat)
    (inputs : List EncoderInput) (i : EncoderInput) (x : Nat) (q : String)
    (hp : pin ≠ 0) :
    ((∀ m ∈ (Wheel.run shiftPin w inputs).2,
        (m.address = "/eos/active/wheel/" ++ decimal w.idx ∨
          m.address = "/eos/active/wheel/fine/" ++ decimal w.idx ∨
          m.address = "/eos/active/wheel/fine/fine/" ++ decimal w.idx) ∧
        ∃ a : Int, m.args = [OSCData.int a]) ∧
      (¬ (w.pinALast ≠ 0 ∧ toUInt8 i.pinA = 0) → (Wheel.update shiftPin w i).2 = []) ∧
      Wheel.button w pin ButtonMode.HOME = w) ∧
    (motionMessages "/eos/wheel"
        (Encoder.run shiftPin (e.button pin ButtonMode.FINE) inputs).2 =
        (Encoder.run shiftPin (e.button pin ButtonMode.FINE) inputs).2 ∧
      (∀ m ∈ (Encoder.run shiftPin (e.button pin ButtonMode.FINE) inputs).2,
        m.address ≠ "/eos/param/" ++ q ++ "/home") ∧
      (¬ ((e.button pin ButtonMode.FINE).pinALast ≠ 0 ∧ toUInt8 i.pinA = 0) →
        (Encoder.update shiftPin (e.button pin ButtonMode.FINE) i).2 = [])) ∧
    (motionMessages "/eos/wheel" (Encoder.update shiftPin (e.button pin ButtonMode.HOME) i).2 =
      motionMessages "/eos/wheel"
        (Encoder.update shiftPin (e.button pin ButtonMode.HOME) { i with buttonPin := x }).2) := by
  have hfine : (e.button pin ButtonMode.FINE).buttonPin = 0 ∨
      (e.button pin ButtonMode.FINE).buttonMode = ButtonMode.FINE := by
    right
    unfold Encoder.button
    rw [if_pos hp]
  have hhome : (e.button pin ButtonMode.HOME).buttonPin = 0 ∨
      (e.button pin ButtonMode.HOME).buttonMode = ButtonMode.HOME := by
    right
    unfold Encoder.button
    rw [if_pos hp]
  have honly := encoder_run_only_motion shiftPin (e.button pin ButtonMode.FINE) inputs hfine
  refine ⟨⟨?_, ?_, ?_⟩, ⟨honly, ?_, ?_⟩, ?_⟩
  · intro m hm
    exact ⟨(wheel_run_facts shiftPin w inputs).2 m hm, wheel_run_args shiftPin w inputs m hm⟩
  · intro h
    rw [wheel_update_out, if_neg h]
  · unfold Wheel.button
    simp
  · intro m hm heq
    rw [← honly] at hm
    have hpre := motionMessages_address _ _ m hm
    rw [heq, home_address_not_motion q] at hpre
    exact absurd hpre (by decide)
  · intro h
    rw [encoder_update_no_button shiftPin _ i hfine, encoder_updateMotion_out, if_neg h]
  · rw [encoder_update_motion, encoder_update_motion]
    exact encoder_updateMotion_button_level shiftPin _ i x hhome

/-- Witness of C21: the sample encoder with a Fine button installed on pin 4, polled
with a falling edge (shift and button asserted) and then with all pins HIGH, sends
motion messages only. -/
theorem fine_button_never_emits_witness :
    motionMessages "/eos/wheel"
        (Encoder.run 5 (Sample.encoder.button 4 ButtonMode.FINE)
          [Sample.fallingEdgeBoth, Sample.allHigh]).2 =
      (Encoder.run 5 (Sample.encoder.button 4 ButtonMode.FINE)
        [Sample.fallingEdgeBoth, Sample.allHigh]).2 :=
  (fine_button_never_emits 5 Sample.encoder Sample.wheel 4
    [Sample.fallingEdgeBoth, Sample.allHigh] Sample.allHigh 0 "Pan" (by decide)).2.1.1

/-- C22: the filtered value of a filter pass of `Fader::update` and
`Submaster::update` is a function of the present sample alone.  For every reading in
0..1023, with `r = analogRead >> 2`, it equals `max(THRESHOLD, r - THRESHOLD)`, that
is 4 for `r <= 8` and `r - 4` otherwise; it is monotonically non-decreasing in `r`;
and in a call in which the interval test passes the value stored afterwards is
`max(4, r - 4)` whatever was stored before, a value message being emitted exactly
when `max(4, r - 4)` differs from the stored value. -/
theorem filtered_value_depends_on_sample_only (f : Fader) (s : Submaster) (i : FaderInput)
    (a b : Nat) (hi : i.analogRead ≤ 1023) (ha : a ≤ 1023) (hb : b ≤ 1023)
    (hab : a >>> 2 ≤ b >>> 2) :
    (filtered i.analogRead = max THRESHOLD (((i.analogRead >>> 2 : Nat) : Int) - THRESHOLD) ∧
      (i.analogRead >>> 2 ≤ 8 → filtered i.analogRead = 4) ∧
      (8 < i.analogRead >>> 2 →
        filtered i.analogRead = ((i.analogRead >>> 2 : Nat) : Int) - 4) ∧
      filtered a ≤ filtered b) ∧
    (toUInt32 (f.updateTime + FADER_UPDATE_RATE_MS) < toUInt32 i.millisTest →
      (f.update i).1.analogLast = max (4 : Int) (((i.analogRead >>> 2 : Nat) : Int) - 4) ∧
      (sentAt f.faderPattern (f.update i).2 ≠ [] ↔
        max (4 : Int) (((i.analogRead >>> 2 : Nat) : Int) - 4) ≠ f.analogLast)) ∧
    (toUInt32 (s.updateTime + FADER_UPDATE_RATE_MS) < toUInt32 i.millisTest →
      (s.update i).1.analogLast = max (4 : Int) (((i.analogRead >>> 2 : Nat) : Int) - 4) ∧
      (sentAt s.subPattern (s.update i).2 ≠ [] ↔
        max (4 : Int) (((i.analogRead >>> 2 : Nat) : Int) - 4) ≠ s.analogLast)) := by
  have hmax := filtered_eq_max i.analogRead hi
  have hmax4 : filtered i.analogRead = max (4 : Int) (((i.analogRead >>> 2 : Nat) : Int) - 4) := hmax
  have heq := filtered_eq i.analogRead hi
  simp only [← Nat.shiftRight_eq_div_pow, Nat.reducePow] at heq
  have hdiv : i.analogRead / 4 = i.analogRead >>> 2 := by
    rw [Nat.shiftRight_eq_div_pow]
  rw [hdiv] at heq
  refine ⟨⟨hmax, ?_, ?_, filtered_mono a b ha hb hab⟩, ?_, ?_⟩
  · intro h
    rw [heq, if_pos h]
  · intro h
    rw [heq, if_neg (by omega)]
  · intro h
    have ho := fader_update_outcome f i
    rw [if_pos h] at ho
    simp only [analogOutcome, Prod.mk.injEq] at ho
    obtain ⟨o1, o2, -⟩ := ho
    obtain ⟨-, p2, p3, -, -⟩ := fader_filterPass_facts f i
    rw [o1, o2, ← hmax4, ← p2]
    exact ⟨rfl, p3.symm⟩
  · intro h
    have ho := submaster_update_outcome s i
    rw [if_pos h] at ho
    simp only [analogOutcome, Prod.mk.injEq] at ho
    obtain ⟨o1, o2, -⟩ := ho
    obtain ⟨-, p2, p3, -, -⟩ := submaster_filterPass_facts s i
    rw [o1, o2, ← hmax4, ← p2]
    exact ⟨rfl, p3.symm⟩

/-- Witness of C22: the sample fader polled at time 41 with raw reading 416 (sample
104) stores `max(4, 104 - 4)`. -/
theorem filtered_value_depends_on_sample_only_witness :
    (Sample.fader.update Sample.pass1).1.analogLast =
      max (4 : Int) (((Sample.pass1.analogRead >>> 2 : Nat) : Int) - 4) :=
  ((filtered_value_depends_on_sample_only Sample.fader Sample.submaster Sample.pass1 400 416
    (by decide) (by decide) (by decide) (by decide)).2.1 (by decide)).1

/-- C23: `Fader::faderBank(b)` and `Fader::faderNumber(n)` change only the stored
bank and fader number: the getters return `b` and `n`, every other member is
unchanged, the address string built at construction included, and every message
emitted by `update()` after the setters is at
"/eos/fader/<bank at construction>/<fader at construction>", followed by "/fire" or
"/stop" for the buttons. -/
theorem fader_setters_keep_address (analogPin firePin stopPin fader bank : Nat)
    (fireLevel stopLevel now : Nat) (f : Fader) (b n : Nat) (inputs : List FaderInput) :
    (((f.setFaderBank b).faderBank = b ∧ (f.setFaderNumber n).faderNumber = n ∧
        ((f.setFaderBank b).setFaderNumber n).faderBank = b ∧
        ((f.setFaderBank b).setFaderNumber n).faderNumber = n) ∧
      (f.setFaderBank b = { f with bank := b } ∧ f.setFaderNumber n = { f with fader := n }) ∧
      ((f.setFaderBank b).faderPattern = f.faderPattern ∧
        (f.setFaderBank b).fader = f.fader ∧
        (f.setFaderBank b).analogPin = f.analogPin ∧
        (f.setFaderBank b).firePin = f.firePin ∧
        (f.setFaderBank b).stopPin = f.stopPin ∧
        (f.setFaderBank b).analogLast = f.analogLast ∧
        (f.setFaderBank b).fireLast = f.fireLast ∧
        (f.setFaderBank b).stopLast = f.stopLast ∧
        (f.setFaderBank b).updateTime = f.updateTime) ∧
      ((f.setFaderNumber n).faderPattern = f.faderPattern ∧
        (f.setFaderNumber n).bank = f.bank ∧
        (f.setFaderNumber n).analogPin = f.analogPin ∧
        (f.setFaderNumber n).firePin = f.firePin ∧
        (f.setFaderNumber n).stopPin = f.stopPin ∧
        (f.setFaderNumber n).analogLast = f.analogLast ∧
        (f.setFaderNumber n).fireLast = f.fireLast ∧
        (f.setFaderNumber n).stopLast = f.stopLast ∧
        (f.setFaderNumber n).updateTime = f.updateTime)) ∧
    (∀ m ∈ ((((Fader.construct analogPin firePin stopPin fader bank fireLevel stopLevel
          now).setFaderBank b).setFaderNumber n).run inputs).2,
      m.address = "/eos/fader/" ++ decimal bank ++ "/" ++ decimal fader ∨
        m.address = "/eos/fader/" ++ decimal bank ++ "/" ++ decimal fader ++ "/fire" ∨
        m.address = "/eos/fader/" ++ decimal bank ++ "/" ++ decimal fader ++ "/stop") ∧
    (((((Fader.construct analogPin firePin stopPin fader bank fireLevel stopLevel
          now).setFaderBank b).setFaderNumber n).run inputs).1.faderPattern =
      "/eos/fader/" ++ decimal bank ++ "/" ++ decimal fader) := by
  refine ⟨⟨⟨rfl, rfl, rfl, rfl⟩, ⟨rfl, rfl⟩, ⟨rfl, rfl, rfl, rfl, rfl, rfl, rfl, rfl, rfl⟩,
    ⟨rfl, rfl, rfl, rfl, rfl, rfl, rfl, rfl, rfl⟩⟩, ?_, ?_⟩
  · intro m hm
    exact fader_run_addresses _ inputs m hm
  · exact fader_run_pattern _ inputs

/-- C10, counterexample: the sample fader in a filter pass with raw reading 416
stores the filtered value 100 and sends one value message; its argument is the
32 bit float 13041399 / 2 ^ 25, which is not the exact quotient
`(100 - 4) / 247 = 96 / 247`. -/
theorem fader_value_is_not_exact_quotient :
    Sample.pass1.analogRead ≤ 1023 ∧
      (Sample.fader.update Sample.pass1).1.analogLast = 100 ∧
      sentAt Sample.fader.faderPattern (Sample.fader.update Sample.pass1).2 =
        [{ address := "/eos/fader/1/2",
           args := [OSCData.float (13041399 / 33554432)] }] ∧
      normalised 100 = 96 / 247 ∧
      (13041399 / 33554432 : ℚ) ≠ 96 / 247 ∧
      ¬ (∀ m ∈ sentAt Sample.fader.faderPattern (Sample.fader.update Sample.pass1).2,
          m.args =
            [OSCData.float (normalised (Sample.fader.update Sample.pass1).1.analogLast)]) := by
  have h1 : toUInt32 (Sample.fader.updateTime + FADER_UPDATE_RATE_MS)
      < toUInt32 Sample.pass1.millisTest := by decide
  have h2 : filtered Sample.pass1.analogRead ≠ Sample.fader.analogLast := by decide
  have h3 : filtered Sample.pass1.analogRead = 100 := by decide
  have h4 : Sample.fader.faderPattern = "/eos/fader/1/2" := by decide
  have hn : normalised 100 = 96 / 247 := by
    rw [normalised_eq]; norm_num
  have hne : (13041399 / 33554432 : ℚ) ≠ 96 / 247 := by norm_num
  have hl : (Sample.fader.update Sample.pass1).1.analogLast = 100 := by
    rw [(fader_update_analog Sample.fader Sample.pass1).2.1, fader_updateAnalog_eq,
      if_pos h1, if_pos h2, h3]
  have hs : sentAt Sample.fader.faderPattern (Sample.fader.update Sample.pass1).2 =
      [{ address := "/eos/fader/1/2",
         args := [OSCData.float (13041399 / 33554432)] }] := by
    rw [(fader_update_analog Sample.fader Sample.pass1).1, fader_updateAnalog_eq,
      if_pos h1, if_pos h2, h3, h4, faderValue_samples.2.2]
  refine ⟨by decide, hl, hs, hn, hne, ?_⟩
  intro hall
  have hm := hall _ (by rw [hs]; exact List.mem_singleton.mpr rfl)
  rw [hl, hn] at hm
  simp only [List.cons.injEq, OSCData.float.injEq, and_true] at hm
  exact hne hm

/-- C10, amended: for every analog reading in 0..1023, a value message emitted by a
filter pass of `Fader::update` or `Submaster::update` carries the 32 bit float that
line 349 / 291 computes from the filtered value `f` stored by that pass: the
quotient `(f - THRESHOLD) / (255 - 2 * THRESHOLD) = (f - 4) / 247` rounded to
nearest, ties to even, to a 24 bit significand (rounding first to a double of 53
bits gives the same float). The argument is `mant / 2 ^ e` with `mant = 0` or
`2 ^ 23 ≤ mant ≤ 2 ^ 24` and `e ≤ 31`, it differs from the exact quotient by at
most half a unit in the last place and by at most `2 ^ (-25)`, it lies in the closed
range from 0 to 1, it is exactly 0 for reading 0 and exactly 1 for reading 1023. -/
theorem fader_value_is_rounded_quotient (f : Fader) (s : Submaster) (i : FaderInput)
    (hr : i.analogRead ≤ 1023) :
    (∀ m ∈ sentAt f.faderPattern (f.update i).2,
      m.args = [OSCData.float (faderValue (f.update i).1.analogLast)] ∧
      faderValue (f.update i).1.analogLast =
        ((roundBinary 24 ((f.update i).1.analogLast - 4).toNat 247).1 : ℚ) /
          ((roundBinary 24 ((f.update i).1.analogLast - 4).toNat 247).2 : ℚ) ∧
      normalised (f.update i).1.analogLast = (((f.update i).1.analogLast : ℚ) - 4) / 247 ∧
      (∃ mant e : Nat, (mant = 0 ∨ 2 ^ 23 ≤ mant) ∧ mant ≤ 2 ^ 24 ∧ e ≤ 31 ∧
        faderValue (f.update i).1.analogLast = (mant : ℚ) / 2 ^ e ∧
        |faderValue (f.update i).1.analogLast - normalised (f.update i).1.analogLast|
          ≤ 1 / 2 ^ (e + 1)) ∧
      |faderValue (f.update i).1.analogLast - normalised (f.update i).1.analogLast|
        ≤ 1 / 2 ^ 25 ∧
      0 ≤ faderValue (f.update i).1.analogLast ∧
      faderValue (f.update i).1.analogLast ≤ 1 ∧
      (i.analogRead = 0 → m.args = [OSCData.float 0]) ∧
      (i.analogRead = 1023 → m.args = [OSCData.float 1])) ∧
    (∀ m ∈ sentAt s.subPattern (s.update i).2,
      m.args = [OSCData.float (faderValue (s.update i).1.analogLast)] ∧
      faderValue (s.update i).1.analogLast =
        ((roundBinary 24 ((s.update i).1.analogLast - 4).toNat 247).1 : ℚ) /
          ((roundBinary 24 ((s.update i).1.analogLast - 4).toNat 247).2 : ℚ) ∧
      normalised (s.update i).1.analogLast = (((s.update i).1.analogLast : ℚ) - 4) / 247 ∧
      (∃ mant e : Nat, (mant = 0 ∨ 2 ^ 23 ≤ mant) ∧ mant ≤ 2 ^ 24 ∧ e ≤ 31 ∧
        faderValue (s.update i).1.analogLast = (mant : ℚ) / 2 ^ e ∧
        |faderValue (s.update i).1.analogLast - normalised (s.update i).1.analogLast|
          ≤ 1 / 2 ^ (e + 1)) ∧
      |faderValue (s.update i).1.analogLast - normalised (s.update i).1.analogLast|
        ≤ 1 / 2 ^ 25 ∧
      0 ≤ faderValue (s.update i).1.analogLast ∧
      faderValue (s.update i).1.analogLast ≤ 1 ∧
      (i.analogRead = 0 → m.args = [OSCData.float 0]) ∧
      (i.analogRead = 1023 → m.args = [OSCData.float 1])) := by
  have hfr := filtered_range i.analogRead hr
  obtain ⟨r1, r2, r3, r4⟩ := faderValue_rounded (filtered i.analogRead) hfr
  have r5 := faderValue_single_rounding (filtered i.analogRead) hfr
  have h0 : faderValue (filtered 0) = 0 := by
    have : filtered 0 = 4 := by decide
    rw [this]; exact faderValue_samples.1
  have h1 : faderValue (filtered 1023) = 1 := by
    have : filtered 1023 = 251 := by decide
    rw [this]; exact faderValue_samples.2.1
  refine ⟨?_, ?_⟩
  · obtain ⟨u1, u2, -⟩ := fader_update_analog f i
    intro m hm
    rw [u1] at hm
    obtain ⟨v1, v2⟩ := fader_updateAnalog_msg f i m hm
    rw [u2, v1]
    refine ⟨v2, r5, normalised_eq _, r1, r2, r3, r4, ?_, ?_⟩
    · intro hz; rw [v2, hz, h0]
    · intro hz; rw [v2, hz, h1]
  · obtain ⟨u1, u2, -⟩ := submaster_update_analog s i
    intro m hm
    rw [u1] at hm
    obtain ⟨v1, v2⟩ := submaster_updateAnalog_msg s i m hm
    rw [u2, v1]
    refine ⟨v2, r5, normalised_eq _, r1, r2, r3, r4, ?_, ?_⟩
    · intro hz; rw [v2, hz, h0]
    · intro hz; rw [v2, hz, h1]

/-- Witness of C10: the sample fader in a filter pass with raw reading 416 sends
the value message `Sample.valueMessage`, whose argument is the float computed from
the stored value. -/
theorem fader_value_is_rounded_quotient_witness :
    Sample.pass1.analogRead ≤ 1023 ∧
      Sample.valueMessage ∈ sentAt Sample.fader.faderPattern
        (Sample.fader.update Sample.pass1).2 ∧
      Sample.valueMessage.args =
        [OSCData.float (faderValue (Sample.fader.update Sample.pass1).1.analogLast)] :=
  have hm : Sample.valueMessage ∈ sentAt Sample.fader.faderPattern
      (Sample.fader.update Sample.pass1).2 := by
    have h1 : toUInt32 (Sample.fader.updateTime + FADER_UPDATE_RATE_MS)
        < toUInt32 Sample.pass1.millisTest := by decide
    have h2 : filtered Sample.pass1.analogRead ≠ Sample.fader.analogLast := by decide
    have h3 : filtered Sample.pass1.analogRead = 100 := by decide
    have h4 : Sample.fader.faderPattern = "/eos/fader/1/2" := by decide
    rw [(fader_update_analog Sample.fader Sample.pass1).1, fader_updateAnalog_eq,
      if_pos h1, if_pos h2, h3, h4]
    exact List.mem_singleton.mpr rfl
  ⟨by decide, hm,
    ((fader_value_is_rounded_quotient Sample.fader Sample.submaster Sample.pass1
      (by decide)).1 Sample.valueMessage hm).1⟩
